import Mathlib

/-!
# SMTP transaction engine of phishing-simulator: model and verified properties

A shallow embedding of `internal/smtp/client.go` (`Client.Send`) and of the
`/send` handler of `main.go`.

* Go strings are byte sequences: `GoString = List Byte`.  String literals of the
  source are written `lit "..."` (their UTF-8 bytes).
* The network peer is a script: the outcome of `net.Dial`, the replies found by
  the successive reads of a reply, and the outcomes of the successive
  write/flush operations.  `Send` returns the Go `error` (`none` is `nil`)
  together with the trace of transport actions it performed.
* Library calls (`net/textproto`, `bufio`, `encoding/base64`, `regexp`,
  `strings`) are modelled by what they do on this script; each such model says
  so in its doc comment.
-/

namespace PhishingSimulator

/-! ## Go strings -/

/-- One byte of a Go string. -/
abbrev Byte := Fin 256

/-- A Go `string`: an immutable sequence of bytes. -/
abbrev GoString := List Byte

/-- The bytes (UTF-8) of a string literal of the source. -/
def lit (s : String) : GoString :=
  (s.data.flatMap String.utf8EncodeChar).map (fun b => b.val)

/-- The line terminator `"\r\n"`. -/
def crlf : GoString := lit "\r\n"

/-- Decimal rendering of an integer, as `%d` of package `fmt` prints it. -/
def fmtInt (n : Int) : GoString := lit (toString n)

/-- The characters of a decimal numeral. -/
def decimalChars : List Char := ['-', '0', '1', '2', '3', '4', '5', '6', '7', '8', '9']

/-- Go `strings.Join(elems, sep)`. -/
def stringsJoin : List GoString → GoString → GoString
  | [], _ => []
  | [a], _ => a
  | a :: b :: rest, sep => a ++ sep ++ stringsJoin (b :: rest) sep

/-- Go `strings.ContainsAny(s, chars)` for a set `chars` of ASCII bytes: some
byte of `s` is one of `chars`. -/
def stringsContainsAny (s chars : GoString) : Bool :=
  s.any (fun b => chars.contains b)

/-- Put the byte `b` in front of the first line. -/
def consHead (b : Byte) : List GoString → List GoString
  | [] => [[b]]
  | l :: ls => (b :: l) :: ls

/-- Go `strings.Split(s, "\r\n")`: the lines of `s`, cut at every CRLF. -/
def stringsSplitCRLF : GoString → List GoString
  | [] => [[]]
  | [b] => [[b]]
  | b :: c :: rest =>
    if b = 13 ∧ c = 10 then [] :: stringsSplitCRLF rest
    else consHead b (stringsSplitCRLF (c :: rest))


/-! ## `encoding/base64`, standard encoding -/

/-- The alphabet of `base64.StdEncoding`. -/
def encodeStd : GoString :=
  lit "ABCDEFGHIJKLMNOPQRSTUVWXYZabcdefghijklmnopqrstuvwxyz0123456789+/"

/-- The padding character `'='` of `base64.StdEncoding`. -/
def stdPadding : Byte := 61

/-- The byte `enc.encode[i]` of the standard alphabet. -/
def encodeByte (i : Nat) : Byte := encodeStd.getD i 0

/-- Model of `base64.StdEncoding.EncodeToString`: every three source bytes form
a 24-bit value `val` that is cut into four 6-bit indices into the alphabet; a
remainder of one or two bytes is encoded with `=` padding. -/
def base64EncodeToString : List Byte → GoString
  | [] => []
  | [a] =>
    let val := a.val * 65536
    [encodeByte (val / 262144 % 64), encodeByte (val / 4096 % 64), stdPadding, stdPadding]
  | [a, b] =>
    let val := a.val * 65536 + b.val * 256
    [encodeByte (val / 262144 % 64), encodeByte (val / 4096 % 64),
      encodeByte (val / 64 % 64), stdPadding]
  | a :: b :: c :: rest =>
    let val := a.val * 65536 + b.val * 256 + c.val
    encodeByte (val / 262144 % 64) :: encodeByte (val / 4096 % 64) ::
      encodeByte (val / 64 % 64) :: encodeByte (val % 64) :: base64EncodeToString rest

/-- The 6-bit value of a character of the standard alphabet, if it is one. -/
def decodeByte (b : Byte) : Option Nat :=
  let i := encodeStd.indexOf b
  if i < 64 then some i else none

/-- The byte with value `n % 256`. -/
def byteOf (n : Nat) : Byte := ⟨n % 256, Nat.mod_lt _ (by decide)⟩

/-- Standard base64 decoding (RFC 4648, section 4): the text is cut into groups
of four characters; padding may only end the last group; anything else is
rejected. -/
def base64Decode : GoString → Option (List Byte)
  | [] => some []
  | [w, x, y, z] =>
    match decodeByte w, decodeByte x with
    | some p, some q =>
      if y = stdPadding ∧ z = stdPadding then
        some [byteOf ((p * 262144 + q * 4096) / 65536)]
      else
        match decodeByte y with
        | none => none
        | some r =>
          if z = stdPadding then
            let val := p * 262144 + q * 4096 + r * 64
            some [byteOf (val / 65536), byteOf (val / 256)]
          else
            match decodeByte z with
            | none => none
            | some s =>
              let val := p * 262144 + q * 4096 + r * 64 + s
              some [byteOf (val / 65536), byteOf (val / 256), byteOf val]
    | _, _ => none
  | w :: x :: y :: z :: rest =>
    match decodeByte w, decodeByte x, decodeByte y, decodeByte z, base64Decode rest with
    | some p, some q, some r, some s, some tl =>
      let val := p * 262144 + q * 4096 + r * 64 + s
      some (byteOf (val / 65536) :: byteOf (val / 256) :: byteOf val :: tl)
    | _, _, _, _, _ => none
  | _ => none


/-! ## The client and its transport -/

/-- The struct `Client` of `internal/smtp/client.go`. -/
structure Client where
  Host : GoString
  Port : GoString
  Username : GoString
  Password : GoString
  SenderEmail : GoString
  SenderName : GoString
  InsecureSkipVerify : Bool
  deriving DecidableEq, Repr

/-- The constructor `NewClient`. -/
def NewClient (host port username password senderEmail senderName : GoString)
    (insecureSkipVerify : Bool) : Client :=
  { Host := host, Port := port, Username := username, Password := password,
    SenderEmail := senderEmail, SenderName := senderName,
    InsecureSkipVerify := insecureSkipVerify }

/-- What the variable `tp` of `Send` reads and writes through: the TCP
connection itself, or the `tls.Client` wrapper over that same connection, with
the two fields of its `tls.Config`.  The wrapper performs its handshake on the
first write through it. -/
inductive Transport
  | plain
  | tls (insecureSkipVerify : Bool) (serverName : GoString)
  deriving DecidableEq, Repr

/-- What one read of a reply finds: a well-formed reply with its three-digit
code (100 to 999), or a failure (I/O error, end of stream, or a line that is
not a reply, which includes a line with any other code). -/
inductive Reply
  | code (c : Nat)
  | fail
  deriving DecidableEq, Repr

/-- The Go `error` of a transport operation: the `*textproto.Error` carrying
the unexpected reply code, or any other (I/O) error. -/
inductive Cause
  | unexpected (code : Nat)
  | io
  deriving DecidableEq, Repr

/-- One transport action of a run of `Send`. -/
inductive Event
  /-- The call `net.Dial("tcp", address)` and whether it succeeded. -/
  | dial (address : GoString) (ok : Bool)
  /-- The call `tp.Cmd(...)`: the formatted line, followed by CRLF, written and flushed. -/
  | cmd (tp : Transport) (line : GoString) (ok : Bool)
  /-- The call `tp.Writer.W.WriteString(s)`. -/
  | writeString (tp : Transport) (s : GoString) (ok : Bool)
  /-- The call `tp.Writer.W.Flush()`. -/
  | flush (tp : Transport) (ok : Bool)
  /-- The call `tp.ReadResponse(expectCode)` and what it found. -/
  | read (tp : Transport) (expectCode : Nat) (r : Reply)
  /-- The deferred call `conn.Close()`. -/
  | close
  deriving DecidableEq, Repr

/-- A time as package `time` breaks it down for formatting: the date and clock
in local time, the day of the week (Sunday is 0), the month (January is 0) and
the offset of the zone in seconds east of UTC. -/
structure Time where
  year : Int
  month : Fin 12
  day : Nat
  hour : Nat
  minute : Nat
  second : Nat
  weekday : Fin 7
  zoneOffset : Int
  deriving DecidableEq, Repr

/-- Model of `appendInt` of package `time`: the decimal form of `x`, a minus
sign first when it is negative, its digits padded with zeros up to `width`. -/
def appendInt (x : Int) (width : Nat) : GoString :=
  (if x < 0 then lit "-" else []) ++
    List.replicate (width - (fmtInt x.natAbs).length) 48 ++ fmtInt x.natAbs

/-- The first three letters of the name of a day of the week. -/
def weekdayAbbrev (d : Fin 7) : GoString :=
  [lit "Sun", lit "Mon", lit "Tue", lit "Wed", lit "Thu", lit "Fri", lit "Sat"].getD d.val []

/-- The first three letters of the name of a month. -/
def monthAbbrev (m : Fin 12) : GoString :=
  [lit "Jan", lit "Feb", lit "Mar", lit "Apr", lit "May", lit "Jun", lit "Jul", lit "Aug",
    lit "Sep", lit "Oct", lit "Nov", lit "Dec"].getD m.val []

/-- Model of `t.Format(time.RFC1123Z)`, the layout
`"Mon, 02 Jan 2006 15:04:05 -0700"`.  The zone is the sign of the offset in
whole minutes, then its hours and minutes. -/
def formatRFC1123Z (t : Time) : GoString :=
  weekdayAbbrev t.weekday ++ lit ", " ++ appendInt t.day 2 ++ lit " " ++
  monthAbbrev t.month ++ lit " " ++ appendInt t.year 4 ++ lit " " ++
  appendInt t.hour 2 ++ lit ":" ++ appendInt t.minute 2 ++ lit ":" ++ appendInt t.second 2 ++
  lit " " ++ (if t.zoneOffset ≤ -60 then lit "-" else lit "+") ++
  appendInt (t.zoneOffset.natAbs / 60 / 60 : Nat) 2 ++
  appendInt (t.zoneOffset.natAbs / 60 % 60 : Nat) 2

/-- The scripted peer and clock of one call of `Send`. -/
structure Env where
  /-- Whether `net.Dial` succeeds. -/
  dialOk : Bool
  /-- What the successive reads of a reply find; past the end of the script
  every read fails (the peer is gone). -/
  replies : List Reply
  /-- Whether the successive write/flush operations succeed; past the end of
  the script they all do. -/
  writes : List Bool
  /-- The value of the first `time.Now()`, broken down in local time. -/
  now : Time
  /-- The value of `time.Now().UnixNano()`, from the second reading of the clock. -/
  unixNano : Int
  deriving Repr

/-- The value of `time.Now().Format(time.RFC1123Z)`. -/
def Env.date (env : Env) : GoString := formatRFC1123Z env.now

/-- The state of a run: what is left of the script, and the trace so far. -/
structure World where
  replies : List Reply
  writes : List Bool
  trace : List Event
  deriving DecidableEq, Repr

/-- The next write/flush outcome of the script, and the script after it. -/
def World.nextWrite (w : World) : Bool × List Bool :=
  match w.writes with
  | [] => (true, [])
  | ok :: rest => (ok, rest)

/-- The next reply of the script, and the script after it. -/
def World.nextReply (w : World) : Reply × List Reply :=
  match w.replies with
  | [] => (Reply.fail, [])
  | r :: rest => (r, rest)

/-- The test of `textproto`'s `parseCodeLine`: does `code` violate
`expectCode`?  (One digit expects the class, two digits the first two digits,
three digits the code itself.) -/
def codeMismatch (expectCode code : Nat) : Bool :=
  (1 ≤ expectCode && expectCode < 10 && code / 100 != expectCode) ||
  (10 ≤ expectCode && expectCode < 100 && code / 10 != expectCode) ||
  (100 ≤ expectCode && expectCode < 1000 && code != expectCode)

/-- Model of `tp.ReadResponse(expectCode)`: the code read (0 when nothing could
be read) and the error. -/
def readResponse (tp : Transport) (expectCode : Nat) (w : World) :
    (Nat × Option Cause) × World :=
  let (r, rest) := w.nextReply
  let w1 : World := { w with replies := rest, trace := w.trace ++ [Event.read tp expectCode r] }
  match r with
  | Reply.fail => ((0, some Cause.io), w1)
  | Reply.code c =>
    if codeMismatch expectCode c then ((c, some (Cause.unexpected c)), w1)
    else ((c, none), w1)

/-- Model of `tp.Cmd(format, args...)` where `line` is the formatted command:
`PrintfLine` writes the line and CRLF and flushes; the error is that of the
flush. -/
def Cmd (tp : Transport) (line : GoString) (w : World) : Option Cause × World :=
  let (ok, rest) := w.nextWrite
  let w1 : World := { w with writes := rest, trace := w.trace ++ [Event.cmd tp line ok] }
  if ok then (none, w1) else (some Cause.io, w1)

/-- Model of `tp.Writer.W.WriteString(s)`. -/
def WriteString (tp : Transport) (s : GoString) (w : World) : Option Cause × World :=
  let (ok, rest) := w.nextWrite
  let w1 : World := { w with writes := rest, trace := w.trace ++ [Event.writeString tp s ok] }
  if ok then (none, w1) else (some Cause.io, w1)

/-- Model of `tp.Writer.W.Flush()`. -/
def Flush (tp : Transport) (w : World) : Option Cause × World :=
  let (ok, rest) := w.nextWrite
  let w1 : World := { w with writes := rest, trace := w.trace ++ [Event.flush tp ok] }
  if ok then (none, w1) else (some Cause.io, w1)

/-- The closure `sendCommand` of `Send` (lines 52-63), called with the current
value of the captured variable `tp`: send the command, then read the reply. -/
def sendCommand (tp : Transport) (expectCode : Nat) (line : GoString) (w : World) :
    Option Cause × World :=
  match Cmd tp line w with
  | (some err, w1) => (some err, w1)
  | (none, w1) =>
    match readResponse tp expectCode w1 with
    | ((_, some err), w2) => (some err, w2)
    | ((_, none), w2) => (none, w2)


/-! ## The method `Send` -/

/-- The message of each `fmt.Errorf` of `Send`. -/
inductive ErrTag
  /-- Message "failed to connect to SMTP server". -/
  | connect
  /-- Message "greeting failed". -/
  | greeting
  /-- Message "EHLO failed". -/
  | ehlo
  /-- Message "post-TLS EHLO failed". -/
  | postTlsEhlo
  /-- Message "AUTH PLAIN failed". -/
  | authPlain
  /-- Message "MAIL FROM failed". -/
  | mailFrom
  /-- Message "RCPT TO failed". -/
  | rcptTo
  /-- Message "DATA failed". -/
  | data
  /-- Message "failed to write body". -/
  | writeBody
  /-- Message "failed to write terminator". -/
  | writeTerminator
  /-- Message "failed to flush body". -/
  | flushBody
  /-- Message "message data confirmation failed". -/
  | dataConfirm
  deriving DecidableEq, Repr

/-- The error `fmt.Errorf("<message>: %w", err)` returned by `Send`. -/
structure SendError where
  tag : ErrTag
  cause : Cause
  deriving DecidableEq, Repr

/-- The slice `headers` of `Send` (lines 119-127). -/
def headers (c : Client) (toAddr subject : GoString) (date : GoString) (unixNano : Int) :
    List GoString :=
  [ lit "From: " ++ c.SenderName ++ lit " <" ++ c.SenderEmail ++ lit ">",
    lit "To: " ++ toAddr,
    lit "Subject: " ++ subject,
    lit "Date: " ++ date,
    lit "Message-ID: <" ++ fmtInt unixNano ++ lit "@whitehouse.gov>",
    lit "MIME-Version: 1.0",
    lit "Content-Type: text/plain; charset=UTF-8" ]

/-- The string `msg` of `Send` (line 129). -/
def composeMsg (c : Client) (toAddr subject body : GoString) (date : GoString) (unixNano : Int) :
    GoString :=
  stringsJoin (headers c toAddr subject date unixNano) (lit "\r\n") ++ lit "\r\n\r\n" ++ body
    ++ lit "\r\n."

/-- The method `Send` from the AUTH PLAIN block to the end (lines 92-152), run with the
transport `tp` that the STARTTLS block left in place. -/
def sendFromAuth (c : Client) (toAddr subject body : GoString) (date : GoString) (unixNano : Int)
    (tp : Transport) (w : World) : Option SendError × World :=
  -- 3.5 AUTH PLAIN (If configured)
  let (authErr, w1) :=
    if c.Username ≠ [] ∧ c.Password ≠ [] then
      let identity : GoString := []
      let auth := identity ++ lit "\x00" ++ c.Username ++ lit "\x00" ++ c.Password
      let authStr := base64EncodeToString auth
      sendCommand tp 235 (lit "AUTH PLAIN " ++ authStr) w
    else (none, w)
  match authErr with
  | some err => (some ⟨ErrTag.authPlain, err⟩, w1)
  | none =>
  -- 4. MAIL FROM
  match sendCommand tp 250 (lit "MAIL FROM:<" ++ c.Username ++ lit ">") w1 with
  | (some err, w2) => (some ⟨ErrTag.mailFrom, err⟩, w2)
  | (none, w2) =>
  -- 5. RCPT TO
  match sendCommand tp 250 (lit "RCPT TO:<" ++ toAddr ++ lit ">") w2 with
  | (some err, w3) => (some ⟨ErrTag.rcptTo, err⟩, w3)
  | (none, w3) =>
  -- 6. DATA
  match sendCommand tp 354 (lit "DATA") w3 with
  | (some err, w4) => (some ⟨ErrTag.data, err⟩, w4)
  | (none, w4) =>
  -- 7. Inject Headers & Body
  let msg := composeMsg c toAddr subject body date unixNano
  match WriteString tp msg w4 with
  | (some err, w5) => (some ⟨ErrTag.writeBody, err⟩, w5)
  | (none, w5) =>
  match WriteString tp (lit "\r\n") w5 with
  | (some err, w6) => (some ⟨ErrTag.writeTerminator, err⟩, w6)
  | (none, w6) =>
  match Flush tp w6 with
  | (some err, w7) => (some ⟨ErrTag.flushBody, err⟩, w7)
  | (none, w7) =>
  -- 8. Wait for DATA confirmation
  match readResponse tp 250 w7 with
  | ((_, some err), w8) => (some ⟨ErrTag.dataConfirm, err⟩, w8)
  | ((_, none), w8) =>
  -- 9. QUIT
  let (_, w9) := sendCommand tp 221 (lit "QUIT") w8
  (none, w9)

/-- The method `Send` on the open connection (lines 44-90, then `sendFromAuth`): greeting,
EHLO, and the STARTTLS block, which may replace `tp`. -/
def sendOnConn (c : Client) (toAddr subject body : GoString) (date : GoString) (unixNano : Int)
    (w : World) : Option SendError × World :=
  let tp := Transport.plain
  -- 1. Read greeting
  match readResponse tp 220 w with
  | ((_, some err), w1) => (some ⟨ErrTag.greeting, err⟩, w1)
  | ((_, none), w1) =>
  -- 2. EHLO
  match sendCommand tp 250 (lit "EHLO localhost") w1 with
  | (some err, w2) => (some ⟨ErrTag.ehlo, err⟩, w2)
  | (none, w2) =>
  -- 3. STARTTLS
  match Cmd tp (lit "STARTTLS") w2 with
  | (some _, w3) => sendFromAuth c toAddr subject body date unixNano tp w3
  | (none, w3) =>
    match readResponse tp 220 w3 with
    | ((code, err), w4) =>
      if err = none ∧ code = 220 then
        -- Handshake
        let tp := Transport.tls c.InsecureSkipVerify c.Host
        -- Re-EHLO
        match sendCommand tp 250 (lit "EHLO localhost") w4 with
        | (some err, w5) => (some ⟨ErrTag.postTlsEhlo, err⟩, w5)
        | (none, w5) => sendFromAuth c toAddr subject body date unixNano tp w5
      else sendFromAuth c toAddr subject body date unixNano tp w4

/-- The result of one call of `Send`: the returned error (`none` is `nil`) and
the transport actions performed, in order. -/
structure Outcome where
  err : Option SendError
  trace : List Event
  deriving DecidableEq, Repr

/-- The method `Client.Send` (lines 36-153).  The deferred `conn.Close()` runs
when the function returns, on every path after a successful dial. -/
def Send (c : Client) (toAddr subject body : GoString) (env : Env) : Outcome :=
  let address := c.Host ++ lit ":" ++ c.Port
  if env.dialOk = false then
    { err := some ⟨ErrTag.connect, Cause.io⟩, trace := [Event.dial address false] }
  else
    let w0 : World :=
      { replies := env.replies, writes := env.writes, trace := [Event.dial address true] }
    let (err, w) := sendOnConn c toAddr subject body env.date env.unixNano w0
    { err := err, trace := w.trace ++ [Event.close] }


/-! ## The `/send` handler of `main.go` -/

/-- A regular expression over bytes. -/
inductive Regex
  /-- Matches nothing. -/
  | none
  /-- Matches the empty string. -/
  | eps
  /-- A character class: one byte in one of the inclusive ranges. -/
  | cls (ranges : List (Nat × Nat))
  /-- Concatenation. -/
  | cat (r s : Regex)
  /-- Alternation. -/
  | alt (r s : Regex)
  /-- Zero or more repetitions. -/
  | star (r : Regex)
  deriving Repr

/-- One or more repetitions, `r+`. -/
def Regex.plus (r : Regex) : Regex := Regex.cat r (Regex.star r)

/-- Two or more repetitions, `r{2,}`. -/
def Regex.atLeastTwo (r : Regex) : Regex := Regex.cat r (Regex.cat r (Regex.star r))

/-- The byte `b` alone. -/
def Regex.byte (b : Nat) : Regex := Regex.cls [(b, b)]

/-- Does the expression match the empty string? -/
def Regex.nullable : Regex → Bool
  | Regex.none => false
  | Regex.eps => true
  | Regex.cls _ => false
  | Regex.cat r s => r.nullable && s.nullable
  | Regex.alt r s => r.nullable || s.nullable
  | Regex.star _ => true

/-- Is the byte in one of the inclusive ranges? -/
def inRanges (ranges : List (Nat × Nat)) (b : Byte) : Bool :=
  ranges.any (fun lh => lh.1 ≤ b.val && b.val ≤ lh.2)

/-- The expression that matches what is left of a match after the byte `b`. -/
def Regex.deriv (b : Byte) : Regex → Regex
  | Regex.none => Regex.none
  | Regex.eps => Regex.none
  | Regex.cls ranges => if inRanges ranges b then Regex.eps else Regex.none
  | Regex.cat r s =>
    if r.nullable then Regex.alt (Regex.cat (r.deriv b) s) (s.deriv b)
    else Regex.cat (r.deriv b) s
  | Regex.alt r s => Regex.alt (r.deriv b) (s.deriv b)
  | Regex.star r => Regex.cat (r.deriv b) (Regex.star r)

/-- Model of `regexp.MatchString(pattern, s)` for a pattern `^r$`: the whole
of `s` matches `r`.  (The package matches runes; the classes of the pattern
used here hold ASCII characters only, which are single bytes and occur in no
multi-byte sequence.) -/
def regexpMatchString (r : Regex) (s : GoString) : Bool :=
  (s.foldl (fun q b => q.deriv b) r).nullable

/-- The pattern `^[a-zA-Z0-9._%+-]+@[a-zA-Z0-9.-]+\.[a-zA-Z]{2,}$` of the
handler, without its anchors. -/
def emailRegex : Regex :=
  Regex.cat (Regex.plus (Regex.cls [(97, 122), (65, 90), (48, 57), (46, 46), (95, 95), (37, 37),
    (43, 43), (45, 45)]))
  (Regex.cat (Regex.byte 64)
  (Regex.cat (Regex.plus (Regex.cls [(97, 122), (65, 90), (48, 57), (46, 46), (45, 45)]))
  (Regex.cat (Regex.byte 46)
  (Regex.atLeastTwo (Regex.cls [(97, 122), (65, 90)])))))

/-- Is the byte one of the ASCII white space characters `\t \n \v \f \r` and
space? -/
def isAsciiSpace (b : Byte) : Bool := (9 ≤ b.val && b.val ≤ 13) || b.val = 32

/-- Model of `len(strings.TrimSpace(s)) == 0`: the string holds nothing but
white space, in the sense of `unicode.IsSpace` on its UTF-8 runes (the ASCII
white space, U+0085, U+00A0, U+1680, U+2000 to U+200A, U+2028, U+2029, U+202F,
U+205F, U+3000). -/
def trimSpaceIsEmpty : GoString → Bool
  | [] => true
  | b :: rest =>
    if isAsciiSpace b then trimSpaceIsEmpty rest
    else
      match rest with
      | [] => false
      | b2 :: rest2 =>
        if b.val = 0xC2 ∧ (b2.val = 0x85 ∨ b2.val = 0xA0) then trimSpaceIsEmpty rest2
        else
          match rest2 with
          | [] => false
          | b3 :: rest3 =>
            if (b.val = 0xE1 ∧ b2.val = 0x9A ∧ b3.val = 0x80) ∨
                (b.val = 0xE2 ∧ b2.val = 0x80 ∧
                  ((0x80 ≤ b3.val ∧ b3.val ≤ 0x8A) ∨ b3.val = 0xA8 ∨ b3.val = 0xA9 ∨
                    b3.val = 0xAF)) ∨
                (b.val = 0xE2 ∧ b2.val = 0x81 ∧ b3.val = 0x9F) ∨
                (b.val = 0xE3 ∧ b2.val = 0x80 ∧ b3.val = 0x80) then
              trimSpaceIsEmpty rest3
            else false

/-- The struct `Config` of `config/config.go`. -/
structure Config where
  Port : GoString
  SMTPHost : GoString
  SMTPPort : GoString
  SMTPSenderEmail : GoString
  SMTPSenderName : GoString
  SMTPSenderUser : GoString
  SMTPSenderPass : GoString
  InsecureSkipVerify : Bool
  deriving DecidableEq, Repr

/-- The struct `PageData` of `main.go`. -/
structure PageData where
  Success : GoString
  Error : GoString
  deriving DecidableEq, Repr

/-- What the handler writes to the client. -/
inductive Response
  /-- The call `http.Error(w, "Method not allowed", http.StatusMethodNotAllowed)`. -/
  | methodNotAllowed
  /-- The call `tmpl.Execute(w, data)`. -/
  | page (data : PageData)
  deriving DecidableEq, Repr

/-- A call `client.Send(to, subject, body)` made by the handler. -/
structure SendCall where
  client : Client
  toAddr : GoString
  subject : GoString
  body : GoString
  outcome : Outcome
  deriving DecidableEq, Repr

/-- The outcome of the handler: its response, and the call of `Send` it made,
if any. -/
structure HandlerResult where
  response : Response
  sendCall : Option SendCall
  deriving DecidableEq, Repr

/-- The handler of `/send` (lines 41-98 of `main.go`), on a request with the
given method and form values.  `errText` is the text `%v` prints for an error
of `Send`; `env` is the peer `Send` finds. -/
def sendHandler (cfg : Config) (errText : SendError → GoString)
    (method toAddr subject body : GoString) (env : Env) : HandlerResult :=
  if method ≠ lit "POST" then
    { response := Response.methodNotAllowed, sendCall := none }
  -- Basic Validation: All fields required, body must not be empty
  else if toAddr = [] ∨ subject = [] ∨ trimSpaceIsEmpty body = true then
    { response := Response.page
        { Success := [], Error := lit "All fields are required (body must not be empty)." },
      sendCall := none }
  -- Validation 1: Strict Email Regex (must have dot)
  else if regexpMatchString emailRegex toAddr = false then
    { response := Response.page
        { Success := [],
          Error := lit "Invalid recipient email format (must be user@domain.tld)." },
      sendCall := none }
  -- Validation 2: Character Count Limit (Max 1000 chars)
  else if body.length > 1000 then
    { response := Response.page
        { Success := [],
          Error := lit "Body too long! Limit is 1000 characters (current: " ++
            fmtInt body.length ++ lit ")." },
      sendCall := none }
  -- Security: Prevent Header Injection via Form
  else if stringsContainsAny toAddr (lit "\r\n") = true ∨
      stringsContainsAny subject (lit "\r\n") = true then
    { response := Response.page { Success := [], Error := lit "Invalid input detected." },
      sendCall := none }
  else
    let client := NewClient cfg.SMTPHost cfg.SMTPPort cfg.SMTPSenderUser cfg.SMTPSenderPass
      cfg.SMTPSenderEmail cfg.SMTPSenderName cfg.InsecureSkipVerify
    let out := Send client toAddr subject body env
    match out.err with
    | some err =>
      { response := Response.page
          { Success := [], Error := lit "Failed to send email: " ++ errText err },
        sendCall := some ⟨client, toAddr, subject, body, out⟩ }
    | none =>
      { response := Response.page
          { Success := lit "Email successfully spoofed and sent!", Error := [] },
        sendCall := some ⟨client, toAddr, subject, body, out⟩ }


/-! ## The protocol steps of the specification

The steps of one transaction as the specification lists them, with the reply
code each requires, and the result the specification gives to a transaction:
the first mandatory step that fails. -/

/-- The steps of a mail transaction. -/
inductive Step
  | connect
  | greeting
  | ehlo
  | starttls
  | postTlsEhlo
  | authPlain
  | mailFrom
  | rcptTo
  | data
  | message
  | dataConfirm
  | quit
  deriving DecidableEq, Repr

/-- The step whose failure an error message of `Send` reports. -/
def ErrTag.step : ErrTag → Step
  | ErrTag.connect => Step.connect
  | ErrTag.greeting => Step.greeting
  | ErrTag.ehlo => Step.ehlo
  | ErrTag.postTlsEhlo => Step.postTlsEhlo
  | ErrTag.authPlain => Step.authPlain
  | ErrTag.mailFrom => Step.mailFrom
  | ErrTag.rcptTo => Step.rcptTo
  | ErrTag.data => Step.data
  | ErrTag.writeBody => Step.message
  | ErrTag.writeTerminator => Step.message
  | ErrTag.flushBody => Step.message
  | ErrTag.dataConfirm => Step.dataConfirm

/-- Every step is mandatory but STARTTLS and QUIT. -/
def Step.mandatory : Step → Bool
  | Step.starttls => false
  | Step.quit => false
  | _ => true

/-- The reply code a step requires, for the steps that read a reply. -/
def Step.requiredCode : Step → Option Nat
  | Step.connect => none
  | Step.greeting => some 220
  | Step.ehlo => some 250
  | Step.starttls => some 220
  | Step.postTlsEhlo => some 250
  | Step.authPlain => some 235
  | Step.mailFrom => some 250
  | Step.rcptTo => some 250
  | Step.data => some 354
  | Step.message => none
  | Step.dataConfirm => some 250
  | Step.quit => some 221

/-- The number of write/flush operations of a step: one command for a command
step; write, terminator and flush for the message; none for a step that only
reads (or only connects). -/
def Step.writeCount : Step → Nat
  | Step.connect => 0
  | Step.greeting => 0
  | Step.dataConfirm => 0
  | Step.message => 3
  | _ => 1

/-- What is left of the server's script. -/
structure Script where
  replies : List Reply
  writes : List Bool
  deriving DecidableEq, Repr

/-- The script a state of the run holds. -/
def World.script (w : World) : Script := { replies := w.replies, writes := w.writes }

/-- Performing `n` writes against the script of write outcomes: whether all
succeeded, and the script left (a failed write ends the step). -/
def doWrites : Nat → List Bool → Bool × List Bool
  | 0, ws => (true, ws)
  | _ + 1, [] => (true, [])
  | n + 1, true :: ws => doWrites n ws
  | _ + 1, false :: ws => (false, ws)

/-- Whether a reply fails a step that requires code `k`, and with what. -/
def replyFailure (k : Nat) : Reply → Option Cause
  | Reply.fail => some Cause.io
  | Reply.code c => if c = k then none else some (Cause.unexpected c)

/-- Performing one step against the script: the step fails when one of its
writes fails, or when the reply it reads is missing or does not carry the
required code. -/
def Step.perform (s : Step) (sc : Script) : Option Cause × Script :=
  match doWrites s.writeCount sc.writes with
  | (false, ws) => (some Cause.io, { replies := sc.replies, writes := ws })
  | (true, ws) =>
    match s.requiredCode with
    | none => (none, { replies := sc.replies, writes := ws })
    | some k =>
      match sc.replies with
      | [] => (some Cause.io, { replies := [], writes := ws })
      | r :: rest => (replyFailure k r, { replies := rest, writes := ws })

/-- The first mandatory step of the list that fails, with its cause, when the
steps are performed in order; the failure of a step that is not mandatory is
passed over. -/
def firstFailure : List Step → Script → Option (Step × Cause) × Script
  | [], sc => (none, sc)
  | s :: rest, sc =>
    match s.perform sc with
    | (some cause, sc1) => if s.mandatory then (some (s, cause), sc1) else firstFailure rest sc1
    | (none, sc1) => firstFailure rest sc1

/-- The result the specification gives to `send`: connect, greeting, EHLO;
then STARTTLS, followed by the post-TLS EHLO only when STARTTLS was answered
220; then AUTH PLAIN only when it is attempted; then MAIL FROM, RCPT TO, DATA,
the message, the end-of-data confirmation and QUIT.  `none` is success. -/
def specSend (attemptAuth : Bool) (env : Env) : Option (Step × Cause) :=
  if env.dialOk = false then some (Step.connect, Cause.io)
  else
    match firstFailure [Step.greeting, Step.ehlo] { replies := env.replies, writes := env.writes } with
    | (some f, _) => some f
    | (none, sc1) =>
      match Step.starttls.perform sc1 with
      | (tlsFailure, sc2) =>
        (firstFailure
          ((if tlsFailure = none then [Step.postTlsEhlo] else []) ++
            (if attemptAuth then [Step.authPlain] else []) ++
            [Step.mailFrom, Step.rcptTo, Step.data, Step.message, Step.dataConfirm, Step.quit])
          sc2).1

/-- The step and cause an error of `Send` reports. -/
def SendError.report (e : SendError) : Step × Cause := (e.tag.step, e.cause)

/-- The DATA content as the specification words it: the seven header lines in
order, each followed by CRLF, then the CRLF of the blank line, the body as it
is, `"\r\n."`, and a final CRLF. -/
def specDataContent (senderName senderEmail toAddr subject body date : GoString)
    (unixNano : Int) : GoString :=
  lit "From: " ++ senderName ++ lit " <" ++ senderEmail ++ lit ">" ++ crlf ++
  lit "To: " ++ toAddr ++ crlf ++
  lit "Subject: " ++ subject ++ crlf ++
  lit "Date: " ++ date ++ crlf ++
  lit "Message-ID: <" ++ fmtInt unixNano ++ lit "@whitehouse.gov>" ++ crlf ++
  lit "MIME-Version: 1.0" ++ crlf ++
  lit "Content-Type: text/plain; charset=UTF-8" ++ crlf ++
  crlf ++
  body ++ lit "\r\n." ++ crlf


/-! ## The run of `Send` as a plan of operations

The body of `Send` is a fixed list of operations, run in order up to the first
failure of a tagged one; the relations below say which traces such a run can
leave.  They serve the proofs only. -/

/-- One operation on the transport. -/
inductive Op
  /-- The call `sendCommand(expectCode, line)`. -/
  | command (line : GoString) (expectCode : Nat)
  /-- The call `tp.ReadResponse(expectCode)`. -/
  | readReply (expectCode : Nat)
  /-- The call `w.WriteString(s)`. -/
  | writeString (s : GoString)
  /-- The call `w.Flush()`. -/
  | flush
  deriving DecidableEq, Repr

/-- Running one operation: its error and the state after it. -/
def Op.run (tp : Transport) : Op → World → Option Cause × World
  | Op.command line k, w => sendCommand tp k line w
  | Op.readReply k, w => ((readResponse tp k w).1.2, (readResponse tp k w).2)
  | Op.writeString s, w => WriteString tp s w
  | Op.flush, w => Flush tp w

/-- Running a list of operations in order.  An operation paired with
`some tag` ends the run when it fails, with the error tagged `tag`; the failure
of one paired with `none` is ignored. -/
def runPlan (tp : Transport) : List (Option ErrTag × Op) → World → Option SendError × World
  | [], w => (none, w)
  | (tag, op) :: rest, w =>
    match op.run tp w, tag with
    | (some err, w1), some t => (some ⟨t, err⟩, w1)
    | (_, w1), _ => runPlan tp rest w1

/-- The line of the AUTH PLAIN command. -/
def authLine (c : Client) : GoString :=
  lit "AUTH PLAIN " ++ base64EncodeToString (lit "\x00" ++ c.Username ++ lit "\x00" ++ c.Password)

/-- The operations of `sendFromAuth`, in order. -/
def planFromAuth (c : Client) (toAddr subject body : GoString) (date : GoString) (unixNano : Int) :
    List (Option ErrTag × Op) :=
  (if c.Username ≠ [] ∧ c.Password ≠ [] then [(some ErrTag.authPlain, Op.command (authLine c) 235)]
    else []) ++
  [ (some ErrTag.mailFrom, Op.command (lit "MAIL FROM:<" ++ c.Username ++ lit ">") 250),
    (some ErrTag.rcptTo, Op.command (lit "RCPT TO:<" ++ toAddr ++ lit ">") 250),
    (some ErrTag.data, Op.command (lit "DATA") 354),
    (some ErrTag.writeBody, Op.writeString (composeMsg c toAddr subject body date unixNano)),
    (some ErrTag.writeTerminator, Op.writeString (lit "\r\n")),
    (some ErrTag.flushBody, Op.flush),
    (some ErrTag.dataConfirm, Op.readReply 250),
    (none, Op.command (lit "QUIT") 221) ]

/-- The operations of `sendOnConn` before the STARTTLS block. -/
def planGreeting : List (Option ErrTag × Op) :=
  [ (some ErrTag.greeting, Op.readReply 220),
    (some ErrTag.ehlo, Op.command (lit "EHLO localhost") 250) ]

/-- The transport that replaces `tp` after a 220 reply to STARTTLS. -/
def tlsTransport (c : Client) : Transport := Transport.tls c.InsecureSkipVerify c.Host

/-- The error a transport action reports, if it failed: a write or flush that
did not succeed, or a read that found no reply or a reply with another code
than the expected one. -/
def Event.failure : Event → Option Cause
  | Event.cmd _ _ ok => if ok then none else some Cause.io
  | Event.writeString _ _ ok => if ok then none else some Cause.io
  | Event.flush _ ok => if ok then none else some Cause.io
  | Event.read _ _ Reply.fail => some Cause.io
  | Event.read _ k (Reply.code c) => if codeMismatch k c then some (Cause.unexpected c) else none
  | _ => none

/-- The code returned by a read. -/
def Reply.codeOr0 : Reply → Nat
  | Reply.fail => 0
  | Reply.code c => c

/-- A result of the model and a result of the specification agree: the same
step and cause (or both success), and the same script left. -/
def Agrees (a : Option SendError × World) (b : Option (Step × Cause) × Script) : Prop :=
  a.1.map SendError.report = b.1 ∧ a.2.script = b.2

/-- The transport an action goes through (none for dial and close, which act
on the TCP connection itself). -/
def Event.transport : Event → Option Transport
  | Event.cmd tp _ _ => some tp
  | Event.writeString tp _ _ => some tp
  | Event.flush tp _ => some tp
  | Event.read tp _ _ => some tp
  | _ => none

/-- The bytes an action hands to the transport: a command line with its CRLF,
or the string written. -/
def Event.wire : Event → GoString
  | Event.cmd _ line _ => line ++ crlf
  | Event.writeString _ s _ => s
  | _ => []

/-- Is the action a `net.Dial`? -/
def Event.isDial : Event → Bool
  | Event.dial _ _ => true
  | _ => false

/-- Is the action the read of a 354 reply to DATA? -/
def Event.isDataReply (e : Event) : Prop :=
  ∃ tp, e = Event.read tp 354 (Reply.code 354)

/-- Is the action a read that expects code 250? -/
def Event.isRead250 (e : Event) : Prop :=
  ∃ tp r, e = Event.read tp 250 r

/-- Boolean form of `Event.isDataReply`. -/
def Event.dataReply : Event → Bool
  | Event.read _ k (Reply.code code) => k == 354 && code == 354
  | _ => false

/-- Is the action a read of a reply? -/
def Event.isRead : Event → Bool
  | Event.read _ _ _ => true
  | _ => false

/-- The bytes a successful `WriteString` hands to the transport. -/
def Event.sent : Event → GoString
  | Event.writeString _ s true => s
  | _ => []

/-- The DATA content of a run: the bytes of the strings written with success
after the first read of a 354 reply to DATA and before the next read of a
reply. -/
def dataContent (trace : List Event) : GoString :=
  (((trace.dropWhile (fun e => !e.dataReply)).drop 1).takeWhile
    (fun e => !e.isRead)).flatMap Event.sent

/-- The actions one operation can perform, and the error it then reports. -/
inductive OpEvents (tp : Transport) : Op → Option Cause → List Event → Prop
  | cmdFail (line : GoString) (k : Nat) :
      OpEvents tp (Op.command line k) (some Cause.io) [Event.cmd tp line false]
  | cmdRead (line : GoString) (k : Nat) (r : Reply) :
      OpEvents tp (Op.command line k) (Event.read tp k r).failure
        [Event.cmd tp line true, Event.read tp k r]
  | read (k : Nat) (r : Reply) :
      OpEvents tp (Op.readReply k) (Event.read tp k r).failure [Event.read tp k r]
  | write (s : GoString) (ok : Bool) :
      OpEvents tp (Op.writeString s) (Event.writeString tp s ok).failure
        [Event.writeString tp s ok]
  | flush (ok : Bool) :
      OpEvents tp Op.flush (Event.flush tp ok).failure [Event.flush tp ok]

/-- The actions a plan can perform, and the error it then returns: the run
stops at the first failure of a tagged operation. -/
inductive PlanEvents (tp : Transport) :
    List (Option ErrTag × Op) → Option SendError → List Event → Prop
  | done : PlanEvents tp [] none []
  | stop (t : ErrTag) (op : Op) (rest : List (Option ErrTag × Op)) (cause : Cause)
      (evs : List Event) (h : OpEvents tp op (some cause) evs) :
      PlanEvents tp ((some t, op) :: rest) (some ⟨t, cause⟩) evs
  | next (tag : Option ErrTag) (op : Op) (rest : List (Option ErrTag × Op)) (r : Option Cause)
      (res : Option SendError) (evs evs2 : List Event) (h : OpEvents tp op r evs)
      (hr : r = none ∨ tag = none) (h2 : PlanEvents tp rest res evs2) :
      PlanEvents tp ((tag, op) :: rest) res (evs ++ evs2)

/-- The actions `Send` can perform on an open connection, and the error it then
returns. -/
inductive ConnEvents (c : Client) (toAddr subject body date : GoString) (unixNano : Int) :
    Option SendError → List Event → Prop
  | early (e : SendError) (evs : List Event)
      (h : PlanEvents Transport.plain planGreeting (some e) evs) :
      ConnEvents c toAddr subject body date unixNano (some e) evs
  | upgraded (res : Option SendError) (evs1 evs2 evs3 : List Event)
      (h1 : PlanEvents Transport.plain planGreeting none evs1)
      (h2 : OpEvents Transport.plain (Op.command (lit "STARTTLS") 220) none evs2)
      (h3 : PlanEvents (tlsTransport c)
        ((some ErrTag.postTlsEhlo, Op.command (lit "EHLO localhost") 250) ::
          planFromAuth c toAddr subject body date unixNano) res evs3) :
      ConnEvents c toAddr subject body date unixNano res (evs1 ++ evs2 ++ evs3)
  | plaintext (res : Option SendError) (cause : Cause) (evs1 evs2 evs3 : List Event)
      (h1 : PlanEvents Transport.plain planGreeting none evs1)
      (h2 : OpEvents Transport.plain (Op.command (lit "STARTTLS") 220) (some cause) evs2)
      (h3 : PlanEvents Transport.plain (planFromAuth c toAddr subject body date unixNano)
        res evs3) :
      ConnEvents c toAddr subject body date unixNano res (evs1 ++ evs2 ++ evs3)

/-- The From header line for a display name and a sender address. -/
def fromHeader (senderName senderEmail : GoString) : GoString :=
  lit "From: " ++ senderName ++ lit " <" ++ senderEmail ++ lit ">"

/-- The header lines that follow the From line. -/
def headersAfterFrom (toAddr subject : GoString) (date : GoString) (unixNano : Int) :
    List GoString :=
  [ lit "To: " ++ toAddr,
    lit "Subject: " ++ subject,
    lit "Date: " ++ date,
    lit "Message-ID: <" ++ fmtInt unixNano ++ lit "@whitehouse.gov>",
    lit "MIME-Version: 1.0",
    lit "Content-Type: text/plain; charset=UTF-8" ]

/-- The strings an expression matches. -/
inductive Regex.Matches : Regex → GoString → Prop
  | eps : Regex.Matches Regex.eps []
  | cls (ranges : List (Nat × Nat)) (b : Byte) (h : inRanges ranges b = true) :
      Regex.Matches (Regex.cls ranges) [b]
  | cat (r s : Regex) (x y : GoString) (hx : Regex.Matches r x) (hy : Regex.Matches s y) :
      Regex.Matches (Regex.cat r s) (x ++ y)
  | altL (r s : Regex) (x : GoString) (hx : Regex.Matches r x) : Regex.Matches (Regex.alt r s) x
  | altR (r s : Regex) (x : GoString) (hx : Regex.Matches s x) : Regex.Matches (Regex.alt r s) x
  | starNil (r : Regex) : Regex.Matches (Regex.star r) []
  | starCons (r : Regex) (x y : GoString) (hx : Regex.Matches r x)
      (hy : Regex.Matches (Regex.star r) y) : Regex.Matches (Regex.star r) (x ++ y)


/-! ## Concrete clients and servers -/

/-- The local time Monday 2 January 2006, 15:04:05, seven hours west of UTC. -/
def referenceTime : Time :=
  { year := 2006, month := 0, day := 2, hour := 15, minute := 4, second := 5, weekday := 1,
    zoneOffset := -25200 }

/-- The client the `/send` handler builds from the default configuration of
`config.Load`. -/
def defaultClient : Client :=
  NewClient (lit "localhost") (lit "1025") [] [] (lit "president@whitehouse.gov")
    (lit "Donald Trump") true

/-- The configuration `config.Load` returns when no variable is set. -/
def defaultConfig : Config :=
  { Port := lit "8080", SMTPHost := lit "localhost", SMTPPort := lit "1025",
    SMTPSenderEmail := lit "president@whitehouse.gov", SMTPSenderName := lit "Donald Trump",
    SMTPSenderUser := [], SMTPSenderPass := [], InsecureSkipVerify := true }

/-- A server that answers the successive reads with the given codes, with no
failed write. -/
def scriptedServer (codes : List Nat) (now : Time) (unixNano : Int) : Env :=
  { dialOk := true, replies := codes.map Reply.code, writes := [], now := now,
    unixNano := unixNano }

/-- The end-to-end scenario with the reply DATA requires: the server replies
220, 250, 250 (to STARTTLS, which it thereby declines), 250, 250, 354, 250,
221. -/
def plainServer : Env :=
  scriptedServer [220, 250, 250, 250, 250, 354, 250, 221]
    referenceTime 1136239445000000000

/-- A server that accepts STARTTLS and every later step: it replies 220, 250,
220 (to STARTTLS), 250 (to the EHLO through TLS), 250, 250, 354, 250, 221. -/
def tlsServer : Env :=
  scriptedServer [220, 250, 220, 250, 250, 250, 354, 250, 221]
    referenceTime 1136239445000000000

/-- The second end-to-end scenario of the specification: the server replies
220, 250, 250 (to STARTTLS), 250 (to MAIL FROM), and 550 to RCPT TO. -/
def rejectingServer : Env :=
  scriptedServer [220, 250, 250, 250, 550]
    referenceTime 1136239445000000000

/-- A script in which `net.Dial` fails. -/
def unreachableServer : Env :=
  { dialOk := false, replies := [], writes := [], now := referenceTime,
    unixNano := 1136239445000000000 }

/-- A body of 501 characters, each the two-byte character U+00E9. -/
def accentedBody : String := String.mk (List.replicate 501 'é')

set_option maxRecDepth 100000

/-! ## Lemmas on the model -/

theorem sendFromAuth_eq_runPlan (c : Client) (toAddr subject body date : GoString) (n : Int)
    (tp : Transport) (w : World) :
    sendFromAuth c toAddr subject body date n tp w
      = runPlan tp (planFromAuth c toAddr subject body date n) w := by
  unfold sendFromAuth planFromAuth
  by_cases hc : c.Username ≠ [] ∧ c.Password ≠ []
  · simp only [if_pos hc, List.cons_append, List.nil_append, runPlan, Op.run, authLine]
    repeat (first
      | rfl
      | (generalize sendCommand _ _ _ _ = r; rcases r with ⟨_ | e, w1⟩ <;> dsimp only)
      | (generalize WriteString _ _ _ = r; rcases r with ⟨_ | e, w1⟩ <;> dsimp only)
      | (generalize Flush _ _ = r; rcases r with ⟨_ | e, w1⟩ <;> dsimp only)
      | (generalize readResponse _ _ _ = r; rcases r with ⟨⟨k, _ | e⟩, w1⟩ <;> dsimp only))
  · simp only [if_neg hc, List.cons_append, List.nil_append, runPlan, Op.run, authLine]
    repeat (first
      | rfl
      | (generalize sendCommand _ _ _ _ = r; rcases r with ⟨_ | e, w1⟩ <;> dsimp only)
      | (generalize WriteString _ _ _ = r; rcases r with ⟨_ | e, w1⟩ <;> dsimp only)
      | (generalize Flush _ _ = r; rcases r with ⟨_ | e, w1⟩ <;> dsimp only)
      | (generalize readResponse _ _ _ = r; rcases r with ⟨⟨k, _ | e⟩, w1⟩ <;> dsimp only))

theorem readResponse_eq (tp : Transport) (k : Nat) (w : World) :
    readResponse tp k w =
      ((w.nextReply.1.codeOr0, (Event.read tp k w.nextReply.1).failure),
        { replies := w.nextReply.2, writes := w.writes,
          trace := w.trace ++ [Event.read tp k w.nextReply.1] }) := by
  unfold readResponse
  rcases w.nextReply with ⟨_ | c, rest⟩
  · dsimp only [Event.failure, Reply.codeOr0]
    split <;> rfl
  · rfl

theorem Cmd_eq (tp : Transport) (line : GoString) (w : World) :
    Cmd tp line w =
      ((Event.cmd tp line w.nextWrite.1).failure,
        { replies := w.replies, writes := w.nextWrite.2,
          trace := w.trace ++ [Event.cmd tp line w.nextWrite.1] }) := by
  unfold Cmd
  rcases w.nextWrite with ⟨_ | _, rest⟩ <;> rfl

theorem WriteString_eq (tp : Transport) (s : GoString) (w : World) :
    WriteString tp s w =
      ((Event.writeString tp s w.nextWrite.1).failure,
        { replies := w.replies, writes := w.nextWrite.2,
          trace := w.trace ++ [Event.writeString tp s w.nextWrite.1] }) := by
  unfold WriteString
  rcases w.nextWrite with ⟨_ | _, rest⟩ <;> rfl

theorem Flush_eq (tp : Transport) (w : World) :
    Flush tp w =
      ((Event.flush tp w.nextWrite.1).failure,
        { replies := w.replies, writes := w.nextWrite.2,
          trace := w.trace ++ [Event.flush tp w.nextWrite.1] }) := by
  unfold Flush
  rcases w.nextWrite with ⟨_ | _, rest⟩ <;> rfl

theorem codeMismatch_iff (k c : Nat) (hk : 100 ≤ k) (hk2 : k < 1000) :
    codeMismatch k c = true ↔ c ≠ k := by
  simp only [codeMismatch]
  simp
  omega

theorem readResponse_220_none (tp : Transport) (w : World) (k : Nat) (w1 : World)
    (h : readResponse tp 220 w = ((k, none), w1)) : k = 220 := by
  rw [readResponse_eq] at h
  cases hr : w.nextReply.1 with
  | fail => simp [hr, Event.failure] at h
  | code c =>
    simp only [hr, Event.failure, Reply.codeOr0, Prod.mk.injEq] at h
    by_cases hm : codeMismatch 220 c = true
    · simp [hm] at h
    · have := (codeMismatch_iff 220 c (by decide) (by decide)).not.mp hm
      omega

theorem sendCommand_eq (tp : Transport) (expectCode : Nat) (line : GoString) (w : World) :
    sendCommand tp expectCode line w =
      match Cmd tp line w with
      | (some err, w1) => (some err, w1)
      | (none, w1) =>
        match readResponse tp expectCode w1 with
        | ((_, some err), w2) => (some err, w2)
        | ((_, none), w2) => (none, w2) := rfl

theorem sendOnConn_eq (c : Client) (toAddr subject body date : GoString) (n : Int) (w : World) :
    sendOnConn c toAddr subject body date n w =
      match runPlan Transport.plain planGreeting w with
      | (some e, w2) => (some e, w2)
      | (none, w2) =>
        match sendCommand Transport.plain 220 (lit "STARTTLS") w2 with
        | (none, w3) =>
          runPlan (tlsTransport c)
            ((some ErrTag.postTlsEhlo, Op.command (lit "EHLO localhost") 250) ::
              planFromAuth c toAddr subject body date n) w3
        | (some _, w3) => runPlan Transport.plain (planFromAuth c toAddr subject body date n) w3 := by
  unfold sendOnConn planGreeting
  simp only [runPlan, Op.run, sendFromAuth_eq_runPlan, tlsTransport]
  rcases h1 : readResponse Transport.plain 220 w with ⟨⟨k, _ | e⟩, w1⟩
  · dsimp only
    rcases h2 : sendCommand Transport.plain 250 (lit "EHLO localhost") w1 with ⟨_ | e, w2⟩
    · dsimp only
      rw [sendCommand_eq Transport.plain 220]
      rcases h3 : Cmd Transport.plain (lit "STARTTLS") w2 with ⟨_ | e, w3⟩
      · dsimp only
        rcases h4 : readResponse Transport.plain 220 w3 with ⟨⟨k, _ | e⟩, w4⟩
        · have := readResponse_220_none _ _ _ _ h4
          subst this
          simp
          rcases sendCommand _ 250 _ w4 with ⟨_ | e, w5⟩ <;> rfl
        · simp
      · rfl
    · rfl
  · rfl

theorem runPlan_append (tp : Transport) (p q : List (Option ErrTag × Op)) (w : World) :
    runPlan tp (p ++ q) w =
      match runPlan tp p w with
      | (some e, w1) => (some e, w1)
      | (none, w1) => runPlan tp q w1 := by
  induction p generalizing w with
  | nil => rfl
  | cons a p ih =>
    rcases a with ⟨tag, op⟩
    simp only [List.cons_append, runPlan]
    rcases op.run tp w with ⟨_ | e, w1⟩ <;> rcases tag with _ | t <;> simp [ih]

/-! ## `Send` against the steps of the specification -/

theorem failure_read_eq (tp : Transport) (k : Nat) (r : Reply) (hk : 100 ≤ k) (hk2 : k < 1000) :
    (Event.read tp k r).failure = replyFailure k r := by
  cases r with
  | fail => rfl
  | code c =>
    simp only [Event.failure, replyFailure]
    by_cases h : c = k
    · have : ¬ codeMismatch k c = true := by rw [codeMismatch_iff k c hk hk2]; simpa using h
      subst h
      simpa using this
    · have : codeMismatch k c = true := by rw [codeMismatch_iff k c hk hk2]; exact h
      simp [h, this]

/-- A command step of the specification is what `sendCommand` does. -/
theorem perform_command (s : Step) (tp : Transport) (k : Nat) (line : GoString) (w : World)
    (hw : s.writeCount = 1) (hr : s.requiredCode = some k) (hk : 100 ≤ k) (hk2 : k < 1000) :
    s.perform w.script
      = ((sendCommand tp k line w).1, (sendCommand tp k line w).2.script) := by
  rw [sendCommand_eq, Cmd_eq]
  unfold Step.perform
  rw [hw, hr]
  rcases w with ⟨rs, ws, tr⟩
  rcases ws with _ | ⟨_ | _, ws⟩
  · rcases rs with _ | ⟨r, rs⟩
    · simp [World.script, doWrites, World.nextWrite, Event.failure, readResponse_eq, World.nextReply]
    · simp only [World.script, doWrites, World.nextWrite, Event.failure, readResponse_eq,
        World.nextReply, if_true]
      rw [← failure_read_eq tp k r hk hk2]
      cases h : (Event.read tp k r).failure <;> simp [Event.failure] at h ⊢ <;> simp [h]
  · simp [World.script, doWrites, World.nextWrite, Event.failure]
  · rcases rs with _ | ⟨r, rs⟩
    · simp [World.script, doWrites, World.nextWrite, Event.failure, readResponse_eq, World.nextReply]
    · simp only [World.script, doWrites, World.nextWrite, Event.failure, readResponse_eq,
        World.nextReply, if_true]
      rw [← failure_read_eq tp k r hk hk2]
      cases h : (Event.read tp k r).failure <;> simp [Event.failure] at h ⊢ <;> simp [h]

/-- A step of the specification that only reads is what `ReadResponse` does. -/
theorem perform_read (s : Step) (tp : Transport) (k : Nat) (w : World)
    (hw : s.writeCount = 0) (hr : s.requiredCode = some k) (hk : 100 ≤ k) (hk2 : k < 1000) :
    s.perform w.script
      = (((Op.readReply k).run tp w).1, (((Op.readReply k).run tp w).2).script) := by
  unfold Step.perform
  rw [hw, hr]
  rcases w with ⟨rs, ws, tr⟩
  rcases rs with _ | ⟨r, rs⟩
  · simp [World.script, doWrites, Op.run, readResponse_eq, World.nextReply, Event.failure]
  · simp only [World.script, doWrites, Op.run, readResponse_eq, World.nextReply]
    rw [← failure_read_eq tp k r hk hk2]

theorem agrees_cons (tp : Transport) (tag : Option ErrTag) (op : Op) (s : Step)
    (rest : List (Option ErrTag × Op)) (steps : List Step)
    (hop : ∀ w : World, s.perform w.script = ((op.run tp w).1, ((op.run tp w).2).script))
    (htag : (∃ t, tag = some t ∧ t.step = s ∧ s.mandatory = true) ∨
      (tag = none ∧ s.mandatory = false))
    (ih : ∀ w : World, Agrees (runPlan tp rest w) (firstFailure steps w.script)) :
    ∀ w : World, Agrees (runPlan tp ((tag, op) :: rest) w) (firstFailure (s :: steps) w.script) := by
  intro w
  have h := hop w
  unfold runPlan firstFailure
  rw [h]
  rcases hr : op.run tp w with ⟨_ | e, w1⟩
  · rcases tag with _ | t <;> exact ih w1
  · rcases htag with ⟨t, rfl, hs, hm⟩ | ⟨rfl, hm⟩
    · simp only [hm, if_true]
      exact ⟨by simp [SendError.report, hs], rfl⟩
    · simp only [hm]
      exact ih w1

theorem agrees_message (tp : Transport) (m m2 : GoString)
    (rest : List (Option ErrTag × Op)) (steps : List Step)
    (ih : ∀ w : World, Agrees (runPlan tp rest w) (firstFailure steps w.script)) :
    ∀ w : World, Agrees
      (runPlan tp ((some ErrTag.writeBody, Op.writeString m) ::
        (some ErrTag.writeTerminator, Op.writeString m2) ::
        (some ErrTag.flushBody, Op.flush) :: rest) w)
      (firstFailure (Step.message :: steps) w.script) := by
  intro w
  rcases w with ⟨rs, ws, tr⟩
  simp only [runPlan, Op.run, WriteString_eq, Flush_eq, firstFailure, Step.perform,
    Step.writeCount, Step.requiredCode, World.script, World.nextWrite, Step.mandatory]
  rcases ws with _ | ⟨_ | _, _ | ⟨_ | _, _ | ⟨_ | _, ws⟩⟩⟩ <;>
    simp only [doWrites, Event.failure, if_true] <;>
    first
    | exact ih _
    | exact ⟨rfl, rfl⟩

theorem agrees_command (tp : Transport) (t : ErrTag) (line : GoString) (k : Nat) (s : Step)
    (rest : List (Option ErrTag × Op)) (steps : List Step)
    (hw : s.writeCount = 1) (hr : s.requiredCode = some k) (hk : 100 ≤ k) (hk2 : k < 1000)
    (hs : t.step = s) (hm : s.mandatory = true)
    (ih : ∀ w : World, Agrees (runPlan tp rest w) (firstFailure steps w.script)) :
    ∀ w : World, Agrees (runPlan tp ((some t, Op.command line k) :: rest) w)
      (firstFailure (s :: steps) w.script) :=
  agrees_cons tp (some t) (Op.command line k) s rest steps
    (fun w => perform_command s tp k line w hw hr hk hk2) (Or.inl ⟨t, rfl, hs, hm⟩) ih

theorem agrees_planFromAuth (c : Client) (toAddr subject body date : GoString) (n : Int)
    (tp : Transport) (w : World) :
    Agrees (runPlan tp (planFromAuth c toAddr subject body date n) w)
      (firstFailure
        ((if (decide (c.Username ≠ [] ∧ c.Password ≠ [])) = true then [Step.authPlain] else []) ++
          [Step.mailFrom, Step.rcptTo, Step.data, Step.message, Step.dataConfirm, Step.quit])
        w.script) := by
  have tail : ∀ w : World, Agrees
      (runPlan tp
        [ (some ErrTag.mailFrom, Op.command (lit "MAIL FROM:<" ++ c.Username ++ lit ">") 250),
          (some ErrTag.rcptTo, Op.command (lit "RCPT TO:<" ++ toAddr ++ lit ">") 250),
          (some ErrTag.data, Op.command (lit "DATA") 354),
          (some ErrTag.writeBody, Op.writeString (composeMsg c toAddr subject body date n)),
          (some ErrTag.writeTerminator, Op.writeString (lit "\r\n")),
          (some ErrTag.flushBody, Op.flush),
          (some ErrTag.dataConfirm, Op.readReply 250),
          (none, Op.command (lit "QUIT") 221) ] w)
      (firstFailure
        [Step.mailFrom, Step.rcptTo, Step.data, Step.message, Step.dataConfirm, Step.quit]
        w.script) := by
    refine agrees_command _ _ _ _ Step.mailFrom _ _ rfl rfl (by decide) (by decide) rfl rfl ?_
    refine agrees_command _ _ _ _ Step.rcptTo _ _ rfl rfl (by decide) (by decide) rfl rfl ?_
    refine agrees_command _ _ _ _ Step.data _ _ rfl rfl (by decide) (by decide) rfl rfl ?_
    refine agrees_message _ _ _ _ _ ?_
    refine agrees_cons _ _ _ Step.dataConfirm _ _
      (fun w => perform_read Step.dataConfirm tp 250 w rfl rfl (by decide) (by decide))
      (Or.inl ⟨ErrTag.dataConfirm, rfl, rfl, rfl⟩) ?_
    refine agrees_cons _ _ _ Step.quit _ _
      (fun w => perform_command Step.quit tp 221 _ w rfl rfl (by decide) (by decide))
      (Or.inr ⟨rfl, rfl⟩) ?_
    intro w
    exact ⟨rfl, rfl⟩
  unfold planFromAuth
  by_cases hc : c.Username ≠ [] ∧ c.Password ≠ []
  · rw [if_pos hc, if_pos (by simpa using hc)]
    exact agrees_command _ ErrTag.authPlain _ _ Step.authPlain _ _ rfl rfl (by decide) (by decide)
      rfl rfl tail w
  · rw [if_neg hc, if_neg (by simpa using hc)]
    exact tail w

/-- The error `Send` returns is the first mandatory failure of the
specification's sequence of steps. -/
theorem Send_err_eq_specSend (c : Client) (toAddr subject body : GoString) (env : Env) :
    (Send c toAddr subject body env).err.map SendError.report
      = specSend (decide (c.Username ≠ [] ∧ c.Password ≠ [])) env := by
  unfold Send specSend
  by_cases hd : env.dialOk = false
  · simp only [hd, if_true]
    rfl
  · simp only [hd, if_false]
    rw [sendOnConn_eq]
    generalize hw0 : (World.mk env.replies env.writes [Event.dial (c.Host ++ lit ":" ++ c.Port) true]) = w0
    have hsc : ({ replies := env.replies, writes := env.writes } : Script) = w0.script := by
      rw [← hw0]; rfl
    rw [hsc]
    have hg : Agrees (runPlan Transport.plain planGreeting w0)
        (firstFailure [Step.greeting, Step.ehlo] w0.script) := by
      unfold planGreeting
      clear hw0 hsc
      revert w0
      refine agrees_cons _ _ _ Step.greeting _ _
        (fun w => perform_read Step.greeting _ 220 w rfl rfl (by decide) (by decide))
        (Or.inl ⟨ErrTag.greeting, rfl, rfl, rfl⟩) ?_
      refine agrees_command _ _ _ _ Step.ehlo _ _ rfl rfl (by decide) (by decide) rfl rfl ?_
      intro w
      exact ⟨rfl, rfl⟩
    rcases hr : runPlan Transport.plain planGreeting w0 with ⟨_ | e, w2⟩
    · rw [hr] at hg
      rcases hf : firstFailure [Step.greeting, Step.ehlo] w0.script with ⟨_ | f, sc1⟩
      · rw [hf] at hg
        obtain ⟨-, hg2⟩ := hg
        dsimp only at hg2 ⊢
        subst hg2
        rw [perform_command Step.starttls Transport.plain 220 (lit "STARTTLS") w2 rfl rfl
          (by decide) (by decide)]
        rcases hs : sendCommand Transport.plain 220 (lit "STARTTLS") w2 with ⟨_ | e, w3⟩
        · dsimp only
          simp only [if_true]
          have := agrees_command (tlsTransport c) ErrTag.postTlsEhlo (lit "EHLO localhost") 250
            Step.postTlsEhlo _ _ rfl rfl (by decide) (by decide) rfl rfl
            (agrees_planFromAuth c toAddr subject body env.date env.unixNano (tlsTransport c)) w3
          exact this.1
        · dsimp only
          have := agrees_planFromAuth c toAddr subject body env.date env.unixNano
            Transport.plain w3
          simpa using this.1
      · rw [hf] at hg
        simp [Agrees] at hg
    · rw [hr] at hg
      rcases hf : firstFailure [Step.greeting, Step.ehlo] w0.script with ⟨_ | f, sc1⟩
      · rw [hf] at hg
        simp [Agrees] at hg
      · rw [hf] at hg
        exact hg.1

/-! ## The shape of the trace of `Send` -/

theorem sendCommand_fail (tp : Transport) (k : Nat) (line : GoString) (w : World)
    (hw : w.nextWrite.1 = false) :
    sendCommand tp k line w
      = (some Cause.io, ⟨w.replies, w.nextWrite.2, w.trace ++ [Event.cmd tp line false]⟩) := by
  rw [sendCommand_eq, Cmd_eq, hw]
  rfl

theorem sendCommand_ok (tp : Transport) (k : Nat) (line : GoString) (w : World)
    (hw : w.nextWrite.1 = true) :
    sendCommand tp k line w
      = ((Event.read tp k w.nextReply.1).failure,
          ⟨w.nextReply.2, w.nextWrite.2,
            w.trace ++ [Event.cmd tp line true, Event.read tp k w.nextReply.1]⟩) := by
  rw [sendCommand_eq, Cmd_eq, hw]
  simp only [Event.failure, if_true, readResponse_eq]
  have hn : (World.nextReply ⟨w.replies, w.nextWrite.2, w.trace ++ [Event.cmd tp line true]⟩)
      = w.nextReply := rfl
  rw [hn]
  cases hf : (Event.read tp k w.nextReply.1).failure <;> simp [Event.failure] at hf ⊢ <;>
    simp [hf]

theorem Op.run_events (tp : Transport) (op : Op) (w : World) :
    ∃ evs, (op.run tp w).2.trace = w.trace ++ evs ∧ OpEvents tp op (op.run tp w).1 evs := by
  cases op with
  | command line k =>
    simp only [Op.run]
    cases hw : w.nextWrite.1 with
    | false =>
      rw [sendCommand_fail tp k line w hw]
      exact ⟨_, rfl, OpEvents.cmdFail line k⟩
    | true =>
      rw [sendCommand_ok tp k line w hw]
      exact ⟨_, rfl, OpEvents.cmdRead line k _⟩
  | readReply k =>
    simp only [Op.run, readResponse_eq]
    exact ⟨_, rfl, OpEvents.read k _⟩
  | writeString s =>
    simp only [Op.run, WriteString_eq]
    exact ⟨_, rfl, OpEvents.write s _⟩
  | flush =>
    simp only [Op.run, Flush_eq]
    exact ⟨_, rfl, OpEvents.flush _⟩

theorem runPlan_events (tp : Transport) (plan : List (Option ErrTag × Op)) (w : World) :
    ∃ evs, (runPlan tp plan w).2.trace = w.trace ++ evs ∧
      PlanEvents tp plan (runPlan tp plan w).1 evs := by
  induction plan generalizing w with
  | nil => exact ⟨[], by simp [runPlan], PlanEvents.done⟩
  | cons a rest ih =>
    rcases a with ⟨tag, op⟩
    obtain ⟨evs, htr, hev⟩ := Op.run_events tp op w
    unfold runPlan
    rcases hr : op.run tp w with ⟨_ | cause, w1⟩
    · rw [hr] at htr hev
      obtain ⟨evs2, htr2, hev2⟩ := ih w1
      refine ⟨evs ++ evs2, ?_, ?_⟩
      · cases tag <;> simp only [htr2] <;> dsimp only at htr <;> rw [htr, List.append_assoc]
      · cases tag <;> exact PlanEvents.next _ op rest none _ evs evs2 hev (Or.inl rfl) hev2
    · rw [hr] at htr hev
      cases tag with
      | none =>
        obtain ⟨evs2, htr2, hev2⟩ := ih w1
        refine ⟨evs ++ evs2, ?_, ?_⟩
        · simp only [htr2]; dsimp only at htr; rw [htr, List.append_assoc]
        · exact PlanEvents.next _ op rest _ _ evs evs2 hev (Or.inr rfl) hev2
      | some t => exact ⟨evs, htr, PlanEvents.stop t op rest cause evs hev⟩

theorem sendOnConn_events (c : Client) (toAddr subject body date : GoString) (n : Int)
    (w : World) :
    ∃ evs, (sendOnConn c toAddr subject body date n w).2.trace = w.trace ++ evs ∧
      ConnEvents c toAddr subject body date n (sendOnConn c toAddr subject body date n w).1 evs := by
  rw [sendOnConn_eq]
  obtain ⟨evs1, htr1, hev1⟩ := runPlan_events Transport.plain planGreeting w
  rcases hr : runPlan Transport.plain planGreeting w with ⟨_ | e, w2⟩
  · rw [hr] at htr1 hev1
    dsimp only at htr1 hev1 ⊢
    obtain ⟨evs2, htr2, hev2⟩ := Op.run_events Transport.plain (Op.command (lit "STARTTLS") 220) w2
    simp only [Op.run] at htr2 hev2
    rcases hs : sendCommand Transport.plain 220 (lit "STARTTLS") w2 with ⟨_ | cause, w3⟩
    · rw [hs] at htr2 hev2
      dsimp only at htr2 hev2 ⊢
      obtain ⟨evs3, htr3, hev3⟩ := runPlan_events (tlsTransport c)
        ((some ErrTag.postTlsEhlo, Op.command (lit "EHLO localhost") 250) ::
          planFromAuth c toAddr subject body date n) w3
      refine ⟨evs1 ++ evs2 ++ evs3, ?_, ConnEvents.upgraded _ _ _ _ hev1 hev2 hev3⟩
      rw [htr3, htr2, htr1]; simp
    · rw [hs] at htr2 hev2
      dsimp only at htr2 hev2 ⊢
      obtain ⟨evs3, htr3, hev3⟩ := runPlan_events Transport.plain
        (planFromAuth c toAddr subject body date n) w3
      refine ⟨evs1 ++ evs2 ++ evs3, ?_, ConnEvents.plaintext _ cause _ _ _ hev1 hev2 hev3⟩
      rw [htr3, htr2, htr1]; simp
  · rw [hr] at htr1 hev1
    exact ⟨evs1, htr1, ConnEvents.early e evs1 hev1⟩

/-- Every run of `Send`: either the dial fails and nothing else happens, or the
trace is the dial, the actions on the connection, and the close. -/
theorem Send_events (c : Client) (toAddr subject body : GoString) (env : Env) :
    (env.dialOk = false ∧ Send c toAddr subject body env
        = ⟨some ⟨ErrTag.connect, Cause.io⟩, [Event.dial (c.Host ++ lit ":" ++ c.Port) false]⟩) ∨
    (env.dialOk = true ∧ ∃ evs,
      (Send c toAddr subject body env).trace
        = Event.dial (c.Host ++ lit ":" ++ c.Port) true :: evs ++ [Event.close] ∧
      ConnEvents c toAddr subject body env.date env.unixNano
        (Send c toAddr subject body env).err evs) := by
  unfold Send
  cases hd : env.dialOk with
  | false => left; simp
  | true =>
    right
    simp only [Bool.true_eq_false, if_false, true_and]
    obtain ⟨evs, htr, hev⟩ := sendOnConn_events c toAddr subject body env.date env.unixNano
      ⟨env.replies, env.writes, [Event.dial (c.Host ++ lit ":" ++ c.Port) true]⟩
    exact ⟨evs, by rw [htr]; simp, hev⟩

theorem OpEvents.last {tp : Transport} {op : Op} {r : Option Cause} {evs : List Event}
    (h : OpEvents tp op r evs) : ∃ pre ev, evs = pre ++ [ev] ∧ ev.failure = r := by
  cases h with
  | cmdFail line k => exact ⟨[], _, rfl, rfl⟩
  | cmdRead line k r => exact ⟨[_], _, rfl, rfl⟩
  | read k r => exact ⟨[], _, rfl, rfl⟩
  | write s ok => exact ⟨[], _, rfl, rfl⟩
  | flush ok => exact ⟨[], _, rfl, rfl⟩

theorem PlanEvents.plan_last_of_error {tp : Transport} {plan : List (Option ErrTag × Op)}
    {res : Option SendError} {evs : List Event} (h : PlanEvents tp plan res evs) :
    ∀ e, res = some e → ∃ pre ev, evs = pre ++ [ev] ∧ ev.failure = some e.cause := by
  induction h with
  | done => intro e he; cases he
  | stop t op rest cause evs h =>
    intro e he
    cases he
    exact h.last
  | next tag op rest r res evs evs2 h hr h2 ih =>
    intro e he
    obtain ⟨pre, ev, hpre, hev⟩ := ih e he
    exact ⟨evs ++ pre, ev, by rw [hpre, List.append_assoc], hev⟩

theorem PlanEvents.tag_mem {tp : Transport} {plan : List (Option ErrTag × Op)}
    {res : Option SendError} {evs : List Event} (h : PlanEvents tp plan res evs) :
    ∀ e, res = some e → ∃ op, (some e.tag, op) ∈ plan := by
  induction h with
  | done => intro e he; cases he
  | stop t op rest cause evs h =>
    intro e he
    cases he
    exact ⟨op, List.mem_cons_self _ _⟩
  | next tag op rest r res evs evs2 h hr h2 ih =>
    intro e he
    obtain ⟨op2, hop⟩ := ih e he
    exact ⟨op2, List.mem_cons_of_mem _ hop⟩

theorem ConnEvents.conn_last_of_error {c : Client} {toAddr subject body date : GoString} {n : Int}
    {res : Option SendError} {evs : List Event}
    (h : ConnEvents c toAddr subject body date n res evs) :
    ∀ e, res = some e → ∃ pre ev, evs = pre ++ [ev] ∧ ev.failure = some e.cause := by
  intro e he
  cases h with
  | early e2 evs h => exact h.plan_last_of_error e he
  | upgraded res evs1 evs2 evs3 h1 h2 h3 =>
    obtain ⟨pre, ev, hpre, hev⟩ := h3.plan_last_of_error e he
    exact ⟨evs1 ++ evs2 ++ pre, ev, by rw [hpre]; simp, hev⟩
  | plaintext res cause evs1 evs2 evs3 h1 h2 h3 =>
    obtain ⟨pre, ev, hpre, hev⟩ := h3.plan_last_of_error e he
    exact ⟨evs1 ++ evs2 ++ pre, ev, by rw [hpre]; simp, hev⟩

theorem OpEvents.inv_command {tp : Transport} {line : GoString} {k : Nat} {r : Option Cause}
    {evs : List Event} (h : OpEvents tp (Op.command line k) r evs) :
    (r = some Cause.io ∧ evs = [Event.cmd tp line false]) ∨
    (∃ rep, r = (Event.read tp k rep).failure ∧
      evs = [Event.cmd tp line true, Event.read tp k rep]) := by
  generalize hop : Op.command line k = op at h
  cases h <;> cases hop
  · exact Or.inl ⟨rfl, rfl⟩
  · exact Or.inr ⟨_, rfl, rfl⟩

theorem OpEvents.inv_read {tp : Transport} {k : Nat} {r : Option Cause}
    {evs : List Event} (h : OpEvents tp (Op.readReply k) r evs) :
    ∃ rep, r = (Event.read tp k rep).failure ∧ evs = [Event.read tp k rep] := by
  generalize hop : Op.readReply k = op at h
  cases h <;> cases hop
  exact ⟨_, rfl, rfl⟩

theorem OpEvents.inv_write {tp : Transport} {s : GoString} {r : Option Cause}
    {evs : List Event} (h : OpEvents tp (Op.writeString s) r evs) :
    ∃ ok, r = (Event.writeString tp s ok).failure ∧ evs = [Event.writeString tp s ok] := by
  generalize hop : Op.writeString s = op at h
  cases h <;> cases hop
  exact ⟨_, rfl, rfl⟩

theorem OpEvents.inv_flush {tp : Transport} {r : Option Cause}
    {evs : List Event} (h : OpEvents tp Op.flush r evs) :
    ∃ ok, r = (Event.flush tp ok).failure ∧ evs = [Event.flush tp ok] := by
  generalize hop : Op.flush = op at h
  cases h <;> cases hop
  exact ⟨_, rfl, rfl⟩

theorem PlanEvents.inv_nil {tp : Transport} {res : Option SendError} {evs : List Event}
    (h : PlanEvents tp [] res evs) : res = none ∧ evs = [] := by
  cases h
  exact ⟨rfl, rfl⟩

theorem PlanEvents.inv_cons {tp : Transport} {tag : Option ErrTag} {op : Op}
    {rest : List (Option ErrTag × Op)} {res : Option SendError} {evs : List Event}
    (h : PlanEvents tp ((tag, op) :: rest) res evs) :
    (∃ t cause, tag = some t ∧ res = some ⟨t, cause⟩ ∧ OpEvents tp op (some cause) evs) ∨
    (∃ r evs1 evs2, OpEvents tp op r evs1 ∧ (r = none ∨ tag = none) ∧
      PlanEvents tp rest res evs2 ∧ evs = evs1 ++ evs2) := by
  cases h with
  | stop t op rest cause evs h => exact Or.inl ⟨t, cause, rfl, rfl, h⟩
  | next tag op rest r res evs evs2 h hr h2 => exact Or.inr ⟨r, evs, evs2, h, hr, h2, rfl⟩

theorem planFromAuth_tags (c : Client) (toAddr subject body date : GoString) (n : Int)
    (t : ErrTag) (op : Op) (h : (some t, op) ∈ planFromAuth c toAddr subject body date n) :
    t = ErrTag.authPlain ∨ t = ErrTag.mailFrom ∨ t = ErrTag.rcptTo ∨ t = ErrTag.data ∨
      t = ErrTag.writeBody ∨ t = ErrTag.writeTerminator ∨ t = ErrTag.flushBody ∨
      t = ErrTag.dataConfirm := by
  unfold planFromAuth at h
  by_cases hc : c.Username ≠ [] ∧ c.Password ≠ []
  · rw [if_pos hc] at h
    simp only [List.cons_append, List.nil_append, List.mem_cons, Prod.mk.injEq, Option.some.injEq,
      List.mem_singleton, reduceCtorEq, false_and, or_false, List.not_mem_nil] at h
    rcases h with h | h | h | h | h | h | h | h <;> simp [h.1]
  · rw [if_neg hc] at h
    simp only [List.cons_append, List.nil_append, List.mem_cons, Prod.mk.injEq, Option.some.injEq,
      List.mem_singleton, reduceCtorEq, false_and, or_false, List.not_mem_nil] at h
    rcases h with h | h | h | h | h | h | h <;> simp [h.1]

theorem ConnEvents.greeting_only {c : Client} {toAddr subject body date : GoString} {n : Int}
    {res : Option SendError} {evs : List Event}
    (h : ConnEvents c toAddr subject body date n res evs) :
    ∀ e, res = some e → e.tag = ErrTag.greeting →
      ∃ r, evs = [Event.read Transport.plain 220 r] := by
  intro e he ht
  cases h with
  | early e2 evs h =>
    cases he
    unfold planGreeting at h
    rcases h.inv_cons with ⟨t, cause, -, -, h⟩ | ⟨r, evs1, evs2, -, -, h2, -⟩
    · obtain ⟨rep, -, hevs⟩ := h.inv_read
      exact ⟨rep, hevs⟩
    · obtain ⟨op, hop⟩ := h2.tag_mem e rfl
      simp [ht] at hop
  | upgraded res evs1 evs2 evs3 h1 h2 h3 =>
    obtain ⟨op, hop⟩ := h3.tag_mem e he
    rw [ht] at hop
    rcases List.mem_cons.mp hop with h | h
    · simp at h
    · have := planFromAuth_tags _ _ _ _ _ _ _ _ h
      simp at this
  | plaintext res cause evs1 evs2 evs3 h1 h2 h3 =>
    obtain ⟨op, hop⟩ := h3.tag_mem e he
    rw [ht] at hop
    have := planFromAuth_tags _ _ _ _ _ _ _ _ hop
    simp at this

/-! ## The message -/

theorem composeMsg_eq (c : Client) (toAddr subject body date : GoString) (n : Int) :
    composeMsg c toAddr subject body date n
      = fromHeader c.SenderName c.SenderEmail ++ crlf ++
        (stringsJoin (headersAfterFrom toAddr subject date n) (lit "\r\n") ++ lit "\r\n\r\n"
          ++ body ++ lit "\r\n.") := by
  simp only [composeMsg, headers, headersAfterFrom, stringsJoin, fromHeader, crlf,
    List.append_assoc]

/-! ## What the actions of a plan are -/

theorem OpEvents.op_transport {tp : Transport} {op : Op} {r : Option Cause} {evs : List Event}
    (h : OpEvents tp op r evs) : ∀ e ∈ evs, e.transport = some tp := by
  cases h <;> simp [Event.transport]

theorem PlanEvents.plan_transport {tp : Transport} {plan : List (Option ErrTag × Op)}
    {res : Option SendError} {evs : List Event} (h : PlanEvents tp plan res evs) :
    ∀ e ∈ evs, e.transport = some tp := by
  induction h with
  | done => simp
  | stop t op rest cause evs h => exact h.op_transport
  | next tag op rest r res evs evs2 h hr h2 ih =>
    intro e he
    rcases List.mem_append.mp he with he | he
    · exact h.op_transport e he
    · exact ih e he

theorem OpEvents.op_cmd_mem {tp : Transport} {op : Op} {r : Option Cause} {evs : List Event}
    (h : OpEvents tp op r evs) (tp2 : Transport) (line : GoString) (ok : Bool)
    (he : Event.cmd tp2 line ok ∈ evs) : ∃ k, op = Op.command line k := by
  cases h <;> simp at he
  · exact ⟨_, by rw [he.2.1]⟩
  · exact ⟨_, by rw [he.2.1]⟩

theorem OpEvents.op_write_mem {tp : Transport} {op : Op} {r : Option Cause} {evs : List Event}
    (h : OpEvents tp op r evs) (tp2 : Transport) (s : GoString) (ok : Bool)
    (he : Event.writeString tp2 s ok ∈ evs) : op = Op.writeString s := by
  cases h <;> simp at he
  rw [he.2.1]

theorem OpEvents.op_read_mem {tp : Transport} {op : Op} {r : Option Cause} {evs : List Event}
    (h : OpEvents tp op r evs) (tp2 : Transport) (k : Nat) (rep : Reply)
    (he : Event.read tp2 k rep ∈ evs) : op = Op.readReply k ∨ ∃ line, op = Op.command line k := by
  cases h <;> simp at he
  · exact Or.inr ⟨_, by rw [he.2.1]⟩
  · exact Or.inl (by rw [he.2.1])

theorem PlanEvents.plan_cmd_mem {tp : Transport} {plan : List (Option ErrTag × Op)}
    {res : Option SendError} {evs : List Event} (h : PlanEvents tp plan res evs)
    (tp2 : Transport) (line : GoString) (ok : Bool) (he : Event.cmd tp2 line ok ∈ evs) :
    ∃ tag k, (tag, Op.command line k) ∈ plan := by
  induction h with
  | done => simp at he
  | stop t op rest cause evs h =>
    obtain ⟨k, rfl⟩ := h.op_cmd_mem tp2 line ok he
    exact ⟨_, k, List.mem_cons_self _ _⟩
  | next tag op rest r res evs evs2 h hr h2 ih =>
    rcases List.mem_append.mp he with he | he
    · obtain ⟨k, rfl⟩ := h.op_cmd_mem tp2 line ok he
      exact ⟨_, k, List.mem_cons_self _ _⟩
    · obtain ⟨tag2, k, hm⟩ := ih he
      exact ⟨tag2, k, List.mem_cons_of_mem _ hm⟩

theorem PlanEvents.plan_write_mem {tp : Transport} {plan : List (Option ErrTag × Op)}
    {res : Option SendError} {evs : List Event} (h : PlanEvents tp plan res evs)
    (tp2 : Transport) (s : GoString) (ok : Bool) (he : Event.writeString tp2 s ok ∈ evs) :
    ∃ tag, (tag, Op.writeString s) ∈ plan := by
  induction h with
  | done => simp at he
  | stop t op rest cause evs h =>
    have := h.op_write_mem tp2 s ok he
    subst this
    exact ⟨_, List.mem_cons_self _ _⟩
  | next tag op rest r res evs evs2 h hr h2 ih =>
    rcases List.mem_append.mp he with he | he
    · have := h.op_write_mem tp2 s ok he
      subst this
      exact ⟨_, List.mem_cons_self _ _⟩
    · obtain ⟨tag2, hm⟩ := ih he
      exact ⟨tag2, List.mem_cons_of_mem _ hm⟩

theorem PlanEvents.plan_read_mem {tp : Transport} {plan : List (Option ErrTag × Op)}
    {res : Option SendError} {evs : List Event} (h : PlanEvents tp plan res evs)
    (tp2 : Transport) (k : Nat) (rep : Reply) (he : Event.read tp2 k rep ∈ evs) :
    ∃ tag, (tag, Op.readReply k) ∈ plan ∨ ∃ line, (tag, Op.command line k) ∈ plan := by
  induction h with
  | done => simp at he
  | stop t op rest cause evs h =>
    rcases h.op_read_mem tp2 k rep he with rfl | ⟨line, rfl⟩
    · exact ⟨_, Or.inl (List.mem_cons_self _ _)⟩
    · exact ⟨_, Or.inr ⟨line, List.mem_cons_self _ _⟩⟩
  | next tag op rest r res evs evs2 h hr h2 ih =>
    rcases List.mem_append.mp he with he | he
    · rcases h.op_read_mem tp2 k rep he with rfl | ⟨line, rfl⟩
      · exact ⟨_, Or.inl (List.mem_cons_self _ _)⟩
      · exact ⟨_, Or.inr ⟨line, List.mem_cons_self _ _⟩⟩
    · obtain ⟨tag2, hm⟩ := ih he
      rcases hm with hm | ⟨line, hm⟩
      · exact ⟨tag2, Or.inl (List.mem_cons_of_mem _ hm)⟩
      · exact ⟨tag2, Or.inr ⟨line, List.mem_cons_of_mem _ hm⟩⟩

theorem PlanEvents.head_command {tp : Transport} {tag : Option ErrTag} {line : GoString}
    {k : Nat} {rest : List (Option ErrTag × Op)} {res : Option SendError} {evs : List Event}
    (h : PlanEvents tp ((tag, Op.command line k) :: rest) res evs) :
    ∃ ok tl, evs = Event.cmd tp line ok :: tl := by
  rcases h.inv_cons with ⟨t, cause, -, -, ho⟩ | ⟨r, evs1, evs2, ho, -, -, rfl⟩
  · rcases ho.inv_command with ⟨-, rfl⟩ | ⟨rep, -, rfl⟩
    · exact ⟨false, [], rfl⟩
    · exact ⟨true, _, rfl⟩
  · rcases ho.inv_command with ⟨-, rfl⟩ | ⟨rep, -, rfl⟩
    · exact ⟨false, evs2, rfl⟩
    · exact ⟨true, _, rfl⟩

theorem PlanEvents.append_none {tp : Transport} {p q : List (Option ErrTag × Op)}
    {res : Option SendError} {evs1 evs2 : List Event} (h1 : PlanEvents tp p none evs1)
    (h2 : PlanEvents tp q res evs2) : PlanEvents tp (p ++ q) res (evs1 ++ evs2) := by
  generalize hn : (none : Option SendError) = r at h1
  induction h1 with
  | done => simpa using h2
  | stop t op rest cause evs h => cases hn
  | next tag op rest r res evs evs2 h hr h3 ih =>
    rw [List.cons_append, List.append_assoc]
    exact PlanEvents.next tag op _ r _ evs _ h hr (ih hn)

theorem PlanEvents.inv_append {tp : Transport} {p q : List (Option ErrTag × Op)}
    {res : Option SendError} {evs : List Event} (h : PlanEvents tp (p ++ q) res evs) :
    (∃ e, res = some e ∧ PlanEvents tp p (some e) evs) ∨
    (∃ evs1 evs2, PlanEvents tp p none evs1 ∧ PlanEvents tp q res evs2 ∧ evs = evs1 ++ evs2) := by
  induction p generalizing res evs with
  | nil => exact Or.inr ⟨[], evs, PlanEvents.done, h, rfl⟩
  | cons a p ih =>
    rcases a with ⟨tag, op⟩
    rw [List.cons_append] at h
    rcases h.inv_cons with ⟨t, cause, rfl, rfl, ho⟩ | ⟨r, evs1, evs2, h1, hr, h2, rfl⟩
    · exact Or.inl ⟨_, rfl, PlanEvents.stop t op p cause evs ho⟩
    · rcases ih h2 with ⟨e, rfl, h3⟩ | ⟨evs3, evs4, h3, h4, rfl⟩
      · exact Or.inl ⟨e, rfl, PlanEvents.next tag op p r _ evs1 evs2 h1 hr h3⟩
      · exact Or.inr ⟨evs1 ++ evs3, evs4, PlanEvents.next tag op p r _ evs1 evs3 h1 hr h3, h4,
          by rw [List.append_assoc]⟩

theorem failure_read_none {tp : Transport} {k : Nat} {rep : Reply} (hk : 100 ≤ k)
    (hk2 : k < 1000) (h : (Event.read tp k rep).failure = none) : rep = Reply.code k := by
  rw [failure_read_eq tp k rep hk hk2] at h
  cases rep with
  | fail => simp [replyFailure] at h
  | code c =>
    simp only [replyFailure] at h
    by_cases hc : c = k
    · rw [hc]
    · simp [hc] at h

theorem failure_read_some {tp : Transport} {k : Nat} {rep : Reply} {cause : Cause}
    (hk : 100 ≤ k) (hk2 : k < 1000) (h : (Event.read tp k rep).failure = some cause) :
    rep ≠ Reply.code k := by
  rw [failure_read_eq tp k rep hk hk2] at h
  intro hr
  subst hr
  simp [replyFailure] at h

theorem ConnEvents.on_transport {c : Client} {toAddr subject body date : GoString} {n : Int}
    {res : Option SendError} {evs : List Event}
    (h : ConnEvents c toAddr subject body date n res evs) :
    ∀ e ∈ evs, e.transport = some Transport.plain ∨ e.transport = some (tlsTransport c) := by
  intro e he
  cases h with
  | early e2 evs h => exact Or.inl (h.plan_transport e he)
  | upgraded res evs1 evs2 evs3 h1 h2 h3 =>
    rcases List.mem_append.mp he with he | he
    · rcases List.mem_append.mp he with he | he
      · exact Or.inl (h1.plan_transport e he)
      · exact Or.inl (h2.op_transport e he)
    · exact Or.inr (h3.plan_transport e he)
  | plaintext res cause evs1 evs2 evs3 h1 h2 h3 =>
    rcases List.mem_append.mp he with he | he
    · rcases List.mem_append.mp he with he | he
      · exact Or.inl (h1.plan_transport e he)
      · exact Or.inl (h2.op_transport e he)
    · exact Or.inl (h3.plan_transport e he)

theorem not_close_of_transport {e : Event} {tp : Transport}
    (h : e.transport = some Transport.plain ∨ e.transport = some tp) :
    e ≠ Event.close ∧ e.isDial = false := by
  cases e <;> simp [Event.transport, Event.isDial] at h ⊢

/-! ## The command lines -/

theorem planGreeting_success {evs : List Event}
    (h : PlanEvents Transport.plain planGreeting none evs) :
    evs = [Event.read Transport.plain 220 (Reply.code 220),
      Event.cmd Transport.plain (lit "EHLO localhost") true,
      Event.read Transport.plain 250 (Reply.code 250)] := by
  unfold planGreeting at h
  rcases h.inv_cons with ⟨t, cause, -, hres, -⟩ | ⟨r, evs1, evs2, ho, hr, h2, rfl⟩
  · cases hres
  · obtain ⟨rep, hrep, rfl⟩ := ho.inv_read
    have hr1 : r = none := by simpa using hr
    rw [hr1] at hrep
    have h220 := failure_read_none (by decide) (by decide) hrep.symm
    subst h220
    rcases h2.inv_cons with ⟨t, cause, -, hres, -⟩ | ⟨r2, evs3, evs4, ho2, hr2, h3, rfl⟩
    · cases hres
    · have hr3 : r2 = none := by simpa using hr2
      obtain ⟨-, rfl⟩ := h3.inv_nil
      rcases ho2.inv_command with ⟨hio, -⟩ | ⟨rep2, hrep2, rfl⟩
      · rw [hr3] at hio; cases hio
      · rw [hr3] at hrep2
        have h250 := failure_read_none (by decide) (by decide) hrep2.symm
        subst h250
        rfl

theorem planFromAuth_commands (c : Client) (toAddr subject body date : GoString) (n : Int)
    (tag : Option ErrTag) (line : GoString) (k : Nat)
    (h : (tag, Op.command line k) ∈ planFromAuth c toAddr subject body date n) :
    (line = authLine c ∧ c.Username ≠ [] ∧ c.Password ≠ []) ∨
    line = lit "MAIL FROM:<" ++ c.Username ++ lit ">" ∨
    line = lit "RCPT TO:<" ++ toAddr ++ lit ">" ∨ line = lit "DATA" ∨ line = lit "QUIT" := by
  unfold planFromAuth at h
  by_cases hc : c.Username ≠ [] ∧ c.Password ≠ []
  · rw [if_pos hc] at h
    simp only [List.cons_append, List.nil_append, List.mem_cons, Prod.mk.injEq, Op.command.injEq,
      List.mem_singleton, reduceCtorEq, false_and, and_false, or_false, false_or,
      List.not_mem_nil] at h
    rcases h with h | h | h | h | h
    · exact Or.inl ⟨h.2.1, hc⟩
    · exact Or.inr (Or.inl h.2.1)
    · exact Or.inr (Or.inr (Or.inl h.2.1))
    · exact Or.inr (Or.inr (Or.inr (Or.inl h.2.1)))
    · exact Or.inr (Or.inr (Or.inr (Or.inr h.2.1)))
  · rw [if_neg hc] at h
    simp only [List.cons_append, List.nil_append, List.mem_cons, Prod.mk.injEq, Op.command.injEq,
      List.mem_singleton, reduceCtorEq, false_and, and_false, or_false, false_or,
      List.not_mem_nil] at h
    rcases h with h | h | h | h
    · exact Or.inr (Or.inl h.2.1)
    · exact Or.inr (Or.inr (Or.inl h.2.1))
    · exact Or.inr (Or.inr (Or.inr (Or.inl h.2.1)))
    · exact Or.inr (Or.inr (Or.inr (Or.inr h.2.1)))

theorem authLine_head (c : Client) : (authLine c).head? = some 65 := by
  unfold authLine
  rw [show lit "AUTH PLAIN " = 65 :: lit "UTH PLAIN " from by decide]
  rfl

theorem mailFromLine_head (u : GoString) : (lit "MAIL FROM:<" ++ u ++ lit ">").head? = some 77 := by
  rw [show lit "MAIL FROM:<" = 77 :: lit "AIL FROM:<" from by decide]
  rfl

theorem rcptToLine_head (u : GoString) : (lit "RCPT TO:<" ++ u ++ lit ">").head? = some 82 := by
  rw [show lit "RCPT TO:<" = 82 :: lit "CPT TO:<" from by decide]
  rfl

/-- The first byte of each command line of `sendFromAuth`: A, M, R, D or Q. -/
theorem planFromAuth_command_head (c : Client) (toAddr subject body date : GoString) (n : Int)
    (tag : Option ErrTag) (line : GoString) (k : Nat)
    (h : (tag, Op.command line k) ∈ planFromAuth c toAddr subject body date n) :
    line.head? = some 65 ∨ line.head? = some 77 ∨ line.head? = some 82 ∨
      line.head? = some 68 ∨ line.head? = some 81 := by
  rcases planFromAuth_commands c toAddr subject body date n tag line k h with
    ⟨h, -⟩ | h | h | h | h
  · rw [h]; exact Or.inl (authLine_head c)
  · rw [h]; exact Or.inr (Or.inl (mailFromLine_head _))
  · rw [h]; exact Or.inr (Or.inr (Or.inl (rcptToLine_head _)))
  · rw [h]; exact Or.inr (Or.inr (Or.inr (Or.inl (by decide))))
  · rw [h]; exact Or.inr (Or.inr (Or.inr (Or.inr (by decide))))

/-! ## Base64 -/

theorem decode_encodeByte : ∀ i : Fin 64, decodeByte (encodeByte i.val) = some i.val := by decide

theorem encodeByte_ne_pad : ∀ i : Fin 64, encodeByte i.val ≠ stdPadding := by decide

theorem decodeByte_encodeByte (i : Nat) (h : i < 64) : decodeByte (encodeByte i) = some i :=
  decode_encodeByte ⟨i, h⟩

theorem encodeByte_ne_stdPadding (i : Nat) (h : i < 64) : encodeByte i ≠ stdPadding :=
  encodeByte_ne_pad ⟨i, h⟩

theorem byteOf_val (a : Byte) (n : Nat) (h : n % 256 = a.val) : byteOf n = a := by
  apply Fin.ext
  simp [byteOf, h]

theorem base64_roundtrip_aux : ∀ (n : Nat) (bs : List Byte), bs.length ≤ n →
    base64Decode (base64EncodeToString bs) = some bs := by
  intro n
  induction n with
  | zero =>
    intro bs h
    have : bs = [] := List.length_eq_zero.mp (Nat.le_zero.mp h)
    subst this
    rfl
  | succ n ih =>
    intro bs h
    rcases bs with _ | ⟨a, _ | ⟨b, _ | ⟨c, rest⟩⟩⟩
    · rfl
    · have ha := a.isLt
      simp only [base64EncodeToString, base64Decode]
      rw [decodeByte_encodeByte _ (Nat.mod_lt _ (by decide)),
        decodeByte_encodeByte _ (Nat.mod_lt _ (by decide))]
      simp only [and_self, if_true]
      congr 2
      apply byteOf_val
      omega
    · have ha := a.isLt
      have hb := b.isLt
      simp only [base64EncodeToString, base64Decode]
      rw [decodeByte_encodeByte _ (Nat.mod_lt _ (by decide)),
        decodeByte_encodeByte _ (Nat.mod_lt _ (by decide))]
      simp only [encodeByte_ne_stdPadding _ (Nat.mod_lt _ (by decide)), false_and, if_false,
        if_true]
      rw [decodeByte_encodeByte _ (Nat.mod_lt _ (by decide))]
      simp only
      congr 2
      · apply byteOf_val; omega
      · congr 1
        apply byteOf_val; omega
    · have ha := a.isLt
      have hb := b.isLt
      have hc := c.isLt
      have hrest := ih rest (by simp at h; omega)
      rw [base64EncodeToString]
      by_cases hr : rest = []
      · subst hr
        simp only [base64EncodeToString, base64Decode]
        rw [decodeByte_encodeByte _ (Nat.mod_lt _ (by decide)),
          decodeByte_encodeByte _ (Nat.mod_lt _ (by decide))]
        simp only [encodeByte_ne_stdPadding _ (Nat.mod_lt _ (by decide)), false_and, if_false]
        rw [decodeByte_encodeByte _ (Nat.mod_lt _ (by decide)),
          decodeByte_encodeByte _ (Nat.mod_lt _ (by decide))]
        simp only
        congr 2
        · apply byteOf_val; omega
        · congr 1
          · apply byteOf_val; omega
          · congr 1
            apply byteOf_val; omega
      · have hne : base64EncodeToString rest ≠ [] := by
          rcases rest with _ | ⟨x, _ | ⟨y, _ | ⟨z, tl⟩⟩⟩
          · exact absurd rfl hr
          all_goals simp [base64EncodeToString]
        rw [base64Decode.eq_3 _ _ _ _ _ (fun h => hne h), hrest]
        rw [decodeByte_encodeByte _ (Nat.mod_lt _ (by decide)),
          decodeByte_encodeByte _ (Nat.mod_lt _ (by decide)),
          decodeByte_encodeByte _ (Nat.mod_lt _ (by decide)),
          decodeByte_encodeByte _ (Nat.mod_lt _ (by decide))]
        simp only
        congr 2
        · apply byteOf_val; omega
        · congr 1
          · apply byteOf_val; omega
          · congr 1
            apply byteOf_val; omega

theorem base64_roundtrip (bs : List Byte) :
    base64Decode (base64EncodeToString bs) = some bs :=
  base64_roundtrip_aux bs.length bs (Nat.le_refl _)

/-! ## The commands of a run -/

theorem ConnEvents.conn_cmd_mem {c : Client} {toAddr subject body date : GoString} {n : Int}
    {res : Option SendError} {evs : List Event}
    (h : ConnEvents c toAddr subject body date n res evs)
    (tp : Transport) (line : GoString) (ok : Bool) (he : Event.cmd tp line ok ∈ evs) :
    line = lit "EHLO localhost" ∨ line = lit "STARTTLS" ∨
    (line = authLine c ∧ c.Username ≠ [] ∧ c.Password ≠ []) ∨
    line = lit "MAIL FROM:<" ++ c.Username ++ lit ">" ∨
    line = lit "RCPT TO:<" ++ toAddr ++ lit ">" ∨ line = lit "DATA" ∨ line = lit "QUIT" := by
  have hg : ∀ {r : Option SendError} {l : List Event},
      PlanEvents Transport.plain planGreeting r l → Event.cmd tp line ok ∈ l →
      line = lit "EHLO localhost" := by
    intro r l hp hm
    obtain ⟨tag, k, hmem⟩ := hp.plan_cmd_mem tp line ok hm
    simp only [planGreeting, List.mem_cons, Prod.mk.injEq, reduceCtorEq, and_false, false_or,
      Op.command.injEq, List.mem_singleton, List.not_mem_nil, or_false] at hmem
    exact hmem.2.1
  have hs : ∀ {r : Option Cause} {l : List Event},
      OpEvents Transport.plain (Op.command (lit "STARTTLS") 220) r l →
      Event.cmd tp line ok ∈ l → line = lit "STARTTLS" := by
    intro r l hp hm
    obtain ⟨k, hk⟩ := hp.op_cmd_mem tp line ok hm
    simp only [Op.command.injEq] at hk
    exact hk.1.symm
  cases h with
  | early e2 evs h => exact Or.inl (hg h he)
  | upgraded res evs1 evs2 evs3 h1 h2 h3 =>
    rcases List.mem_append.mp he with he | he
    · rcases List.mem_append.mp he with he | he
      · exact Or.inl (hg h1 he)
      · exact Or.inr (Or.inl (hs h2 he))
    · obtain ⟨tag, k, hmem⟩ := h3.plan_cmd_mem tp line ok he
      rcases List.mem_cons.mp hmem with hm | hm
      · simp only [Prod.mk.injEq, Op.command.injEq] at hm
        exact Or.inl hm.2.1
      · exact Or.inr (Or.inr (planFromAuth_commands _ _ _ _ _ _ _ _ _ hm))
  | plaintext res cause evs1 evs2 evs3 h1 h2 h3 =>
    rcases List.mem_append.mp he with he | he
    · rcases List.mem_append.mp he with he | he
      · exact Or.inl (hg h1 he)
      · exact Or.inr (Or.inl (hs h2 he))
    · obtain ⟨tag, k, hmem⟩ := h3.plan_cmd_mem tp line ok he
      exact Or.inr (Or.inr (planFromAuth_commands _ _ _ _ _ _ _ _ _ hmem))

/-- A command of a run of `Send` is one of the seven command lines. -/
theorem Send_cmd_mem (c : Client) (toAddr subject body : GoString) (env : Env)
    (tp : Transport) (line : GoString) (ok : Bool)
    (he : Event.cmd tp line ok ∈ (Send c toAddr subject body env).trace) :
    line = lit "EHLO localhost" ∨ line = lit "STARTTLS" ∨
    (line = authLine c ∧ c.Username ≠ [] ∧ c.Password ≠ []) ∨
    line = lit "MAIL FROM:<" ++ c.Username ++ lit ">" ∨
    line = lit "RCPT TO:<" ++ toAddr ++ lit ">" ∨ line = lit "DATA" ∨ line = lit "QUIT" := by
  rcases Send_events c toAddr subject body env with ⟨-, hs⟩ | ⟨-, evs, htr, hev⟩
  · rw [hs] at he
    simp at he
  · rw [htr] at he
    simp only [List.cons_append, List.mem_cons, reduceCtorEq, false_or, List.mem_append,
      List.mem_singleton, or_false, List.not_mem_nil] at he
    exact hev.conn_cmd_mem tp line ok he

/-- The first byte of each command line of `Send`. -/
theorem Send_cmd_head (c : Client) (toAddr subject body : GoString) (env : Env)
    (tp : Transport) (line : GoString) (ok : Bool)
    (he : Event.cmd tp line ok ∈ (Send c toAddr subject body env).trace) :
    (line.head? = some 69 ∧ line = lit "EHLO localhost") ∨
    (line.head? = some 83 ∧ line = lit "STARTTLS") ∨
    (line.head? = some 65 ∧ line = authLine c ∧ c.Username ≠ [] ∧ c.Password ≠ []) ∨
    (line.head? = some 77 ∧ line = lit "MAIL FROM:<" ++ c.Username ++ lit ">") ∨
    (line.head? = some 82 ∧ line = lit "RCPT TO:<" ++ toAddr ++ lit ">") ∨
    (line.head? = some 68 ∧ line = lit "DATA") ∨ (line.head? = some 81 ∧ line = lit "QUIT") := by
  rcases Send_cmd_mem c toAddr subject body env tp line ok he with h | h | h | h | h | h | h
  · exact Or.inl ⟨by rw [h]; decide, h⟩
  · exact Or.inr (Or.inl ⟨by rw [h]; decide, h⟩)
  · exact Or.inr (Or.inr (Or.inl ⟨by rw [h.1]; exact authLine_head c, h⟩))
  · exact Or.inr (Or.inr (Or.inr (Or.inl ⟨by rw [h]; exact mailFromLine_head _, h⟩)))
  · exact Or.inr (Or.inr (Or.inr (Or.inr (Or.inl ⟨by rw [h]; exact rcptToLine_head _, h⟩))))
  · exact Or.inr (Or.inr (Or.inr (Or.inr (Or.inr (Or.inl ⟨by rw [h]; decide, h⟩)))))
  · exact Or.inr (Or.inr (Or.inr (Or.inr (Or.inr (Or.inr ⟨by rw [h]; decide, h⟩)))))

/-- A run that did not fail before the AUTH PLAIN block performed the first
operation of `sendFromAuth`. -/
theorem ConnEvents.reached_auth {c : Client} {toAddr subject body date : GoString} {n : Int}
    {res : Option SendError} {evs : List Event}
    (h : ConnEvents c toAddr subject body date n res evs)
    (hreach : ∀ e, res = some e → e.tag ≠ ErrTag.greeting ∧ e.tag ≠ ErrTag.ehlo ∧
      e.tag ≠ ErrTag.postTlsEhlo) :
    ∃ tp pre evs3, evs = pre ++ evs3 ∧
      PlanEvents tp (planFromAuth c toAddr subject body date n) res evs3 := by
  cases h with
  | early e2 evs h =>
    obtain ⟨op, hop⟩ := h.tag_mem e2 rfl
    have := hreach e2 rfl
    simp [planGreeting, this.1, this.2.1] at hop
  | upgraded res evs1 evs2 evs3 h1 h2 h3 =>
    rcases h3.inv_cons with ⟨t, cause, ht, hres, -⟩ | ⟨r, evs4, evs5, -, -, h5, rfl⟩
    · simp only [Option.some.injEq] at ht
      have := (hreach _ hres).2.2
      rw [← ht] at this
      exact absurd rfl this
    · exact ⟨_, evs1 ++ evs2 ++ evs4, evs5, by simp, h5⟩
  | plaintext res cause evs1 evs2 evs3 h1 h2 h3 =>
    exact ⟨_, evs1 ++ evs2, evs3, rfl, h3⟩

theorem planFromAuth_writes (c : Client) (toAddr subject body date : GoString) (n : Int)
    (tag : Option ErrTag) (s : GoString)
    (h : (tag, Op.writeString s) ∈ planFromAuth c toAddr subject body date n) :
    s = composeMsg c toAddr subject body date n ∨ s = lit "\r\n" := by
  unfold planFromAuth at h
  by_cases hc : c.Username ≠ [] ∧ c.Password ≠ []
  · rw [if_pos hc] at h
    simp only [List.cons_append, List.nil_append, List.mem_cons, Prod.mk.injEq,
      Op.writeString.injEq, List.mem_singleton, reduceCtorEq, false_and, and_false, or_false,
      false_or, List.not_mem_nil] at h
    rcases h with h | h
    · exact Or.inl h.2
    · exact Or.inr h.2
  · rw [if_neg hc] at h
    simp only [List.cons_append, List.nil_append, List.mem_cons, Prod.mk.injEq,
      Op.writeString.injEq, List.mem_singleton, reduceCtorEq, false_and, and_false, or_false,
      false_or, List.not_mem_nil] at h
    rcases h with h | h
    · exact Or.inl h.2
    · exact Or.inr h.2

/-- A string written by a run of `Send` is the message or its final CRLF. -/
theorem Send_write_mem (c : Client) (toAddr subject body : GoString) (env : Env)
    (tp : Transport) (s : GoString) (ok : Bool)
    (he : Event.writeString tp s ok ∈ (Send c toAddr subject body env).trace) :
    s = composeMsg c toAddr subject body env.date env.unixNano ∨ s = lit "\r\n" := by
  rcases Send_events c toAddr subject body env with ⟨-, hs⟩ | ⟨-, evs, htr, hev⟩
  · rw [hs] at he
    simp at he
  · rw [htr] at he
    simp only [List.cons_append, List.mem_cons, reduceCtorEq, false_or, List.mem_append,
      List.mem_singleton, or_false, List.not_mem_nil] at he
    have hg : ∀ {r : Option SendError} {l : List Event},
        PlanEvents Transport.plain planGreeting r l → Event.writeString tp s ok ∈ l → False := by
      intro r l hp hm
      obtain ⟨tag, hmem⟩ := hp.plan_write_mem tp s ok hm
      simp [planGreeting] at hmem
    have hst : ∀ {r : Option Cause} {l : List Event},
        OpEvents Transport.plain (Op.command (lit "STARTTLS") 220) r l →
        Event.writeString tp s ok ∈ l → False := by
      intro r l hp hm
      have := hp.op_write_mem tp s ok hm
      cases this
    generalize (Send c toAddr subject body env).err = res at hev
    cases hev with
    | early e2 evs h => exact (hg h he).elim
    | upgraded res evs1 evs2 evs3 h1 h2 h3 =>
      rcases List.mem_append.mp he with he | he
      · rcases List.mem_append.mp he with he | he
        · exact (hg h1 he).elim
        · exact (hst h2 he).elim
      · obtain ⟨tag, hmem⟩ := h3.plan_write_mem tp s ok he
        rcases List.mem_cons.mp hmem with hm | hm
        · simp at hm
        · exact planFromAuth_writes _ _ _ _ _ _ _ _ hm
    | plaintext res cause evs1 evs2 evs3 h1 h2 h3 =>
      rcases List.mem_append.mp he with he | he
      · rcases List.mem_append.mp he with he | he
        · exact (hg h1 he).elim
        · exact (hst h2 he).elim
      · obtain ⟨tag, hmem⟩ := h3.plan_write_mem tp s ok he
        exact planFromAuth_writes _ _ _ _ _ _ _ _ hmem

theorem head_of_isPrefix {p l : GoString} {b : Byte} (h : p <+: l) (hp : p.head? = some b) :
    l.head? = some b := by
  obtain ⟨t, rfl⟩ := h
  cases p with
  | nil => simp at hp
  | cons a p => simpa using hp

/-- A MAIL FROM command of a run of `Send` carries the client's `Username`. -/
theorem Send_mail_from_line (c : Client) (toAddr subject body : GoString) (env : Env)
    (tp : Transport) (line : GoString) (ok : Bool)
    (he : Event.cmd tp line ok ∈ (Send c toAddr subject body env).trace)
    (hp : lit "MAIL FROM" <+: line) : line = lit "MAIL FROM:<" ++ c.Username ++ lit ">" := by
  have hh : line.head? = some 77 := head_of_isPrefix hp (by decide)
  rcases Send_cmd_head c toAddr subject body env tp line ok he with
    h | h | h | h | h | h | h
  all_goals first
    | exact h.2
    | (exfalso; have h1 := h.1; rw [hh] at h1; simp at h1)

/-! ## The bytes between the 354 reply and the confirmation -/

theorem unique_split {α : Type} (P : α → Prop) :
    ∀ (l1 l2 m1 m2 : List α) (x y : α), l1 ++ x :: l2 = m1 ++ y :: m2 → P y →
      (∀ e ∈ l1, ¬ P e) → (∀ e ∈ l2, ¬ P e) → m1 = l1 ∧ y = x ∧ m2 = l2 := by
  intro l1
  induction l1 with
  | nil =>
    intro l2 m1 m2 x y h hy _ h2
    cases m1 with
    | nil =>
      simp only [List.nil_append, List.cons.injEq] at h
      exact ⟨rfl, h.1.symm, h.2.symm⟩
    | cons a m1 =>
      simp only [List.nil_append, List.cons_append, List.cons.injEq] at h
      exact absurd hy (h2 y (by rw [h.2]; simp))
  | cons a l1 ih =>
    intro l2 m1 m2 x y h hy h1 h2
    cases m1 with
    | nil =>
      simp only [List.nil_append, List.cons_append, List.cons.injEq] at h
      exact absurd hy (h1 y (by rw [← h.1]; simp))
    | cons b m1 =>
      simp only [List.cons_append, List.cons.injEq] at h
      obtain ⟨hm, hx, hl⟩ := ih l2 m1 m2 x y h.2 hy (fun e he => h1 e (List.mem_cons_of_mem _ he)) h2
      exact ⟨by rw [h.1, hm], hx, hl⟩

theorem write_failure_none {tp : Transport} {s : GoString} {ok : Bool}
    (h : (Event.writeString tp s ok).failure = none) : ok = true := by
  cases ok <;> simp [Event.failure] at h ⊢

theorem flush_failure_none {tp : Transport} {ok : Bool}
    (h : (Event.flush tp ok).failure = none) : ok = true := by
  cases ok <;> simp [Event.failure] at h ⊢

/-- The part of `sendFromAuth` after the DATA command. -/
theorem after_data_events {tp : Transport} {msg : GoString} {res : Option SendError}
    {evs : List Event}
    (h : PlanEvents tp
      [ (some ErrTag.writeBody, Op.writeString msg),
        (some ErrTag.writeTerminator, Op.writeString (lit "\r\n")),
        (some ErrTag.flushBody, Op.flush),
        (some ErrTag.dataConfirm, Op.readReply 250),
        (none, Op.command (lit "QUIT") 221) ] res evs) :
    (∀ e ∈ evs, ∀ tp2 r, e ≠ Event.read tp2 250 r) ∨
    (∃ rep tl, evs = [ Event.writeString tp msg true, Event.writeString tp (lit "\r\n") true,
        Event.flush tp true ] ++ Event.read tp 250 rep :: tl ∧
      ∀ e ∈ tl, ∀ tp2 r, e ≠ Event.read tp2 250 r) := by
  rcases h.inv_cons with ⟨t, cause, -, -, ho⟩ | ⟨r1, e1, e2, ho1, hr1, h2, rfl⟩
  · obtain ⟨ok, -, rfl⟩ := ho.inv_write
    left
    simp
  obtain ⟨ok1, hf1, rfl⟩ := ho1.inv_write
  have hok1 : ok1 = true := write_failure_none (by rw [← hf1]; simpa using hr1)
  subst hok1
  rcases h2.inv_cons with ⟨t, cause, -, -, ho⟩ | ⟨r2, e3, e4, ho2, hr2, h3, rfl⟩
  · obtain ⟨ok, -, rfl⟩ := ho.inv_write
    left
    simp
  obtain ⟨ok2, hf2, rfl⟩ := ho2.inv_write
  have hok2 : ok2 = true := write_failure_none (by rw [← hf2]; simpa using hr2)
  subst hok2
  rcases h3.inv_cons with ⟨t, cause, -, -, ho⟩ | ⟨r3, e5, e6, ho3, hr3, h4, rfl⟩
  · obtain ⟨ok, -, rfl⟩ := ho.inv_flush
    left
    simp
  obtain ⟨ok3, hf3, rfl⟩ := ho3.inv_flush
  have hok3 : ok3 = true := flush_failure_none (by rw [← hf3]; simpa using hr3)
  subst hok3
  right
  rcases h4.inv_cons with ⟨t, cause, -, -, ho⟩ | ⟨r4, e7, e8, ho4, hr4, h5, rfl⟩
  · obtain ⟨rep, -, rfl⟩ := ho.inv_read
    exact ⟨rep, [], rfl, by simp⟩
  obtain ⟨rep, -, rfl⟩ := ho4.inv_read
  refine ⟨rep, e8, rfl, ?_⟩
  intro e he tp2 r heq
  subst heq
  obtain ⟨tag, hm⟩ := h5.plan_read_mem _ _ _ he
  simp at hm

theorem PlanEvents.no_data_reply {tp : Transport} {plan : List (Option ErrTag × Op)}
    {res : Option SendError} {evs : List Event} (h : PlanEvents tp plan res evs)
    (hplan : ∀ tag, (tag, Op.readReply 354) ∉ plan ∧ ∀ line, (tag, Op.command line 354) ∉ plan) :
    ∀ e ∈ evs, ¬ e.isDataReply := by
  rintro e he ⟨tp2, rfl⟩
  obtain ⟨tag, hm⟩ := h.plan_read_mem _ _ _ he
  rcases hm with hm | ⟨line, hm⟩
  · exact (hplan tag).1 hm
  · exact (hplan tag).2 line hm

theorem planFromAuth_split (c : Client) (toAddr subject body date : GoString) (n : Int) :
    planFromAuth c toAddr subject body date n
      = ((if c.Username ≠ [] ∧ c.Password ≠ [] then
            [(some ErrTag.authPlain, Op.command (authLine c) 235)] else []) ++
          [ (some ErrTag.mailFrom, Op.command (lit "MAIL FROM:<" ++ c.Username ++ lit ">") 250),
            (some ErrTag.rcptTo, Op.command (lit "RCPT TO:<" ++ toAddr ++ lit ">") 250) ]) ++
        (some ErrTag.data, Op.command (lit "DATA") 354) ::
        [ (some ErrTag.writeBody, Op.writeString (composeMsg c toAddr subject body date n)),
          (some ErrTag.writeTerminator, Op.writeString (lit "\r\n")),
          (some ErrTag.flushBody, Op.flush),
          (some ErrTag.dataConfirm, Op.readReply 250),
          (none, Op.command (lit "QUIT") 221) ] := by
  unfold planFromAuth
  simp

/-- A run of `sendFromAuth` either never reads a 354 reply to DATA, or it reads
one right after the DATA command and goes on with the message. -/
theorem sendFromAuth_data_split {c : Client} {toAddr subject body date : GoString} {n : Int}
    {tp : Transport} {res : Option SendError} {evs : List Event}
    (h : PlanEvents tp (planFromAuth c toAddr subject body date n) res evs) :
    (∀ e ∈ evs, ¬ e.isDataReply) ∨
    (∃ e1 e3, evs = e1 ++ Event.read tp 354 (Reply.code 354) :: e3 ∧
      (∀ e ∈ e1, ¬ e.isDataReply) ∧
      PlanEvents tp
        [ (some ErrTag.writeBody, Op.writeString (composeMsg c toAddr subject body date n)),
          (some ErrTag.writeTerminator, Op.writeString (lit "\r\n")),
          (some ErrTag.flushBody, Op.flush),
          (some ErrTag.dataConfirm, Op.readReply 250),
          (none, Op.command (lit "QUIT") 221) ] res e3) := by
  rw [planFromAuth_split] at h
  have hP1 : ∀ tag, (tag, Op.readReply 354) ∉
        ((if c.Username ≠ [] ∧ c.Password ≠ [] then
            [(some ErrTag.authPlain, Op.command (authLine c) 235)] else []) ++
          [ (some ErrTag.mailFrom, Op.command (lit "MAIL FROM:<" ++ c.Username ++ lit ">") 250),
            (some ErrTag.rcptTo, Op.command (lit "RCPT TO:<" ++ toAddr ++ lit ">") 250) ]) ∧
      ∀ line, (tag, Op.command line 354) ∉
        ((if c.Username ≠ [] ∧ c.Password ≠ [] then
            [(some ErrTag.authPlain, Op.command (authLine c) 235)] else []) ++
          [ (some ErrTag.mailFrom, Op.command (lit "MAIL FROM:<" ++ c.Username ++ lit ">") 250),
            (some ErrTag.rcptTo, Op.command (lit "RCPT TO:<" ++ toAddr ++ lit ">") 250) ]) := by
    intro tag
    by_cases hc : c.Username ≠ [] ∧ c.Password ≠ []
    · rw [if_pos hc]; simp
    · rw [if_neg hc]; simp
  rcases h.inv_append with ⟨e, -, hp⟩ | ⟨e1, e2, hp1, hp2, rfl⟩
  · exact Or.inl (hp.no_data_reply hP1)
  · have h1 := hp1.no_data_reply hP1
    rcases hp2.inv_cons with ⟨t, cause, -, -, ho⟩ | ⟨r, e3, e4, ho, hr, h4, rfl⟩
    · left
      intro e he
      rcases List.mem_append.mp he with he | he
      · exact h1 e he
      · rintro ⟨tp2, rfl⟩
        rcases ho.inv_command with ⟨-, rfl⟩ | ⟨rep, hrep, rfl⟩
        · simp at he
        · simp only [List.mem_cons, reduceCtorEq, Event.read.injEq, true_and, List.mem_singleton,
            false_or, List.not_mem_nil, or_false] at he
          exact failure_read_some (by decide) (by decide) hrep.symm he.2.symm
    · have hr1 : r = none := by simpa using hr
      rcases ho.inv_command with ⟨hio, -⟩ | ⟨rep, hrep, rfl⟩
      · rw [hr1] at hio; cases hio
      · rw [hr1] at hrep
        have h354 := failure_read_none (by decide) (by decide) hrep.symm
        subst h354
        right
        refine ⟨e1 ++ [Event.cmd tp (lit "DATA") true], e4, by simp, ?_, h4⟩
        intro e he
        rcases List.mem_append.mp he with he | he
        · exact h1 e he
        · rintro ⟨tp2, rfl⟩
          simp at he

theorem ConnEvents.data_split {c : Client} {toAddr subject body date : GoString} {n : Int}
    {res : Option SendError} {evs : List Event}
    (h : ConnEvents c toAddr subject body date n res evs) :
    (∀ e ∈ evs, ¬ e.isDataReply) ∨
    (∃ tp e1 e3, evs = e1 ++ Event.read tp 354 (Reply.code 354) :: e3 ∧
      (∀ e ∈ e1, ¬ e.isDataReply) ∧
      PlanEvents tp
        [ (some ErrTag.writeBody, Op.writeString (composeMsg c toAddr subject body date n)),
          (some ErrTag.writeTerminator, Op.writeString (lit "\r\n")),
          (some ErrTag.flushBody, Op.flush),
          (some ErrTag.dataConfirm, Op.readReply 250),
          (none, Op.command (lit "QUIT") 221) ] res e3) := by
  have hg : ∀ {r : Option SendError} {l : List Event},
      PlanEvents Transport.plain planGreeting r l → ∀ e ∈ l, ¬ e.isDataReply := by
    intro r l hp
    exact hp.no_data_reply (by intro tag; simp [planGreeting])
  have hst : ∀ {r : Option Cause} {l : List Event},
      OpEvents Transport.plain (Op.command (lit "STARTTLS") 220) r l →
      ∀ e ∈ l, ¬ e.isDataReply := by
    rintro r l hp e he ⟨tp2, rfl⟩
    rcases hp.op_read_mem _ _ _ he with hk | ⟨line, hk⟩
    · cases hk
    · simp at hk
  have join : ∀ (pre l : List Event), (∀ e ∈ pre, ¬ e.isDataReply) →
      ((∀ e ∈ l, ¬ e.isDataReply) ∨
        (∃ tp e1 e3, l = e1 ++ Event.read tp 354 (Reply.code 354) :: e3 ∧
          (∀ e ∈ e1, ¬ e.isDataReply) ∧
          PlanEvents tp
            [ (some ErrTag.writeBody, Op.writeString (composeMsg c toAddr subject body date n)),
              (some ErrTag.writeTerminator, Op.writeString (lit "\r\n")),
              (some ErrTag.flushBody, Op.flush),
              (some ErrTag.dataConfirm, Op.readReply 250),
              (none, Op.command (lit "QUIT") 221) ] res e3)) →
      ((∀ e ∈ pre ++ l, ¬ e.isDataReply) ∨
        (∃ tp e1 e3, pre ++ l = e1 ++ Event.read tp 354 (Reply.code 354) :: e3 ∧
          (∀ e ∈ e1, ¬ e.isDataReply) ∧
          PlanEvents tp
            [ (some ErrTag.writeBody, Op.writeString (composeMsg c toAddr subject body date n)),
              (some ErrTag.writeTerminator, Op.writeString (lit "\r\n")),
              (some ErrTag.flushBody, Op.flush),
              (some ErrTag.dataConfirm, Op.readReply 250),
              (none, Op.command (lit "QUIT") 221) ] res e3)) := by
    intro pre l hpre hl
    rcases hl with hl | ⟨tp, e1, e3, rfl, h1, h3⟩
    · left
      intro e he
      rcases List.mem_append.mp he with he | he
      · exact hpre e he
      · exact hl e he
    · right
      refine ⟨tp, pre ++ e1, e3, by simp, ?_, h3⟩
      intro e he
      rcases List.mem_append.mp he with he | he
      · exact hpre e he
      · exact h1 e he
  cases h with
  | early e2 evs h => exact Or.inl (hg h)
  | upgraded res evs1 evs2 evs3 h1 h2 h3 =>
    apply join
    · intro e he
      rcases List.mem_append.mp he with he | he
      · exact hg h1 e he
      · exact hst h2 e he
    · rcases h3.inv_cons with ⟨t, cause, -, -, ho⟩ | ⟨r, e4, e5, ho, -, h5, rfl⟩
      · left
        rintro e he ⟨tp2, rfl⟩
        rcases ho.op_read_mem _ _ _ he with hk | ⟨line, hk⟩
        · cases hk
        · simp at hk
      · apply join
        · rintro e he ⟨tp2, rfl⟩
          rcases ho.op_read_mem _ _ _ he with hk | ⟨line, hk⟩
          · cases hk
          · simp at hk
        · rcases sendFromAuth_data_split h5 with hl | ⟨e1, e3, hl⟩
          · exact Or.inl hl
          · exact Or.inr ⟨_, e1, e3, hl⟩
  | plaintext res cause evs1 evs2 evs3 h1 h2 h3 =>
    apply join
    · intro e he
      rcases List.mem_append.mp he with he | he
      · exact hg h1 e he
      · exact hst h2 e he
    · rcases sendFromAuth_data_split h3 with hl | ⟨e1, e3, hl⟩
      · exact Or.inl hl
      · exact Or.inr ⟨_, e1, e3, hl⟩

theorem composeMsg_crlf_eq_spec (c : Client) (toAddr subject body date : GoString) (n : Int) :
    composeMsg c toAddr subject body date n ++ lit "\r\n"
      = specDataContent c.SenderName c.SenderEmail toAddr subject body date n := by
  simp only [composeMsg, headers, stringsJoin, specDataContent, crlf, List.append_assoc,
    show lit "\r\n\r\n" = lit "\r\n" ++ lit "\r\n" from by decide]

/-! ## Lines and the DATA terminator -/

theorem crlf_eq : crlf = [(13 : Byte), 10] := by decide
theorem lit_crlf_eq : lit "\r\n" = [(13 : Byte), 10] := by decide

theorem stringsSplitCRLF_ne_nil : ∀ (n : Nat) (s : GoString), s.length ≤ n →
    stringsSplitCRLF s ≠ [] := by
  intro n
  induction n with
  | zero =>
    intro s hs
    have : s = [] := List.length_eq_zero.mp (Nat.le_zero.mp hs)
    subst this
    simp [stringsSplitCRLF]
  | succ n ih =>
    intro s hs
    rcases s with _ | ⟨b, _ | ⟨c, rest⟩⟩
    · simp [stringsSplitCRLF]
    · simp [stringsSplitCRLF]
    · rw [stringsSplitCRLF]
      split
      · simp
      · have := ih (c :: rest) (by simp at hs ⊢; omega)
        cases h : stringsSplitCRLF (c :: rest) with
        | nil => exact absurd h this
        | cons l ls => simp [consHead]

theorem consHead_append (b : Byte) (xs ys : List GoString) (h : xs ≠ []) :
    consHead b (xs ++ ys) = consHead b xs ++ ys := by
  cases xs with
  | nil => exact absurd rfl h
  | cons l ls => rfl

/-- Splitting distributes over a CRLF. -/
theorem split_append_crlf : ∀ (n : Nat) (a b : GoString), a.length ≤ n →
    stringsSplitCRLF (a ++ (13 :: 10 :: b)) = stringsSplitCRLF a ++ stringsSplitCRLF b := by
  intro n
  induction n with
  | zero =>
    intro a b ha
    have : a = [] := List.length_eq_zero.mp (Nat.le_zero.mp ha)
    subst this
    simp [stringsSplitCRLF]
  | succ n ih =>
    intro a b ha
    rcases a with _ | ⟨x, _ | ⟨y, rest⟩⟩
    · simp [stringsSplitCRLF]
    · have h1 : ¬ (x = 13 ∧ (13 : Byte) = 10) := by
        intro h
        exact absurd h.2 (by decide)
      simp only [List.cons_append, List.nil_append, stringsSplitCRLF, if_neg h1, and_self,
        if_true, consHead]
    · have e1 : stringsSplitCRLF (x :: y :: rest ++ 13 :: 10 :: b)
          = if x = 13 ∧ y = 10 then [] :: stringsSplitCRLF (rest ++ 13 :: 10 :: b)
            else consHead x (stringsSplitCRLF (y :: (rest ++ 13 :: 10 :: b))) := rfl
      have e2 : stringsSplitCRLF (x :: y :: rest)
          = if x = 13 ∧ y = 10 then [] :: stringsSplitCRLF rest
            else consHead x (stringsSplitCRLF (y :: rest)) := rfl
      rw [e1, e2]
      by_cases h : x = 13 ∧ y = 10
      · rw [if_pos h, if_pos h]
        rw [ih rest b (by simp at ha; omega)]
        rfl
      · rw [if_neg h, if_neg h]
        have := ih (y :: rest) b (by simp at ha ⊢; omega)
        simp only [List.cons_append] at this
        rw [this, consHead_append _ _ _ (stringsSplitCRLF_ne_nil _ _ (Nat.le_refl _))]

theorem split_no_cr : ∀ (s : GoString), (∀ b ∈ s, b ≠ 13) → stringsSplitCRLF s = [s] := by
  intro s
  induction s with
  | nil => intro _; rfl
  | cons x s ih =>
    intro h
    cases s with
    | nil => rfl
    | cons y rest =>
      rw [stringsSplitCRLF]
      have h1 : ¬ (x = 13 ∧ y = 10) := fun hx => h x (by simp) hx.1
      rw [if_neg h1, ih (fun b hb => h b (List.mem_cons_of_mem _ hb))]
      rfl

theorem stringsJoin_consHead (b : Byte) (ls : List GoString) (sep : GoString) (h : ls ≠ []) :
    stringsJoin (consHead b ls) sep = b :: stringsJoin ls sep := by
  rcases ls with _ | ⟨l, _ | ⟨l2, ls⟩⟩
  · exact absurd rfl h
  · rfl
  · rfl

theorem join_split : ∀ (n : Nat) (s : GoString), s.length ≤ n →
    stringsJoin (stringsSplitCRLF s) [13, 10] = s := by
  intro n
  induction n with
  | zero =>
    intro s hs
    have : s = [] := List.length_eq_zero.mp (Nat.le_zero.mp hs)
    subst this
    rfl
  | succ n ih =>
    intro s hs
    rcases s with _ | ⟨x, _ | ⟨y, rest⟩⟩
    · rfl
    · rfl
    · rw [stringsSplitCRLF]
      by_cases h : x = 13 ∧ y = 10
      · rw [if_pos h]
        have hne := stringsSplitCRLF_ne_nil _ rest (Nat.le_refl _)
        cases hl : stringsSplitCRLF rest with
        | nil => exact absurd hl hne
        | cons l ls =>
          rw [stringsJoin, ← hl, ih rest (by simp at hs; omega), h.1, h.2]
          rfl
      · rw [if_neg h, stringsJoin_consHead _ _ _ (stringsSplitCRLF_ne_nil _ _ (Nat.le_refl _)),
          ih (y :: rest) (by simp at hs ⊢; omega)]

theorem digitChar_mem : ∀ d : Fin 10, Nat.digitChar d.val ∈ decimalChars := by decide

theorem toDigitsCore_mem (fuel : Nat) : ∀ (n : Nat) (ds : List Char),
    (∀ c ∈ ds, c ∈ decimalChars) → ∀ c ∈ Nat.toDigitsCore 10 fuel n ds, c ∈ decimalChars := by
  induction fuel with
  | zero => intro n ds h; simpa [Nat.toDigitsCore] using h
  | succ fuel ih =>
    intro n ds h
    have hd : Nat.digitChar (n % 10) ∈ decimalChars :=
      digitChar_mem ⟨n % 10, Nat.mod_lt _ (by decide)⟩
    have hds : ∀ c ∈ Nat.digitChar (n % 10) :: ds, c ∈ decimalChars := by
      intro c hc
      rcases List.mem_cons.mp hc with hc | hc
      · rw [hc]; exact hd
      · exact h c hc
    rw [Nat.toDigitsCore]
    split
    · exact hds
    · exact ih _ _ hds

theorem repr_mem (m : Nat) : ∀ c ∈ (Nat.repr m).data, c ∈ decimalChars := by
  simp only [Nat.repr, Nat.toDigits, List.asString]
  exact toDigitsCore_mem _ _ _ (by simp)

theorem toString_int_mem (n : Int) : ∀ c ∈ (toString n).data, c ∈ decimalChars := by
  cases n with
  | ofNat m => exact repr_mem m
  | negSucc m =>
    intro c hc
    have : (toString (Int.negSucc m)).data = '-' :: (Nat.repr (m + 1)).data := rfl
    rw [this] at hc
    rcases List.mem_cons.mp hc with hc | hc
    · rw [hc]; decide
    · exact repr_mem _ c hc

theorem decimalChars_bytes : ∀ c ∈ decimalChars, ∀ b ∈ (String.utf8EncodeChar c).map (fun b => b.val),
    b ≠ (13 : Byte) ∧ b ≠ 10 := by decide

theorem fmtInt_no_cr_lf (n : Int) : ∀ b ∈ fmtInt n, b ≠ (13 : Byte) ∧ b ≠ 10 := by
  intro b hb
  simp only [fmtInt, lit, List.mem_map, List.mem_flatMap] at hb
  obtain ⟨u, ⟨c, hc, hu⟩, rfl⟩ := hb
  exact decimalChars_bytes c (toString_int_mem n c hc) _ (List.mem_map.mpr ⟨u, hu, rfl⟩)

theorem appendInt_no_cr_lf (x : Int) (width : Nat) :
    ∀ b ∈ appendInt x width, b ≠ (13 : Byte) ∧ b ≠ 10 := by
  intro b hb
  unfold appendInt at hb
  rcases List.mem_append.mp hb with hb | hb
  · rcases List.mem_append.mp hb with hb | hb
    · split at hb
      · have : ∀ a ∈ lit "-", a ≠ (13 : Byte) ∧ a ≠ 10 := by decide
        exact this b hb
      · simp at hb
    · rw [List.eq_of_mem_replicate hb]
      decide
  · exact fmtInt_no_cr_lf _ b hb

theorem formatRFC1123Z_no_cr_lf (t : Time) :
    ∀ b ∈ formatRFC1123Z t, b ≠ (13 : Byte) ∧ b ≠ 10 := by
  have hw : ∀ d : Fin 7, ∀ b ∈ weekdayAbbrev d, b ≠ (13 : Byte) ∧ b ≠ 10 := by decide
  have hm : ∀ m : Fin 12, ∀ b ∈ monthAbbrev m, b ≠ (13 : Byte) ∧ b ≠ 10 := by decide
  have h1 : ∀ b ∈ lit ", ", b ≠ (13 : Byte) ∧ b ≠ 10 := by decide
  have h2 : ∀ b ∈ lit " ", b ≠ (13 : Byte) ∧ b ≠ 10 := by decide
  have h3 : ∀ b ∈ lit ":", b ≠ (13 : Byte) ∧ b ≠ 10 := by decide
  have h4 : ∀ b ∈ lit "-", b ≠ (13 : Byte) ∧ b ≠ 10 := by decide
  have h5 : ∀ b ∈ lit "+", b ≠ (13 : Byte) ∧ b ≠ 10 := by decide
  intro b hb
  unfold formatRFC1123Z at hb
  simp only [List.mem_append, or_assoc] at hb
  rcases hb with hb | hb | hb | hb | hb | hb | hb | hb | hb | hb | hb | hb | hb | hb | hb | hb | hb
  · exact hw _ b hb
  · exact h1 b hb
  · exact appendInt_no_cr_lf _ _ b hb
  · exact h2 b hb
  · exact hm _ b hb
  · exact h2 b hb
  · exact appendInt_no_cr_lf _ _ b hb
  · exact h2 b hb
  · exact appendInt_no_cr_lf _ _ b hb
  · exact h3 b hb
  · exact appendInt_no_cr_lf _ _ b hb
  · exact h3 b hb
  · exact appendInt_no_cr_lf _ _ b hb
  · exact h2 b hb
  · split at hb
    · exact h4 b hb
    · exact h5 b hb
  · exact appendInt_no_cr_lf _ _ b hb
  · exact appendInt_no_cr_lf _ _ b hb

/-- A line of a list of lines sits in their join between two CRLF, when the
join itself is put between two CRLF. -/
theorem join_mem_between (x : GoString) : ∀ (m1 m2 : List GoString),
    ∃ p q, [(13 : Byte), 10] ++ stringsJoin (m1 ++ x :: m2) [13, 10] ++ [13, 10]
      = p ++ [13, 10] ++ x ++ [13, 10] ++ q := by
  intro m1
  induction m1 with
  | nil =>
    intro m2
    cases m2 with
    | nil => exact ⟨[], [], by simp [stringsJoin]⟩
    | cons y m2 => exact ⟨[], stringsJoin (y :: m2) [13, 10] ++ [13, 10], by simp [stringsJoin]⟩
  | cons a m1 ih =>
    intro m2
    obtain ⟨p, q, h⟩ := ih m2
    refine ⟨[13, 10] ++ a ++ p, q, ?_⟩
    have hj : stringsJoin (a :: m1 ++ x :: m2) [13, 10]
        = a ++ [13, 10] ++ stringsJoin (m1 ++ x :: m2) [13, 10] := by
      cases m1 <;> rfl
    rw [hj]
    have h2 : ([(13 : Byte), 10] ++ a) ++ ([13, 10] ++ stringsJoin (m1 ++ x :: m2) [13, 10]
        ++ [13, 10]) = ([13, 10] ++ a) ++ (p ++ [13, 10] ++ x ++ [13, 10] ++ q) := by rw [h]
    simpa using h2

theorem split_append (a b : GoString) :
    stringsSplitCRLF (a ++ 13 :: 10 :: b) = stringsSplitCRLF a ++ stringsSplitCRLF b :=
  split_append_crlf a.length a b (Nat.le_refl _)

theorem split_eq_nil_line (s : GoString) (h : stringsSplitCRLF s = [[]]) : s = [] := by
  have := join_split s.length s (Nat.le_refl _)
  rw [h] at this
  exact this.symm

/-- The lines of the DATA content: the seven header lines, the blank line, the
lines of the body, the line of the lone dot, and the empty line after the last
CRLF. -/
theorem data_lines (c : Client) (toAddr subject body date : GoString) (n : Int)
    (hname : ∀ b ∈ c.SenderName, b ≠ (13 : Byte) ∧ b ≠ 10)
    (hemail : ∀ b ∈ c.SenderEmail, b ≠ (13 : Byte) ∧ b ≠ 10)
    (hto : ∀ b ∈ toAddr, b ≠ (13 : Byte) ∧ b ≠ 10)
    (hsubject : ∀ b ∈ subject, b ≠ (13 : Byte) ∧ b ≠ 10)
    (hdate : ∀ b ∈ date, b ≠ (13 : Byte) ∧ b ≠ 10) :
    stringsSplitCRLF (composeMsg c toAddr subject body date n ++ lit "\r\n")
      = (headers c toAddr subject date n ++ [[]] ++ stringsSplitCRLF body) ++
        lit "." :: [[]] := by
  have l1 : ∀ b ∈ lit "From: ", b ≠ (13 : Byte) := by decide
  have l2 : ∀ b ∈ lit " <", b ≠ (13 : Byte) := by decide
  have l3 : ∀ b ∈ lit ">", b ≠ (13 : Byte) := by decide
  have l4 : ∀ b ∈ lit "To: ", b ≠ (13 : Byte) := by decide
  have l5 : ∀ b ∈ lit "Subject: ", b ≠ (13 : Byte) := by decide
  have l6 : ∀ b ∈ lit "Date: ", b ≠ (13 : Byte) := by decide
  have l7 : ∀ b ∈ lit "Message-ID: <", b ≠ (13 : Byte) := by decide
  have l8 : ∀ b ∈ lit "@whitehouse.gov>", b ≠ (13 : Byte) := by decide
  have l9 : ∀ b ∈ lit "MIME-Version: 1.0", b ≠ (13 : Byte) := by decide
  have l10 : ∀ b ∈ lit "Content-Type: text/plain; charset=UTF-8", b ≠ (13 : Byte) := by decide
  have app : ∀ (x y : GoString), (∀ b ∈ x, b ≠ (13 : Byte)) → (∀ b ∈ y, b ≠ (13 : Byte)) →
      ∀ b ∈ x ++ y, b ≠ (13 : Byte) := by
    intro x y hx hy b hb
    rcases List.mem_append.mp hb with hb | hb
    · exact hx b hb
    · exact hy b hb
  have h1 := split_no_cr (lit "From: " ++ c.SenderName ++ lit " <" ++ c.SenderEmail ++ lit ">")
    (app _ _ (app _ _ (app _ _ (app _ _ l1 (fun b hb => (hname b hb).1)) l2)
      (fun b hb => (hemail b hb).1)) l3)
  have h2 := split_no_cr (lit "To: " ++ toAddr) (app _ _ l4 (fun b hb => (hto b hb).1))
  have h3 := split_no_cr (lit "Subject: " ++ subject)
    (app _ _ l5 (fun b hb => (hsubject b hb).1))
  have h4 := split_no_cr (lit "Date: " ++ date) (app _ _ l6 (fun b hb => (hdate b hb).1))
  have h5 := split_no_cr (lit "Message-ID: <" ++ fmtInt n ++ lit "@whitehouse.gov>")
    (app _ _ (app _ _ l7 (fun b hb => (fmtInt_no_cr_lf n b hb).1)) l8)
  have h6 := split_no_cr (lit "MIME-Version: 1.0") l9
  have h7 := split_no_cr (lit "Content-Type: text/plain; charset=UTF-8") l10
  have hd : composeMsg c toAddr subject body date n ++ lit "\r\n"
      = (lit "From: " ++ c.SenderName ++ lit " <" ++ c.SenderEmail ++ lit ">") ++ 13 :: 10 ::
        ((lit "To: " ++ toAddr) ++ 13 :: 10 ::
        ((lit "Subject: " ++ subject) ++ 13 :: 10 ::
        ((lit "Date: " ++ date) ++ 13 :: 10 ::
        ((lit "Message-ID: <" ++ fmtInt n ++ lit "@whitehouse.gov>") ++ 13 :: 10 ::
        (lit "MIME-Version: 1.0" ++ 13 :: 10 ::
        (lit "Content-Type: text/plain; charset=UTF-8" ++ 13 :: 10 ::
        ([] ++ 13 :: 10 ::
        (body ++ 13 :: 10 :: [46, 13, 10])))))))) := by
    simp only [composeMsg, headers, stringsJoin, lit_crlf_eq,
      show lit "\r\n\r\n" = [(13 : Byte), 10, 13, 10] from by decide,
      show lit "\r\n." = [(13 : Byte), 10, 46] from by decide,
      List.append_assoc, List.cons_append, List.nil_append]
  rw [hd]
  simp only [split_append, h1, h2, h3, h4, h5, h6, h7]
  have h8 : stringsSplitCRLF [] = [[]] := rfl
  have h9 : stringsSplitCRLF [(46 : Byte), 13, 10] = [lit ".", []] := by decide
  rw [h8, h9]
  simp [headers]

theorem append_ne_dot (p x : GoString) (b : Byte) (hp : p.head? = some b) (hb : b ≠ 46) :
    p ++ x ≠ lit "." := by
  intro h
  have h2 := congrArg List.head? h
  cases p with
  | nil => simp at hp
  | cons a p =>
    simp only [List.cons_append, List.head?_cons, Option.some.injEq] at h2 hp
    rw [show lit "." = [(46 : Byte)] from by decide] at h2
    simp only [List.head?_cons, Option.some.injEq] at h2
    exact hb (by rw [← hp, h2])

theorem headers_ne_dot (c : Client) (toAddr subject date : GoString) (n : Int) :
    ∀ l ∈ headers c toAddr subject date n, l ≠ lit "." := by
  intro l hl
  simp only [headers, List.mem_cons, List.mem_singleton, List.not_mem_nil, or_false] at hl
  rcases hl with h | h | h | h | h | h | h
  · rw [h]
    simp only [List.append_assoc]
    exact append_ne_dot _ _ 70 (by decide) (by decide)
  · rw [h]; exact append_ne_dot _ _ 84 (by decide) (by decide)
  · rw [h]; exact append_ne_dot _ _ 83 (by decide) (by decide)
  · rw [h]; exact append_ne_dot _ _ 68 (by decide) (by decide)
  · rw [h]
    simp only [List.append_assoc]
    exact append_ne_dot _ _ 77 (by decide) (by decide)
  · rw [h]; decide
  · rw [h]; decide

/-! ## The recipient pattern -/

theorem Regex.nullable_iff (r : Regex) : r.nullable = true ↔ r.Matches [] := by
  induction r with
  | none => simp only [Regex.nullable, Bool.false_eq_true, false_iff]; intro h; cases h
  | eps => exact ⟨fun _ => Regex.Matches.eps, fun _ => rfl⟩
  | cls ranges =>
    simp only [Regex.nullable, Bool.false_eq_true, false_iff]
    intro h
    generalize hs : ([] : GoString) = s at h
    cases h
    simp at hs
  | cat r s ihr ihs =>
    simp only [Regex.nullable, Bool.and_eq_true, ihr, ihs]
    constructor
    · rintro ⟨h1, h2⟩
      exact Regex.Matches.cat r s [] [] h1 h2
    · intro h
      generalize hs : ([] : GoString) = t at h
      generalize hq : Regex.cat r s = q at h
      cases h <;> cases hq
      rename_i x y hx hy
      obtain ⟨rfl, rfl⟩ := List.append_eq_nil.mp hs.symm
      exact ⟨hx, hy⟩
  | alt r s ihr ihs =>
    simp only [Regex.nullable, Bool.or_eq_true, ihr, ihs]
    constructor
    · rintro (h | h)
      · exact Regex.Matches.altL r s [] h
      · exact Regex.Matches.altR r s [] h
    · intro h
      cases h with
      | altL _ _ _ hx => exact Or.inl hx
      | altR _ _ _ hx => exact Or.inr hx
  | star r _ => exact ⟨fun _ => Regex.Matches.starNil r, fun _ => rfl⟩

/-- A match of `r*` that starts with the byte `b` starts with a match of `r`
that starts with `b`. -/
theorem Regex.star_cons_split (r : Regex) (b : Byte) (s t : GoString)
    (h : (Regex.star r).Matches t) (ht : t = b :: s) :
    ∃ x y, s = x ++ y ∧ r.Matches (b :: x) ∧ (Regex.star r).Matches y := by
  generalize hq : Regex.star r = q at h
  induction h generalizing s with
  | eps => cases hq
  | cls => cases hq
  | cat => cases hq
  | altL => cases hq
  | altR => cases hq
  | starNil => cases ht
  | starCons r2 x y hx hy _ ih2 =>
    cases hq
    cases x with
    | nil => exact ih2 s (by simpa using ht) rfl
    | cons a x =>
      simp only [List.cons_append, List.cons.injEq] at ht
      obtain ⟨rfl, rfl⟩ := ht
      exact ⟨x, y, rfl, hx, hy⟩

theorem Regex.deriv_iff (r : Regex) : ∀ (b : Byte) (s : GoString),
    (r.deriv b).Matches s ↔ r.Matches (b :: s) := by
  induction r with
  | none =>
    intro b s
    simp only [Regex.deriv]
    constructor
    · intro h; cases h
    · intro h; cases h
  | eps =>
    intro b s
    simp only [Regex.deriv]
    constructor
    · intro h; cases h
    · intro h
      generalize hs : b :: s = t at h
      cases h
      cases hs
  | cls ranges =>
    intro b s
    simp only [Regex.deriv]
    constructor
    · intro h
      by_cases hr : inRanges ranges b = true
      · rw [if_pos hr] at h
        generalize hq : Regex.eps = q at h
        cases h <;> cases hq
        exact Regex.Matches.cls ranges b hr
      · rw [if_neg hr] at h
        cases h
    · intro h
      generalize hs : b :: s = t at h
      generalize hq : Regex.cls ranges = q at h
      cases h <;> cases hq
      simp only [List.cons.injEq] at hs
      obtain ⟨rfl, rfl⟩ := hs
      rename_i hin
      rw [if_pos hin]
      exact Regex.Matches.eps
  | cat r s ihr ihs =>
    intro b t
    have key : (Regex.cat r s).Matches (b :: t) ↔
        (∃ x y, t = x ++ y ∧ r.Matches (b :: x) ∧ s.Matches y) ∨
        (r.Matches [] ∧ s.Matches (b :: t)) := by
      constructor
      · intro h
        generalize hs : b :: t = u at h
        generalize hq : Regex.cat r s = q at h
        cases h <;> cases hq
        rename_i x y hx hy
        cases x with
        | nil =>
          simp only [List.nil_append] at hs
          subst hs
          exact Or.inr ⟨hx, hy⟩
        | cons a x =>
          simp only [List.cons_append, List.cons.injEq] at hs
          obtain ⟨rfl, rfl⟩ := hs
          exact Or.inl ⟨x, y, rfl, hx, hy⟩
      · rintro (⟨x, y, rfl, hx, hy⟩ | ⟨hx, hy⟩)
        · exact Regex.Matches.cat r s (b :: x) y hx hy
        · exact Regex.Matches.cat r s [] (b :: t) hx hy
    have hcat : (Regex.cat (r.deriv b) s).Matches t ↔
        ∃ x y, t = x ++ y ∧ r.Matches (b :: x) ∧ s.Matches y := by
      constructor
      · intro h
        generalize hq : Regex.cat (r.deriv b) s = q at h
        cases h <;> cases hq
        rename_i x y hx hy
        exact ⟨x, y, rfl, (ihr b x).mp hx, hy⟩
      · rintro ⟨x, y, rfl, hx, hy⟩
        exact Regex.Matches.cat _ s x y ((ihr b x).mpr hx) hy
    rw [key]
    simp only [Regex.deriv]
    by_cases hn : r.nullable = true
    · rw [if_pos hn]
      constructor
      · intro h
        generalize hq : Regex.alt (Regex.cat (r.deriv b) s) (s.deriv b) = q at h
        cases h <;> cases hq
        · rename_i hx
          exact Or.inl (hcat.mp hx)
        · rename_i hx
          exact Or.inr ⟨(Regex.nullable_iff r).mp hn, (ihs b t).mp hx⟩
      · rintro (h | ⟨-, h⟩)
        · exact Regex.Matches.altL _ _ _ (hcat.mpr h)
        · exact Regex.Matches.altR _ _ _ ((ihs b t).mpr h)
    · rw [if_neg hn, hcat]
      constructor
      · exact Or.inl
      · rintro (h | ⟨h, -⟩)
        · exact h
        · exact absurd ((Regex.nullable_iff r).mpr h) hn
  | alt r s ihr ihs =>
    intro b t
    simp only [Regex.deriv]
    constructor
    · intro h
      generalize hq : Regex.alt (r.deriv b) (s.deriv b) = q at h
      cases h <;> cases hq
      · rename_i hx
        exact Regex.Matches.altL _ _ _ ((ihr b t).mp hx)
      · rename_i hx
        exact Regex.Matches.altR _ _ _ ((ihs b t).mp hx)
    · intro h
      generalize hs : b :: t = u at h
      generalize hq : Regex.alt r s = q at h
      cases h <;> cases hq
      · rename_i hx
        subst hs
        exact Regex.Matches.altL _ _ _ ((ihr b t).mpr hx)
      · rename_i hx
        subst hs
        exact Regex.Matches.altR _ _ _ ((ihs b t).mpr hx)
  | star r ihr =>
    intro b t
    simp only [Regex.deriv]
    constructor
    · intro h
      generalize hq : Regex.cat (r.deriv b) (Regex.star r) = q at h
      cases h <;> cases hq
      rename_i x y hx hy
      exact Regex.Matches.starCons r (b :: x) y ((ihr b x).mp hx) hy
    · intro h
      obtain ⟨x, y, rfl, hx, hy⟩ := Regex.star_cons_split r b t _ h rfl
      exact Regex.Matches.cat _ _ x y ((ihr b x).mpr hx) hy

/-- The matcher decides the language of the expression. -/
theorem regexpMatchString_iff (s : GoString) : ∀ r : Regex,
    regexpMatchString r s = true ↔ r.Matches s := by
  induction s with
  | nil => intro r; exact Regex.nullable_iff r
  | cons b s ih =>
    intro r
    have : regexpMatchString r (b :: s) = regexpMatchString (r.deriv b) s := rfl
    rw [this, ih, Regex.deriv_iff]

theorem Regex.cat_iff (r q : Regex) (s : GoString) :
    (Regex.cat r q).Matches s ↔ ∃ x y, s = x ++ y ∧ r.Matches x ∧ q.Matches y := by
  constructor
  · intro h
    generalize hq : Regex.cat r q = p at h
    cases h <;> cases hq
    rename_i x y hx hy
    exact ⟨x, y, rfl, hx, hy⟩
  · rintro ⟨x, y, rfl, hx, hy⟩
    exact Regex.Matches.cat r q x y hx hy

theorem Regex.cls_iff (ranges : List (Nat × Nat)) (s : GoString) :
    (Regex.cls ranges).Matches s ↔ ∃ b, s = [b] ∧ inRanges ranges b = true := by
  constructor
  · intro h
    generalize hq : Regex.cls ranges = p at h
    cases h <;> cases hq
    rename_i b hb
    exact ⟨b, rfl, hb⟩
  · rintro ⟨b, rfl, hb⟩
    exact Regex.Matches.cls ranges b hb

theorem Regex.star_cls_iff (ranges : List (Nat × Nat)) (s : GoString) :
    (Regex.star (Regex.cls ranges)).Matches s ↔ ∀ b ∈ s, inRanges ranges b = true := by
  constructor
  · intro h
    generalize hq : Regex.star (Regex.cls ranges) = p at h
    induction h with
    | eps => cases hq
    | cls => cases hq
    | cat => cases hq
    | altL => cases hq
    | altR => cases hq
    | starNil => simp
    | starCons r x y hx hy _ ih2 =>
      cases hq
      obtain ⟨a, rfl, ha⟩ := (Regex.cls_iff ranges x).mp hx
      intro b hb
      rcases List.mem_append.mp hb with hb | hb
      · simp only [List.mem_singleton] at hb
        rw [hb]
        exact ha
      · exact ih2 rfl b hb
  · intro h
    induction s with
    | nil => exact Regex.Matches.starNil _
    | cons a s ih =>
      exact Regex.Matches.starCons _ [a] s
        (Regex.Matches.cls ranges a (h a (List.mem_cons_self _ _)))
        (ih (fun b hb => h b (List.mem_cons_of_mem _ hb)))

theorem Regex.plus_cls_iff (ranges : List (Nat × Nat)) (s : GoString) :
    (Regex.plus (Regex.cls ranges)).Matches s ↔ s ≠ [] ∧ ∀ b ∈ s, inRanges ranges b = true := by
  rw [Regex.plus, Regex.cat_iff]
  constructor
  · rintro ⟨x, y, rfl, hx, hy⟩
    obtain ⟨a, rfl, ha⟩ := (Regex.cls_iff ranges x).mp hx
    refine ⟨by simp, ?_⟩
    intro b hb
    rcases List.mem_append.mp hb with hb | hb
    · simp only [List.mem_singleton] at hb
      rw [hb]
      exact ha
    · exact (Regex.star_cls_iff ranges y).mp hy b hb
  · rintro ⟨hne, h⟩
    cases s with
    | nil => exact absurd rfl hne
    | cons a s =>
      exact ⟨[a], s, rfl, Regex.Matches.cls ranges a (h a (List.mem_cons_self _ _)),
        (Regex.star_cls_iff ranges s).mpr (fun b hb => h b (List.mem_cons_of_mem _ hb))⟩

theorem Regex.atLeastTwo_cls_iff (ranges : List (Nat × Nat)) (s : GoString) :
    (Regex.atLeastTwo (Regex.cls ranges)).Matches s ↔
      2 ≤ s.length ∧ ∀ b ∈ s, inRanges ranges b = true := by
  rw [Regex.atLeastTwo, Regex.cat_iff]
  constructor
  · rintro ⟨x, y, rfl, hx, hy⟩
    obtain ⟨a, rfl, ha⟩ := (Regex.cls_iff ranges x).mp hx
    obtain ⟨hne, hall⟩ := (Regex.plus_cls_iff ranges y).mp hy
    refine ⟨?_, ?_⟩
    · cases y with
      | nil => exact absurd rfl hne
      | cons c y => simp
    · intro b hb
      rcases List.mem_append.mp hb with hb | hb
      · simp only [List.mem_singleton] at hb
        rw [hb]
        exact ha
      · exact hall b hb
  · rintro ⟨hlen, h⟩
    rcases s with _ | ⟨a, _ | ⟨c, s⟩⟩
    · simp at hlen
    · simp at hlen
    · exact ⟨[a], c :: s, rfl, Regex.Matches.cls ranges a (h a (List.mem_cons_self _ _)),
        (Regex.plus_cls_iff ranges (c :: s)).mpr
          ⟨by simp, fun b hb => h b (List.mem_cons_of_mem _ hb)⟩⟩

theorem Regex.byte_iff (k : Byte) (s : GoString) :
    (Regex.byte k.val).Matches s ↔ s = [k] := by
  rw [Regex.byte, Regex.cls_iff]
  constructor
  · rintro ⟨b, rfl, hb⟩
    simp only [inRanges, List.any_cons, List.any_nil, Bool.or_false, Bool.and_eq_true,
      decide_eq_true_eq] at hb
    have : b = k := Fin.ext (by omega)
    rw [this]
  · rintro rfl
    exact ⟨k, rfl, by simp [inRanges]⟩

/-- The strings the recipient pattern matches: a non-empty local part of
letters, digits and `._%+-`, the byte `@`, a non-empty domain of letters,
digits and `.-`, the byte `.`, and at least two letters. -/
theorem emailRegex_iff (s : GoString) :
    regexpMatchString emailRegex s = true ↔
      ∃ loc dom tld, s = loc ++ 64 :: (dom ++ 46 :: tld) ∧
        loc ≠ [] ∧
        (∀ b ∈ loc, inRanges [(97, 122), (65, 90), (48, 57), (46, 46), (95, 95), (37, 37),
          (43, 43), (45, 45)] b = true) ∧
        dom ≠ [] ∧
        (∀ b ∈ dom, inRanges [(97, 122), (65, 90), (48, 57), (46, 46), (45, 45)] b = true) ∧
        2 ≤ tld.length ∧ (∀ b ∈ tld, inRanges [(97, 122), (65, 90)] b = true) := by
  have h64 : ∀ t : GoString, (Regex.byte 64).Matches t ↔ t = [(64 : Byte)] :=
    fun t => Regex.byte_iff 64 t
  have h46 : ∀ t : GoString, (Regex.byte 46).Matches t ↔ t = [(46 : Byte)] :=
    fun t => Regex.byte_iff 46 t
  rw [regexpMatchString_iff, emailRegex]
  simp only [Regex.cat_iff, Regex.plus_cls_iff, Regex.atLeastTwo_cls_iff, h64, h46]
  constructor
  · rintro ⟨loc, r1, rfl, ⟨hl1, hl2⟩, at_, r2, rfl, rfl, dom, r3, rfl, ⟨hd1, hd2⟩, dot, tld, rfl,
      rfl, ht1, ht2⟩
    exact ⟨loc, dom, tld, by simp, hl1, hl2, hd1, hd2, ht1, ht2⟩
  · rintro ⟨loc, dom, tld, rfl, hl1, hl2, hd1, hd2, ht1, ht2⟩
    exact ⟨loc, _, rfl, ⟨hl1, hl2⟩, [64], _, rfl, rfl, dom, _, rfl, ⟨hd1, hd2⟩, [46], tld, rfl,
      rfl, ht1, ht2⟩

/-! ## The length check of the handler -/

/-- What the length check of the handler does: a POST request that passes the
required-fields and recipient checks is answered with the "Body too long"
page exactly when the body has more than 1000 bytes. -/
theorem body_too_long_iff_bytes (cfg : Config) (errText : SendError → GoString)
    (toAddr subject body : GoString) (env : Env)
    (h1 : ¬ (toAddr = [] ∨ subject = [] ∨ trimSpaceIsEmpty body = true))
    (h2 : regexpMatchString emailRegex toAddr = true) :
    (sendHandler cfg errText (lit "POST") toAddr subject body env).response
        = Response.page
          { Success := [],
            Error := lit "Body too long! Limit is 1000 characters (current: " ++
              fmtInt body.length ++ lit ")." } ↔
      body.length > 1000 := by
  have hB : ∀ x : GoString,
      (lit "Body too long! Limit is 1000 characters (current: " ++ x).head? = some 66 := by
    intro x
    rw [show lit "Body too long! Limit is 1000 characters (current: "
      = 66 :: lit "ody too long! Limit is 1000 characters (current: " from by decide]
    rfl
  have hF : ∀ x : GoString, (lit "Failed to send email: " ++ x).head? = some 70 := by
    intro x
    rw [show lit "Failed to send email: " = 70 :: lit "ailed to send email: " from by decide]
    rfl
  have h2' : ¬ regexpMatchString emailRegex toAddr = false := by simp [h2]
  unfold sendHandler
  rw [if_neg (by simp), if_neg h1, if_neg h2']
  by_cases h3 : body.length > 1000
  · rw [if_pos h3]
    exact ⟨fun _ => h3, fun _ => rfl⟩
  · rw [if_neg h3]
    refine ⟨fun h => ?_, fun h => absurd h h3⟩
    exfalso
    split at h
    · simp only [Response.page.injEq, PageData.mk.injEq, true_and] at h
      have := congrArg List.head? h
      rw [List.append_assoc, hB] at this
      revert this
      decide
    · dsimp only at h
      split at h
      · simp only [Response.page.injEq, PageData.mk.injEq, true_and] at h
        have := congrArg List.head? h
        rw [List.append_assoc, hB, hF] at this
        simp at this
      · simp only [Response.page.injEq, PageData.mk.injEq] at h
        have := congrArg List.head? h.2
        rw [List.append_assoc, hB] at this
        simp at this

/-- A run of `sendFromAuth` that does not fail up to the DATA command reads a
354 reply to DATA. -/
theorem planFromAuth_reaches_data {c : Client} {toAddr subject body date : GoString} {n : Int}
    {tp : Transport} {res : Option SendError} {evs : List Event}
    (h : PlanEvents tp (planFromAuth c toAddr subject body date n) res evs)
    (hpast : ∀ e, res = some e → e.tag ≠ ErrTag.authPlain ∧ e.tag ≠ ErrTag.mailFrom ∧
      e.tag ≠ ErrTag.rcptTo ∧ e.tag ≠ ErrTag.data) :
    Event.read tp 354 (Reply.code 354) ∈ evs := by
  rw [planFromAuth_split] at h
  rcases h.inv_append with ⟨e, he, hp⟩ | ⟨e1, e2, hp1, hp2, rfl⟩
  · obtain ⟨op, hop⟩ := hp.tag_mem e rfl
    have := hpast e he
    by_cases hc : c.Username ≠ [] ∧ c.Password ≠ []
    · rw [if_pos hc] at hop
      simp [this.1, this.2.1, this.2.2.1] at hop
    · rw [if_neg hc] at hop
      simp [this.2.1, this.2.2.1] at hop
  · rcases hp2.inv_cons with ⟨t, cause, ht, hres, -⟩ | ⟨r, e3, e4, ho, hr, h4, rfl⟩
    · simp only [Option.some.injEq] at ht
      have := (hpast _ hres).2.2.2
      rw [← ht] at this
      exact absurd rfl this
    · have hr1 : r = none := by simpa using hr
      rcases ho.inv_command with ⟨hio, -⟩ | ⟨rep, hrep, rfl⟩
      · rw [hr1] at hio; cases hio
      · rw [hr1] at hrep
        have h354 := failure_read_none (by decide) (by decide) hrep.symm
        subst h354
        simp

/-- The first action after the 354 reply to DATA is the write of the message. -/
theorem after_data_head {tp : Transport} {msg : GoString} {res : Option SendError}
    {evs : List Event}
    (h : PlanEvents tp
      [ (some ErrTag.writeBody, Op.writeString msg),
        (some ErrTag.writeTerminator, Op.writeString (lit "\r\n")),
        (some ErrTag.flushBody, Op.flush),
        (some ErrTag.dataConfirm, Op.readReply 250),
        (none, Op.command (lit "QUIT") 221) ] res evs) :
    ∃ ok tl, evs = Event.writeString tp msg ok :: tl := by
  rcases h.inv_cons with ⟨t, cause, -, -, ho⟩ | ⟨r1, e1, e2, ho1, -, -, rfl⟩
  · obtain ⟨ok, -, rfl⟩ := ho.inv_write
    exact ⟨ok, [], rfl⟩
  · obtain ⟨ok, -, rfl⟩ := ho1.inv_write
    exact ⟨ok, e2, rfl⟩

/-- A run that does not fail before the confirmation of the data writes the
message and CRLF, flushes, all with success, and then reads the reply. -/
theorem after_data_sent {tp : Transport} {msg : GoString} {res : Option SendError}
    {evs : List Event}
    (h : PlanEvents tp
      [ (some ErrTag.writeBody, Op.writeString msg),
        (some ErrTag.writeTerminator, Op.writeString (lit "\r\n")),
        (some ErrTag.flushBody, Op.flush),
        (some ErrTag.dataConfirm, Op.readReply 250),
        (none, Op.command (lit "QUIT") 221) ] res evs)
    (hsent : ∀ e, res = some e → e.tag = ErrTag.dataConfirm) :
    ∃ rep tl, evs = [ Event.writeString tp msg true, Event.writeString tp (lit "\r\n") true,
        Event.flush tp true ] ++ Event.read tp 250 rep :: tl := by
  rcases h.inv_cons with ⟨t, cause, ht, hres, -⟩ | ⟨r1, e1, e2, ho1, hr1, h2, rfl⟩
  · simp only [Option.some.injEq] at ht
    have := hsent _ hres
    rw [← ht] at this
    cases this
  obtain ⟨ok1, hf1, rfl⟩ := ho1.inv_write
  have hok1 : ok1 = true := write_failure_none (by rw [← hf1]; simpa using hr1)
  subst hok1
  rcases h2.inv_cons with ⟨t, cause, ht, hres, -⟩ | ⟨r2, e3, e4, ho2, hr2, h3, rfl⟩
  · simp only [Option.some.injEq] at ht
    have := hsent _ hres
    rw [← ht] at this
    cases this
  obtain ⟨ok2, hf2, rfl⟩ := ho2.inv_write
  have hok2 : ok2 = true := write_failure_none (by rw [← hf2]; simpa using hr2)
  subst hok2
  rcases h3.inv_cons with ⟨t, cause, ht, hres, -⟩ | ⟨r3, e5, e6, ho3, hr3, h4, rfl⟩
  · simp only [Option.some.injEq] at ht
    have := hsent _ hres
    rw [← ht] at this
    cases this
  obtain ⟨ok3, hf3, rfl⟩ := ho3.inv_flush
  have hok3 : ok3 = true := flush_failure_none (by rw [← hf3]; simpa using hr3)
  subst hok3
  rcases h4.inv_cons with ⟨t, cause, -, -, ho⟩ | ⟨r4, e7, e8, ho4, -, -, rfl⟩
  · obtain ⟨rep, -, rfl⟩ := ho.inv_read
    exact ⟨rep, [], rfl⟩
  · obtain ⟨rep, -, rfl⟩ := ho4.inv_read
    exact ⟨rep, e8, rfl⟩

/-- A run of `Send` that does not fail up to the DATA command reads a 354 reply
to DATA, once, and goes on with the message. -/
theorem Send_past_data (c : Client) (toAddr subject body : GoString) (env : Env)
    (hpast : ∀ e, (Send c toAddr subject body env).err = some e →
      e.tag ≠ ErrTag.connect ∧ e.tag ≠ ErrTag.greeting ∧ e.tag ≠ ErrTag.ehlo ∧
      e.tag ≠ ErrTag.postTlsEhlo ∧ e.tag ≠ ErrTag.authPlain ∧ e.tag ≠ ErrTag.mailFrom ∧
      e.tag ≠ ErrTag.rcptTo ∧ e.tag ≠ ErrTag.data) :
    ∃ tp e1 e3, (Send c toAddr subject body env).trace
        = Event.dial (c.Host ++ lit ":" ++ c.Port) true ::
          (e1 ++ Event.read tp 354 (Reply.code 354) :: e3) ++ [Event.close] ∧
      (∀ e ∈ e1, ¬ e.isDataReply) ∧
      PlanEvents tp
        [ (some ErrTag.writeBody,
            Op.writeString (composeMsg c toAddr subject body env.date env.unixNano)),
          (some ErrTag.writeTerminator, Op.writeString (lit "\r\n")),
          (some ErrTag.flushBody, Op.flush),
          (some ErrTag.dataConfirm, Op.readReply 250),
          (none, Op.command (lit "QUIT") 221) ] (Send c toAddr subject body env).err e3 := by
  rcases Send_events c toAddr subject body env with ⟨-, hs⟩ | ⟨-, evs, htr, hev⟩
  · exact absurd rfl (hpast _ (by rw [hs])).1
  · obtain ⟨tp, pre, evs3, rfl, h3⟩ :=
      hev.reached_auth (fun e he => ⟨(hpast e he).2.1, (hpast e he).2.2.1,
        (hpast e he).2.2.2.1⟩)
    have hmem := planFromAuth_reaches_data h3 (fun e he => ⟨(hpast e he).2.2.2.2.1,
      (hpast e he).2.2.2.2.2.1, (hpast e he).2.2.2.2.2.2.1, (hpast e he).2.2.2.2.2.2.2⟩)
    rcases hev.data_split with hno | ⟨tp2, e1, e3, hsplit, h1, hp⟩
    · exact absurd ⟨tp, rfl⟩ (hno _ (List.mem_append_right _ hmem))
    · exact ⟨tp2, e1, e3, by rw [htr, hsplit], h1, hp⟩

theorem dataReply_iff (e : Event) : e.dataReply = true ↔ e.isDataReply := by
  constructor
  · intro h
    cases e with
    | read tp k r =>
      cases r with
      | code code =>
        simp only [Event.dataReply, Bool.and_eq_true, beq_iff_eq] at h
        exact ⟨tp, by rw [h.1, h.2]⟩
      | fail => simp [Event.dataReply] at h
    | _ => simp [Event.dataReply] at h
  · rintro ⟨tp, rfl⟩
    rfl

theorem dropWhile_append_stop {α : Type} (p : α → Bool) (x : α) (l2 : List α) (hx : p x = false) :
    ∀ l1 : List α, (∀ e ∈ l1, p e = true) → (l1 ++ x :: l2).dropWhile p = x :: l2 := by
  intro l1
  induction l1 with
  | nil =>
    intro _
    simp [List.dropWhile, hx]
  | cons a l ih =>
    intro h
    have ha : p a = true := h a (List.mem_cons_self _ _)
    simp only [List.cons_append, List.dropWhile_cons, ha, if_true]
    exact ih (fun e he => h e (List.mem_cons_of_mem _ he))

/-- The DATA content of a run of `Send` that does not fail before the
confirmation of the data is the message followed by CRLF. -/
theorem Send_dataContent (c : Client) (toAddr subject body : GoString) (env : Env)
    (hsent : ∀ e, (Send c toAddr subject body env).err = some e → e.tag = ErrTag.dataConfirm) :
    (∃ pre tp post, (Send c toAddr subject body env).trace
        = pre ++ [ Event.read tp 354 (Reply.code 354),
            Event.writeString tp (composeMsg c toAddr subject body env.date env.unixNano) true,
            Event.writeString tp (lit "\r\n") true,
            Event.flush tp true ] ++ post) ∧
    dataContent (Send c toAddr subject body env).trace
      = composeMsg c toAddr subject body env.date env.unixNano ++ lit "\r\n" := by
  obtain ⟨tp, e1, e3, htr, h1, hp⟩ := Send_past_data c toAddr subject body env (by
    intro e he
    have := hsent e he
    rw [this]
    decide)
  obtain ⟨rep, tl, rfl⟩ := after_data_sent hp hsent
  refine ⟨⟨Event.dial (c.Host ++ lit ":" ++ c.Port) true :: e1, tp,
    Event.read tp 250 rep :: tl ++ [Event.close], by rw [htr]; simp⟩, ?_⟩
  have hshape : (Send c toAddr subject body env).trace
      = (Event.dial (c.Host ++ lit ":" ++ c.Port) true :: e1) ++
        Event.read tp 354 (Reply.code 354) ::
          ([ Event.writeString tp (composeMsg c toAddr subject body env.date env.unixNano) true,
             Event.writeString tp (lit "\r\n") true, Event.flush tp true ] ++
            Event.read tp 250 rep :: tl ++ [Event.close]) := by
    rw [htr]
    simp
  have hpre : ∀ e ∈ Event.dial (c.Host ++ lit ":" ++ c.Port) true :: e1,
      (fun e : Event => !e.dataReply) e = true := by
    intro e he
    rcases List.mem_cons.mp he with he | he
    · rw [he]
      rfl
    · have := h1 e he
      rw [← dataReply_iff] at this
      simpa using this
  unfold dataContent
  rw [hshape, dropWhile_append_stop (fun e : Event => !e.dataReply)
    (Event.read tp 354 (Reply.code 354)) _ rfl _ hpre]
  simp [List.takeWhile, Event.isRead, Event.sent]

/-- A run of `Send` that gets as far as MAIL FROM writes the MAIL FROM command
with the user name of the client. -/
theorem Send_mail_from_written (c : Client) (toAddr subject body : GoString) (env : Env)
    (hreach : ∀ e, (Send c toAddr subject body env).err = some e →
      e.tag ≠ ErrTag.connect ∧ e.tag ≠ ErrTag.greeting ∧ e.tag ≠ ErrTag.ehlo ∧
        e.tag ≠ ErrTag.postTlsEhlo ∧ e.tag ≠ ErrTag.authPlain) :
    ∃ tp ok, Event.cmd tp (lit "MAIL FROM:<" ++ c.Username ++ lit ">") ok
      ∈ (Send c toAddr subject body env).trace := by
  rcases Send_events c toAddr subject body env with ⟨-, hs⟩ | ⟨-, evs, htr, hev⟩
  · exact absurd rfl (hreach _ (by rw [hs])).1
  · obtain ⟨tp, pre, evs3, rfl, h3⟩ :=
      hev.reached_auth (fun e he => ⟨(hreach e he).2.1, (hreach e he).2.2.1,
        (hreach e he).2.2.2.1⟩)
    unfold planFromAuth at h3
    by_cases hc : c.Username ≠ [] ∧ c.Password ≠ []
    · rw [if_pos hc] at h3
      rcases h3.inv_cons with ⟨t, cause, ht, hres, -⟩ | ⟨r, evs4, evs5, -, -, h5, rfl⟩
      · simp only [Option.some.injEq] at ht
        have := (hreach _ hres).2.2.2.2
        rw [← ht] at this
        exact absurd rfl this
      · obtain ⟨ok, tl, rfl⟩ := h5.head_command
        refine ⟨tp, ok, ?_⟩
        rw [htr]
        simp
    · rw [if_neg hc] at h3
      obtain ⟨ok, tl, rfl⟩ := h3.head_command
      refine ⟨tp, ok, ?_⟩
      rw [htr]
      simp

/-- A run of `Send` that gets past the DATA command writes the message as its
next action after the read of the 354 reply. -/
theorem Send_message_written (c : Client) (toAddr subject body : GoString) (env : Env)
    (hpast : ∀ e, (Send c toAddr subject body env).err = some e →
      e.tag ≠ ErrTag.connect ∧ e.tag ≠ ErrTag.greeting ∧ e.tag ≠ ErrTag.ehlo ∧
      e.tag ≠ ErrTag.postTlsEhlo ∧ e.tag ≠ ErrTag.authPlain ∧ e.tag ≠ ErrTag.mailFrom ∧
      e.tag ≠ ErrTag.rcptTo ∧ e.tag ≠ ErrTag.data) :
    ∃ pre tp ok post, (Send c toAddr subject body env).trace
      = pre ++ Event.read tp 354 (Reply.code 354) ::
          Event.writeString tp (composeMsg c toAddr subject body env.date env.unixNano) ok ::
          post := by
  obtain ⟨tp, e1, e3, htr, -, hp⟩ := Send_past_data c toAddr subject body env hpast
  obtain ⟨ok, tl, rfl⟩ := after_data_head hp
  exact ⟨Event.dial (c.Host ++ lit ":" ++ c.Port) true :: e1, tp, ok, tl ++ [Event.close],
    by rw [htr]; simp⟩

/-- A run of `Send` on an open connection never returns the connect error. -/
theorem ConnEvents.not_connect {c : Client} {toAddr subject body date : GoString} {n : Int}
    {res : Option SendError} {evs : List Event}
    (h : ConnEvents c toAddr subject body date n res evs) :
    ∀ e, res = some e → e.tag ≠ ErrTag.connect := by
  intro e he hc
  have hplan : ∀ op, (some e.tag, op) ∉ planFromAuth c toAddr subject body date n := by
    intro op hop
    have := planFromAuth_tags c toAddr subject body date n e.tag op hop
    rw [hc] at this
    simp at this
  cases h with
  | early e2 evs h =>
    cases he
    obtain ⟨op, hop⟩ := h.tag_mem e rfl
    rw [hc] at hop
    simp [planGreeting] at hop
  | upgraded res evs1 evs2 evs3 h1 h2 h3 =>
    obtain ⟨op, hop⟩ := h3.tag_mem e he
    rcases List.mem_cons.mp hop with hop | hop
    · rw [hc] at hop
      simp at hop
    · exact hplan op hop
  | plaintext res cause evs1 evs2 evs3 h1 h2 h3 =>
    obtain ⟨op, hop⟩ := h3.tag_mem e he
    exact hplan op hop

/-- Against a server that accepts every step (and declines STARTTLS), `Send`
succeeds, for every client. -/
theorem Send_accepted (c : Client) (toAddr subject body : GoString) (now : Time) (unixNano : Int) :
    (Send c toAddr subject body
      (scriptedServer (if c.Username ≠ [] ∧ c.Password ≠ [] then
          [220, 250, 250, 235, 250, 250, 354, 250, 221]
        else [220, 250, 250, 250, 250, 354, 250, 221]) now unixNano)).err = none := by
  by_cases hc : c.Username ≠ [] ∧ c.Password ≠ []
  · rw [if_pos hc]
    simp [Send, scriptedServer, sendOnConn, sendFromAuth, sendCommand, Cmd, readResponse,
      WriteString, Flush, World.nextReply, World.nextWrite, codeMismatch, hc.1, hc.2]
  · rw [if_neg hc]
    have hno : (c.Username = [] ∨ c.Password = []) := by
      by_contra h
      push_neg at h
      exact hc h
    rcases hno with hno | hno <;>
    simp [Send, scriptedServer, sendOnConn, sendFromAuth, sendCommand, Cmd, readResponse,
      WriteString, Flush, World.nextReply, World.nextWrite, codeMismatch, hno]


/-! ## The claims -/

/-- C1. For every client, every recipient, subject and body, and every scripted
server: the error `Send` returns is the first failure of a mandatory step, with
its cause, when connect, greeting (220), EHLO (250), STARTTLS (optional),
post-TLS EHLO (250, only after a 220 reply to STARTTLS), AUTH PLAIN (235, only
when attempted), MAIL FROM (250), RCPT TO (250), DATA (354), the message
write/flush, the end-of-data confirmation (250) and QUIT (optional) are
performed in order; `Send` succeeds exactly when there is no such failure.
After a failed dial nothing else happens; after any other failure the failing
action, whose error is the cause returned (for a reply with an unexpected code,
that code), is the last action before the close, so nothing is written after
it; and a failed greeting means that nothing at all was written. -/
theorem send_fails_at_first_mandatory_step (c : Client) (toAddr subject body : GoString)
    (env : Env) :
    ((Send c toAddr subject body env).err.map SendError.report
        = specSend (decide (c.Username ≠ [] ∧ c.Password ≠ [])) env) ∧
    ((Send c toAddr subject body env).err = none ↔
      specSend (decide (c.Username ≠ [] ∧ c.Password ≠ [])) env = none) ∧
    (∀ e, (Send c toAddr subject body env).err = some e →
      (e = ⟨ErrTag.connect, Cause.io⟩ ∧
        (Send c toAddr subject body env).trace
          = [Event.dial (c.Host ++ lit ":" ++ c.Port) false]) ∨
      (∃ pre ev, (Send c toAddr subject body env).trace = pre ++ [ev, Event.close] ∧
        ev.failure = some e.cause)) ∧
    (∀ e, (Send c toAddr subject body env).err = some e → e.tag = ErrTag.greeting →
      ∃ r, (Send c toAddr subject body env).trace
        = [Event.dial (c.Host ++ lit ":" ++ c.Port) true, Event.read Transport.plain 220 r,
            Event.close]) := by
  have hspec := Send_err_eq_specSend c toAddr subject body env
  refine ⟨hspec, ?_, ?_, ?_⟩
  · rw [← hspec]
    cases (Send c toAddr subject body env).err <;> simp
  · intro e he
    rcases Send_events c toAddr subject body env with ⟨-, hs⟩ | ⟨-, evs, htr, hev⟩
    · left
      rw [hs] at he ⊢
      simp only [Option.some.injEq] at he
      exact ⟨he.symm, rfl⟩
    · right
      obtain ⟨pre, ev, hpre, hfail⟩ := hev.conn_last_of_error e he
      refine ⟨Event.dial (c.Host ++ lit ":" ++ c.Port) true :: pre, ev, ?_, hfail⟩
      rw [htr, hpre]
      simp
  · intro e he ht
    rcases Send_events c toAddr subject body env with ⟨-, hs⟩ | ⟨-, evs, htr, hev⟩
    · rw [hs] at he
      simp only [Option.some.injEq] at he
      rw [← he] at ht
      cases ht
    · obtain ⟨r, hr⟩ := hev.greeting_only e he ht
      exact ⟨r, by rw [htr, hr]; rfl⟩

/-- C1 at the default client and a server that rejects RCPT TO with 550: the
first mandatory failure is RCPT TO, with cause the unexpected code 550; that is
the error `Send` returns, and the connection is closed right after the 550
reply. -/
theorem rcpt_to_rejected_with_550 :
    specSend (decide (defaultClient.Username ≠ [] ∧ defaultClient.Password ≠ [])) rejectingServer
      = some (Step.rcptTo, Cause.unexpected 550) ∧
    (Send defaultClient (lit "bob@example.com") (lit "Hi") (lit "hello") rejectingServer).err
      = some ⟨ErrTag.rcptTo, Cause.unexpected 550⟩ ∧
    (Send defaultClient (lit "bob@example.com") (lit "Hi") (lit "hello")
      rejectingServer).trace.reverse.take 2
      = [Event.close, Event.read Transport.plain 250 (Reply.code 550)] :=
  ⟨(send_fails_at_first_mandatory_step defaultClient (lit "bob@example.com") (lit "Hi")
      (lit "hello") rejectingServer).1.symm.trans (by decide), by decide, by decide⟩

/-- C2, as stated, fails: against the server that replies 220, 250, 250, 250,
250, 250, 250, 221, the call `Send("bob@example.com", "Hi", "hello")` of the
default client does not succeed: the sixth reply, 250, answers DATA, which
requires 354. -/
theorem scenario_as_stated_fails_at_data :
    (Send defaultClient (lit "bob@example.com") (lit "Hi") (lit "hello")
      (scriptedServer [220, 250, 250, 250, 250, 250, 250, 221] referenceTime
        1136239445000000000)).err
      = some ⟨ErrTag.data, Cause.unexpected 250⟩ := by
  decide

/-- C2, amended. Against a server that replies 220, 250, 250 (to STARTTLS, so
no upgrade), 250, 250, 354 (to DATA), 250, 221, with no failed write, and for a
client that has no credentials (Username or Password empty), the call
`Send("bob@example.com", "Hi", "hello")` returns nil; it writes one message,
through the plaintext transport, and that message starts with the line
"From: SenderName <SenderEmail>". -/
theorem scenario_succeeds_with_354 (c : Client) (now : Time) (unixNano : Int)
    (hc : c.Username = [] ∨ c.Password = []) :
    (Send c (lit "bob@example.com") (lit "Hi") (lit "hello")
      (scriptedServer [220, 250, 250, 250, 250, 354, 250, 221] now unixNano)).err = none ∧
    (Send c (lit "bob@example.com") (lit "Hi") (lit "hello")
      (scriptedServer [220, 250, 250, 250, 250, 354, 250, 221] now unixNano)).trace
      = [ Event.dial (c.Host ++ lit ":" ++ c.Port) true,
          Event.read Transport.plain 220 (Reply.code 220),
          Event.cmd Transport.plain (lit "EHLO localhost") true,
          Event.read Transport.plain 250 (Reply.code 250),
          Event.cmd Transport.plain (lit "STARTTLS") true,
          Event.read Transport.plain 220 (Reply.code 250),
          Event.cmd Transport.plain (lit "MAIL FROM:<" ++ c.Username ++ lit ">") true,
          Event.read Transport.plain 250 (Reply.code 250),
          Event.cmd Transport.plain (lit "RCPT TO:<" ++ lit "bob@example.com" ++ lit ">") true,
          Event.read Transport.plain 250 (Reply.code 250),
          Event.cmd Transport.plain (lit "DATA") true,
          Event.read Transport.plain 354 (Reply.code 354),
          Event.writeString Transport.plain
            (composeMsg c (lit "bob@example.com") (lit "Hi") (lit "hello") (formatRFC1123Z now)
              unixNano) true,
          Event.writeString Transport.plain (lit "\r\n") true,
          Event.flush Transport.plain true,
          Event.read Transport.plain 250 (Reply.code 250),
          Event.cmd Transport.plain (lit "QUIT") true,
          Event.read Transport.plain 221 (Reply.code 221),
          Event.close ] ∧
    (∃ rest, composeMsg c (lit "bob@example.com") (lit "Hi") (lit "hello") (formatRFC1123Z now)
        unixNano
      = fromHeader c.SenderName c.SenderEmail ++ crlf ++ rest) := by
  have hno : ¬ (c.Username ≠ [] ∧ c.Password ≠ []) := by
    rcases hc with h | h <;> simp [h]
  refine ⟨?_, ?_, ?_⟩
  · simp [Send, scriptedServer, sendOnConn, sendFromAuth, sendCommand, Cmd, readResponse,
      WriteString, Flush, World.nextReply, World.nextWrite, codeMismatch, hno]
  · simp [Send, scriptedServer, sendOnConn, sendFromAuth, sendCommand, Cmd, readResponse,
      WriteString, Flush, World.nextReply, World.nextWrite, codeMismatch, hno, Env.date]
  · exact ⟨_, composeMsg_eq c _ _ _ (formatRFC1123Z now) unixNano⟩

/-- C2, amended, at the default client. -/
theorem scenario_succeeds_with_354_default :
    (Send defaultClient (lit "bob@example.com") (lit "Hi") (lit "hello")
      (scriptedServer [220, 250, 250, 250, 250, 354, 250, 221] referenceTime
        1136239445000000000)).err = none :=
  (scenario_succeeds_with_354 defaultClient referenceTime 1136239445000000000 (Or.inl rfl)).1

/-- C3. For every run of `Send` that gets past the first EHLO (it does not
fail at connect, greeting or EHLO), the trace starts with the dial, the
greeting and the EHLO exchange, and then either
* STARTTLS was sent and answered 220: the very next action is the command
  "EHLO localhost" through the TLS wrapper built with the client's
  `InsecureSkipVerify` and with `ServerName` its `Host`, and every later action
  but the final close goes through that TLS transport; or
* STARTTLS could not be sent, or its reply was not a 220 reply: `Send` reports
  no error for it (and never a post-TLS EHLO error), nothing goes through a TLS
  transport (no handshake), no second EHLO is sent, and the next action is the
  AUTH PLAIN command (when both credentials are set) or else MAIL FROM, on the
  plaintext transport. -/
theorem starttls_upgrades_or_continues_in_plaintext (c : Client)
    (toAddr subject body : GoString) (env : Env)
    (hpast : ∀ e, (Send c toAddr subject body env).err = some e →
      e.tag ≠ ErrTag.connect ∧ e.tag ≠ ErrTag.greeting ∧ e.tag ≠ ErrTag.ehlo) :
    ∃ rest, (Send c toAddr subject body env).trace
        = [ Event.dial (c.Host ++ lit ":" ++ c.Port) true,
            Event.read Transport.plain 220 (Reply.code 220),
            Event.cmd Transport.plain (lit "EHLO localhost") true,
            Event.read Transport.plain 250 (Reply.code 250) ] ++ rest ∧
      ((∃ ok rest2,
          rest = [ Event.cmd Transport.plain (lit "STARTTLS") true,
                   Event.read Transport.plain 220 (Reply.code 220),
                   Event.cmd (Transport.tls c.InsecureSkipVerify c.Host)
                     (lit "EHLO localhost") ok ] ++ rest2 ∧
          ∀ e ∈ rest2, e = Event.close ∨
            e.transport = some (Transport.tls c.InsecureSkipVerify c.Host)) ∨
       (∃ st rest2, rest = st ++ rest2 ∧
          (st = [Event.cmd Transport.plain (lit "STARTTLS") false] ∨
            ∃ r, r ≠ Reply.code 220 ∧
              st = [ Event.cmd Transport.plain (lit "STARTTLS") true,
                     Event.read Transport.plain 220 r ]) ∧
          (∀ e, (Send c toAddr subject body env).err = some e → e.tag ≠ ErrTag.postTlsEhlo) ∧
          (∀ e ∈ rest2, e = Event.close ∨ e.transport = some Transport.plain) ∧
          (∀ tp ok, Event.cmd tp (lit "EHLO localhost") ok ∉ rest2) ∧
          ∃ ok rest3, rest2 = Event.cmd Transport.plain
            (if c.Username ≠ [] ∧ c.Password ≠ [] then
              lit "AUTH PLAIN " ++
                base64EncodeToString (lit "\x00" ++ c.Username ++ lit "\x00" ++ c.Password)
            else lit "MAIL FROM:<" ++ c.Username ++ lit ">") ok :: rest3)) := by
  rcases Send_events c toAddr subject body env with ⟨-, hs⟩ | ⟨-, evs, htr, hev⟩
  · exact absurd rfl (hpast _ (by rw [hs])).1
  · rw [htr]
    generalize (Send c toAddr subject body env).err = res at hev hpast
    cases hev with
    | early e evs h =>
      obtain ⟨op, hop⟩ := h.tag_mem e rfl
      have := hpast e rfl
      simp [planGreeting, this.2.1, this.2.2] at hop
    | upgraded res evs1 evs2 evs3 h1 h2 h3 =>
      have hg := planGreeting_success h1
      subst hg
      rcases h2.inv_command with ⟨hio, -⟩ | ⟨rep, hrep, rfl⟩
      · cases hio
      · have h220 := failure_read_none (by decide) (by decide) hrep.symm
        subst h220
        obtain ⟨ok, tl, rfl⟩ := h3.head_command
        refine ⟨[ Event.cmd Transport.plain (lit "STARTTLS") true,
            Event.read Transport.plain 220 (Reply.code 220),
            Event.cmd (Transport.tls c.InsecureSkipVerify c.Host) (lit "EHLO localhost") ok ]
            ++ (tl ++ [Event.close]), by simp [tlsTransport],
          Or.inl ⟨ok, tl ++ [Event.close], rfl, ?_⟩⟩
        intro e he
        rcases List.mem_append.mp he with he | he
        · exact Or.inr (h3.plan_transport e (List.mem_cons_of_mem _ he))
        · exact Or.inl (by simpa using he)
    | plaintext res cause evs1 evs2 evs3 h1 h2 h3 =>
      have hg := planGreeting_success h1
      subst hg
      refine ⟨evs2 ++ (evs3 ++ [Event.close]), by simp, Or.inr ⟨evs2, evs3 ++ [Event.close], rfl,
        ?_, ?_, ?_, ?_, ?_⟩⟩
      · rcases h2.inv_command with ⟨-, rfl⟩ | ⟨rep, hrep, rfl⟩
        · exact Or.inl rfl
        · exact Or.inr ⟨rep, failure_read_some (by decide) (by decide) hrep.symm, rfl⟩
      · intro e he ht
        obtain ⟨op, hop⟩ := h3.tag_mem e he
        rw [ht] at hop
        have := planFromAuth_tags _ _ _ _ _ _ _ _ hop
        simp at this
      · intro e he
        rcases List.mem_append.mp he with he | he
        · exact Or.inr (h3.plan_transport e he)
        · exact Or.inl (by simpa using he)
      · intro tp ok he
        rcases List.mem_append.mp he with he | he
        · obtain ⟨tag, k, hm⟩ := h3.plan_cmd_mem tp _ ok he
          have := planFromAuth_command_head _ _ _ _ _ _ _ _ _ hm
          rw [show (lit "EHLO localhost").head? = some 69 from by decide] at this
          simp at this
        · simp at he
      · unfold planFromAuth at h3
        by_cases hc : c.Username ≠ [] ∧ c.Password ≠ []
        · rw [if_pos hc] at h3 ⊢
          obtain ⟨ok, tl, rfl⟩ := h3.head_command
          exact ⟨ok, tl ++ [Event.close], rfl⟩
        · rw [if_neg hc] at h3 ⊢
          obtain ⟨ok, tl, rfl⟩ := h3.head_command
          exact ⟨ok, tl ++ [Event.close], rfl⟩

/-- C3 at the default client and a server that accepts STARTTLS: the run gets
past the first EHLO. -/
theorem starttls_upgrade_on_tls_server :
    (∀ e, (Send defaultClient (lit "bob@example.com") (lit "Hi") (lit "hello") tlsServer).err
        = some e →
      e.tag ≠ ErrTag.connect ∧ e.tag ≠ ErrTag.greeting ∧ e.tag ≠ ErrTag.ehlo) ∧
    ∃ rest, (Send defaultClient (lit "bob@example.com") (lit "Hi") (lit "hello") tlsServer).trace
      = [ Event.dial (defaultClient.Host ++ lit ":" ++ defaultClient.Port) true,
          Event.read Transport.plain 220 (Reply.code 220),
          Event.cmd Transport.plain (lit "EHLO localhost") true,
          Event.read Transport.plain 250 (Reply.code 250) ] ++ rest :=
  have hok : (Send defaultClient (lit "bob@example.com") (lit "Hi") (lit "hello") tlsServer).err
      = none := by decide
  have hpast : ∀ e,
      (Send defaultClient (lit "bob@example.com") (lit "Hi") (lit "hello") tlsServer).err
        = some e →
      e.tag ≠ ErrTag.connect ∧ e.tag ≠ ErrTag.greeting ∧ e.tag ≠ ErrTag.ehlo := by
    intro e he
    rw [hok] at he
    cases he
  ⟨hpast, (starttls_upgrades_or_continues_in_plaintext defaultClient _ _ _ tlsServer hpast).imp
    (fun _ h => h.1)⟩

/-- C4. For every client and every run of `Send` that reaches the
authentication point (it does not fail at connect, greeting, EHLO or post-TLS
EHLO): a command "AUTH PLAIN <blob>" is written if and only if `Username` and
`Password` are both non-empty; and in every run, whenever such a command is
written, the standard base64 decoding of `<blob>` is exactly the byte string
NUL, `Username`, NUL, `Password`, whatever bytes and lengths they have. -/
theorem auth_plain_iff_credentials (c : Client) (toAddr subject body : GoString) (env : Env) :
    ((∀ e, (Send c toAddr subject body env).err = some e →
        e.tag ≠ ErrTag.connect ∧ e.tag ≠ ErrTag.greeting ∧ e.tag ≠ ErrTag.ehlo ∧
          e.tag ≠ ErrTag.postTlsEhlo) →
      ((∃ tp blob ok, Event.cmd tp (lit "AUTH PLAIN " ++ blob) ok
          ∈ (Send c toAddr subject body env).trace) ↔
        (c.Username ≠ [] ∧ c.Password ≠ []))) ∧
    (∀ tp blob ok, Event.cmd tp (lit "AUTH PLAIN " ++ blob) ok
        ∈ (Send c toAddr subject body env).trace →
      base64Decode blob = some ((0 : Byte) :: c.Username ++ (0 : Byte) :: c.Password)) := by
  have hhead : ∀ blob : GoString, (lit "AUTH PLAIN " ++ blob).head? = some 65 := by
    intro blob
    rw [show lit "AUTH PLAIN " = 65 :: lit "UTH PLAIN " from by decide]
    rfl
  have hblob : ∀ tp blob ok, Event.cmd tp (lit "AUTH PLAIN " ++ blob) ok
      ∈ (Send c toAddr subject body env).trace →
      (c.Username ≠ [] ∧ c.Password ≠ []) ∧
      blob = base64EncodeToString (lit "\x00" ++ c.Username ++ lit "\x00" ++ c.Password) := by
    intro tp blob ok he
    rcases Send_cmd_head c toAddr subject body env tp _ ok he with
      h | h | h | h | h | h | h
    all_goals first
      | (exact ⟨h.2.2, List.append_cancel_left h.2.1⟩)
      | (exfalso; have h1 := h.1; rw [hhead blob] at h1; simp at h1)
  refine ⟨?_, ?_⟩
  · intro hreach
    constructor
    · rintro ⟨tp, blob, ok, he⟩
      exact (hblob tp blob ok he).1
    · intro hc
      rcases Send_events c toAddr subject body env with ⟨-, hs⟩ | ⟨-, evs, htr, hev⟩
      · exact absurd rfl (hreach _ (by rw [hs])).1
      · obtain ⟨tp, pre, evs3, rfl, h3⟩ := hev.reached_auth (fun e he => (hreach e he).2)
        unfold planFromAuth at h3
        rw [if_pos hc] at h3
        obtain ⟨ok, tl, rfl⟩ := h3.head_command
        refine ⟨tp, base64EncodeToString (lit "\x00" ++ c.Username ++ lit "\x00" ++ c.Password),
          ok, ?_⟩
        rw [htr]
        simp [authLine]
  · intro tp blob ok he
    rw [(hblob tp blob ok he).2, base64_roundtrip,
      show lit "\x00" = [(0 : Byte)] from by decide]
    simp

/-- C5. For every client and every run of `Send`: every MAIL FROM command
written is exactly "MAIL FROM:<Username>" followed by CRLF, and one is written
whenever the run gets as far as MAIL FROM; every string written as message
content is the final CRLF or starts with the line "From: SenderName
<SenderEmail>", followed by content that does not depend on the client, and a
run that gets past the DATA command writes that message as its next action
after the read of the 354 reply.  So a client that differs only in
`SenderName` and `SenderEmail` writes the same MAIL FROM line, and a client
that differs only in `Username` writes the same From header line, each
whenever its run gets there: envelope sender and header From are
independent.  And for every client there is a server against which the run
succeeds and so writes both lines. -/
theorem envelope_sender_is_username (c : Client) (toAddr subject body : GoString) (env : Env) :
    (∀ tp line ok, Event.cmd tp line ok ∈ (Send c toAddr subject body env).trace →
      lit "MAIL FROM" <+: line →
      line = lit "MAIL FROM:<" ++ c.Username ++ lit ">" ∧
      (Event.cmd tp line ok).wire = lit "MAIL FROM:<" ++ c.Username ++ lit ">" ++ lit "\r\n") ∧
    ((∀ e, (Send c toAddr subject body env).err = some e →
        e.tag ≠ ErrTag.connect ∧ e.tag ≠ ErrTag.greeting ∧ e.tag ≠ ErrTag.ehlo ∧
          e.tag ≠ ErrTag.postTlsEhlo ∧ e.tag ≠ ErrTag.authPlain) →
      ∃ tp ok, Event.cmd tp (lit "MAIL FROM:<" ++ c.Username ++ lit ">") ok
        ∈ (Send c toAddr subject body env).trace) ∧
    (∀ tp s ok, Event.writeString tp s ok ∈ (Send c toAddr subject body env).trace →
      s = lit "\r\n" ∨
      s = lit "From: " ++ c.SenderName ++ lit " <" ++ c.SenderEmail ++ lit ">" ++ lit "\r\n" ++
        (stringsJoin (headersAfterFrom toAddr subject env.date env.unixNano) (lit "\r\n")
          ++ lit "\r\n\r\n" ++ body ++ lit "\r\n.")) ∧
    ((∀ e, (Send c toAddr subject body env).err = some e →
        e.tag ≠ ErrTag.connect ∧ e.tag ≠ ErrTag.greeting ∧ e.tag ≠ ErrTag.ehlo ∧
          e.tag ≠ ErrTag.postTlsEhlo ∧ e.tag ≠ ErrTag.authPlain ∧ e.tag ≠ ErrTag.mailFrom ∧
          e.tag ≠ ErrTag.rcptTo ∧ e.tag ≠ ErrTag.data) →
      ∃ pre tp ok post, (Send c toAddr subject body env).trace
        = pre ++ Event.read tp 354 (Reply.code 354) ::
            Event.writeString tp
              (lit "From: " ++ c.SenderName ++ lit " <" ++ c.SenderEmail ++ lit ">" ++ lit "\r\n" ++
                (stringsJoin (headersAfterFrom toAddr subject env.date env.unixNano) (lit "\r\n")
                  ++ lit "\r\n\r\n" ++ body ++ lit "\r\n.")) ok :: post) ∧
    (∀ (name email : GoString) (env2 : Env),
      (∀ tp line ok, Event.cmd tp line ok
          ∈ (Send { c with SenderName := name, SenderEmail := email } toAddr subject body
              env2).trace →
        lit "MAIL FROM" <+: line → line = lit "MAIL FROM:<" ++ c.Username ++ lit ">") ∧
      ((∀ e, (Send { c with SenderName := name, SenderEmail := email } toAddr subject body
            env2).err = some e →
          e.tag ≠ ErrTag.connect ∧ e.tag ≠ ErrTag.greeting ∧ e.tag ≠ ErrTag.ehlo ∧
            e.tag ≠ ErrTag.postTlsEhlo ∧ e.tag ≠ ErrTag.authPlain) →
        ∃ tp ok, Event.cmd tp (lit "MAIL FROM:<" ++ c.Username ++ lit ">") ok
          ∈ (Send { c with SenderName := name, SenderEmail := email } toAddr subject body
              env2).trace)) ∧
    (∀ (user : GoString) (env2 : Env),
      (∀ tp s ok, Event.writeString tp s ok
          ∈ (Send { c with Username := user } toAddr subject body env2).trace →
        s = lit "\r\n" ∨
        s = lit "From: " ++ c.SenderName ++ lit " <" ++ c.SenderEmail ++ lit ">" ++ lit "\r\n" ++
          (stringsJoin (headersAfterFrom toAddr subject env2.date env2.unixNano) (lit "\r\n")
            ++ lit "\r\n\r\n" ++ body ++ lit "\r\n.")) ∧
      ((∀ e, (Send { c with Username := user } toAddr subject body env2).err = some e →
          e.tag ≠ ErrTag.connect ∧ e.tag ≠ ErrTag.greeting ∧ e.tag ≠ ErrTag.ehlo ∧
            e.tag ≠ ErrTag.postTlsEhlo ∧ e.tag ≠ ErrTag.authPlain ∧ e.tag ≠ ErrTag.mailFrom ∧
            e.tag ≠ ErrTag.rcptTo ∧ e.tag ≠ ErrTag.data) →
        ∃ pre tp ok post, (Send { c with Username := user } toAddr subject body env2).trace
          = pre ++ Event.read tp 354 (Reply.code 354) ::
              Event.writeString tp
                (lit "From: " ++ c.SenderName ++ lit " <" ++ c.SenderEmail ++ lit ">" ++
                  lit "\r\n" ++
                  (stringsJoin (headersAfterFrom toAddr subject env2.date env2.unixNano)
                    (lit "\r\n") ++ lit "\r\n\r\n" ++ body ++ lit "\r\n.")) ok :: post)) ∧
    (∃ env2, (Send c toAddr subject body env2).err = none ∧
      (∃ tp ok, Event.cmd tp (lit "MAIL FROM:<" ++ c.Username ++ lit ">") ok
        ∈ (Send c toAddr subject body env2).trace) ∧
      ∃ pre tp ok post, (Send c toAddr subject body env2).trace
        = pre ++ Event.read tp 354 (Reply.code 354) ::
            Event.writeString tp
              (lit "From: " ++ c.SenderName ++ lit " <" ++ c.SenderEmail ++ lit ">" ++ lit "\r\n" ++
                (stringsJoin (headersAfterFrom toAddr subject env2.date env2.unixNano) (lit "\r\n")
                  ++ lit "\r\n\r\n" ++ body ++ lit "\r\n.")) ok :: post) := by
  have hwrite : ∀ (c2 : Client) (env2 : Env) tp s ok,
      Event.writeString tp s ok ∈ (Send c2 toAddr subject body env2).trace →
      s = lit "\r\n" ∨
      s = lit "From: " ++ c2.SenderName ++ lit " <" ++ c2.SenderEmail ++ lit ">" ++ lit "\r\n" ++
        (stringsJoin (headersAfterFrom toAddr subject env2.date env2.unixNano) (lit "\r\n")
          ++ lit "\r\n\r\n" ++ body ++ lit "\r\n.") := by
    intro c2 env2 tp s ok he
    rcases Send_write_mem c2 toAddr subject body env2 tp s ok he with h | h
    · right
      rw [h, composeMsg_eq]
      rfl
    · exact Or.inl h
  have hmsg : ∀ (c2 : Client) (env2 : Env),
      (∀ e, (Send c2 toAddr subject body env2).err = some e →
        e.tag ≠ ErrTag.connect ∧ e.tag ≠ ErrTag.greeting ∧ e.tag ≠ ErrTag.ehlo ∧
          e.tag ≠ ErrTag.postTlsEhlo ∧ e.tag ≠ ErrTag.authPlain ∧ e.tag ≠ ErrTag.mailFrom ∧
          e.tag ≠ ErrTag.rcptTo ∧ e.tag ≠ ErrTag.data) →
      ∃ pre tp ok post, (Send c2 toAddr subject body env2).trace
        = pre ++ Event.read tp 354 (Reply.code 354) ::
            Event.writeString tp
              (lit "From: " ++ c2.SenderName ++ lit " <" ++ c2.SenderEmail ++ lit ">" ++
                lit "\r\n" ++
                (stringsJoin (headersAfterFrom toAddr subject env2.date env2.unixNano)
                  (lit "\r\n") ++ lit "\r\n\r\n" ++ body ++ lit "\r\n.")) ok :: post := by
    intro c2 env2 hpast
    obtain ⟨pre, tp, ok, post, h⟩ := Send_message_written c2 toAddr subject body env2 hpast
    refine ⟨pre, tp, ok, post, ?_⟩
    rw [h, composeMsg_eq]
    rfl
  refine ⟨?_, ?_, ?_, ?_, ?_, ?_, ?_⟩
  · intro tp line ok he hp
    have := Send_mail_from_line c toAddr subject body env tp line ok he hp
    subst this
    exact ⟨rfl, rfl⟩
  · exact Send_mail_from_written c toAddr subject body env
  · exact hwrite c env
  · exact hmsg c env
  · intro name email env2
    refine ⟨?_, ?_⟩
    · intro tp line ok he hp
      exact Send_mail_from_line { c with SenderName := name, SenderEmail := email } toAddr subject
        body env2 tp line ok he hp
    · exact Send_mail_from_written { c with SenderName := name, SenderEmail := email } toAddr
        subject body env2
  · intro user env2
    exact ⟨hwrite { c with Username := user } env2, hmsg { c with Username := user } env2⟩
  · have herr := Send_accepted c toAddr subject body referenceTime 1136239445000000000
    refine ⟨_, herr, ?_, ?_⟩
    · apply Send_mail_from_written
      intro e he
      rw [herr] at he
      cases he
    · apply hmsg
      intro e he
      rw [herr] at he
      cases he

/-- C6. For every client, recipient, subject and body, with `d` the date string
and `n` the timestamp read from the clock: in every run of `Send`, whenever the
trace holds the read of a 354 reply to DATA and, later, a read that expects
250, the actions between the two are the write of the message, the write of
CRLF and the flush, all successful, and the bytes they write are exactly the
seven header lines From, To, Subject, Date, Message-ID, MIME-Version and
Content-Type, joined by CRLF, then CRLF CRLF, then the body unchanged, then
`"\r\n."` and a final CRLF. -/
theorem data_content_is_exact (c : Client) (toAddr subject body : GoString) (env : Env)
    (pre mid post : List Event) (tp tp2 : Transport) (r : Reply)
    (h : (Send c toAddr subject body env).trace
      = pre ++ Event.read tp 354 (Reply.code 354) :: (mid ++ Event.read tp2 250 r :: post)) :
    mid = [ Event.writeString tp (composeMsg c toAddr subject body env.date env.unixNano) true,
            Event.writeString tp (lit "\r\n") true,
            Event.flush tp true ] ∧
    mid.flatMap Event.wire
      = lit "From: " ++ c.SenderName ++ lit " <" ++ c.SenderEmail ++ lit ">" ++ lit "\r\n" ++
        lit "To: " ++ toAddr ++ lit "\r\n" ++
        lit "Subject: " ++ subject ++ lit "\r\n" ++
        lit "Date: " ++ env.date ++ lit "\r\n" ++
        lit "Message-ID: <" ++ fmtInt env.unixNano ++ lit "@whitehouse.gov>" ++ lit "\r\n" ++
        lit "MIME-Version: 1.0" ++ lit "\r\n" ++
        lit "Content-Type: text/plain; charset=UTF-8" ++ lit "\r\n" ++
        lit "\r\n" ++
        body ++ lit "\r\n." ++ lit "\r\n" := by
  have hmem : Event.read tp 354 (Reply.code 354) ∈ (Send c toAddr subject body env).trace := by
    rw [h]; simp
  have hmid : mid = [ Event.writeString tp (composeMsg c toAddr subject body env.date env.unixNano)
      true, Event.writeString tp (lit "\r\n") true, Event.flush tp true ] := by
    rcases Send_events c toAddr subject body env with ⟨-, hs⟩ | ⟨-, evs, htr, hev⟩
    · rw [hs] at hmem
      simp at hmem
    · rw [htr] at h hmem
      rcases hev.data_split with hno | ⟨tp3, e1, e3, rfl, h1, h3⟩
      · exfalso
        simp only [List.cons_append, List.mem_cons, reduceCtorEq, false_or, List.mem_append,
          List.mem_singleton, or_false, List.not_mem_nil] at hmem
        exact hno _ hmem ⟨tp, rfl⟩
      · have hsplit : (Event.dial (c.Host ++ lit ":" ++ c.Port) true :: e1)
            ++ Event.read tp3 354 (Reply.code 354) :: (e3 ++ [Event.close])
            = pre ++ Event.read tp 354 (Reply.code 354)
              :: (mid ++ Event.read tp2 250 r :: post) := by
          rw [← h]; simp
        have h3no : ∀ e ∈ e3 ++ [Event.close], ¬ e.isDataReply := by
          intro e he
          rcases List.mem_append.mp he with he | he
          · exact h3.no_data_reply (by intro tag; simp) e he
          · rintro ⟨tp4, rfl⟩
            simp at he
        have h1no : ∀ e ∈ Event.dial (c.Host ++ lit ":" ++ c.Port) true :: e1,
            ¬ e.isDataReply := by
          intro e he
          rcases List.mem_cons.mp he with he | he
          · rintro ⟨tp4, rfl⟩
            cases he
          · exact h1 e he
        obtain ⟨-, htp, hrest⟩ := unique_split Event.isDataReply _ _ _ _ _ _ hsplit ⟨tp, rfl⟩
          h1no h3no
        simp only [Event.read.injEq, and_true] at htp
        subst htp
        rcases after_data_events h3 with hno | ⟨rep, tl, rfl, htl⟩
        · exfalso
          have : Event.read tp2 250 r ∈ e3 ++ [Event.close] := by rw [← hrest]; simp
          rcases List.mem_append.mp this with he | he
          · exact hno _ he tp2 r rfl
          · simp at he
        · have hsplit2 : [ Event.writeString tp
                (composeMsg c toAddr subject body env.date env.unixNano) true,
              Event.writeString tp (lit "\r\n") true, Event.flush tp true ]
              ++ Event.read tp 250 rep :: (tl ++ [Event.close])
              = mid ++ Event.read tp2 250 r :: post := by
            rw [hrest]; simp
          have hA : ∀ e ∈ [ Event.writeString tp
                (composeMsg c toAddr subject body env.date env.unixNano) true,
              Event.writeString tp (lit "\r\n") true, Event.flush tp true ],
              ¬ e.isRead250 := by
            rintro e he ⟨tp4, r4, rfl⟩
            simp at he
          have hB : ∀ e ∈ tl ++ [Event.close], ¬ e.isRead250 := by
            rintro e he ⟨tp4, r4, rfl⟩
            rcases List.mem_append.mp he with he | he
            · exact htl _ he tp4 r4 rfl
            · simp at he
          exact (unique_split Event.isRead250 _ _ _ _ _ _ hsplit2 ⟨tp2, r, rfl⟩ hA hB).1
  refine ⟨hmid, ?_⟩
  rw [hmid]
  have := composeMsg_crlf_eq_spec c toAddr subject body env.date env.unixNano
  simp only [specDataContent, crlf] at this
  simp only [List.flatMap_cons, List.flatMap_nil, Event.wire, List.append_nil]
  rw [← this]

/-- C6 at the default client and the end-to-end scenario: the bytes between
the 354 reply and the confirmation read. -/
theorem data_content_of_default_scenario :
    ∃ pre mid post,
      (Send defaultClient (lit "bob@example.com") (lit "Hi") (lit "hello") plainServer).trace
        = pre ++ Event.read Transport.plain 354 (Reply.code 354)
            :: (mid ++ Event.read Transport.plain 250 (Reply.code 250) :: post) ∧
      mid.flatMap Event.wire
        = lit ("From: Donald Trump <president@whitehouse.gov>\r\nTo: bob@example.com\r\n" ++
            "Subject: Hi\r\nDate: Mon, 02 Jan 2006 15:04:05 -0700\r\n" ++
            "Message-ID: <1136239445000000000@whitehouse.gov>\r\nMIME-Version: 1.0\r\n" ++
            "Content-Type: text/plain; charset=UTF-8\r\n\r\nhello\r\n.\r\n") :=
  have h : (Send defaultClient (lit "bob@example.com") (lit "Hi") (lit "hello") plainServer).trace
      = ((Send defaultClient (lit "bob@example.com") (lit "Hi") (lit "hello")
          plainServer).trace.take 11)
        ++ Event.read Transport.plain 354 (Reply.code 354)
          :: ((((Send defaultClient (lit "bob@example.com") (lit "Hi") (lit "hello")
              plainServer).trace.drop 12).take 3)
            ++ Event.read Transport.plain 250 (Reply.code 250)
              :: ((Send defaultClient (lit "bob@example.com") (lit "Hi") (lit "hello")
                plainServer).trace.drop 16)) := by
    decide
  ⟨_, _, _, h,
    (data_content_is_exact defaultClient _ _ _ plainServer _ _ _ _ _ _ h).2.trans (by decide)⟩

/-- C7. For every `SenderName`, `SenderEmail`, recipient and subject that hold
no CR or LF, and every body, in every run of `Send` that transmits its DATA
content (the run succeeds, or fails only at the confirmation of the data):
right after the read of the 354 reply the run writes the message, writes CRLF
and flushes, all with success; the DATA content transmitted is the header
lines, an empty line, the body as it is (no dot-stuffing) and the terminator
CRLF "." CRLF; this content holds the terminator only as its last five bytes
if and only if no line of the body, split on CRLF, is exactly "."; and when the
body has such a line, the terminator occurs before the end of the content: the
message is cut short there.  Such a run exists for every client and body: a
server that accepts every step receives exactly this content. -/
theorem lone_dot_line_ends_data_early (c : Client) (toAddr subject body : GoString) (env : Env)
    (hname : ∀ b ∈ c.SenderName, b ≠ (13 : Byte) ∧ b ≠ 10)
    (hemail : ∀ b ∈ c.SenderEmail, b ≠ (13 : Byte) ∧ b ≠ 10)
    (hto : ∀ b ∈ toAddr, b ≠ (13 : Byte) ∧ b ≠ 10)
    (hsubject : ∀ b ∈ subject, b ≠ (13 : Byte) ∧ b ≠ 10)
    (hsent : ∀ e, (Send c toAddr subject body env).err = some e → e.tag = ErrTag.dataConfirm) :
    (∃ pre tp post, (Send c toAddr subject body env).trace
        = pre ++ [ Event.read tp 354 (Reply.code 354),
            Event.writeString tp (composeMsg c toAddr subject body env.date env.unixNano) true,
            Event.writeString tp (lit "\r\n") true,
            Event.flush tp true ] ++ post) ∧
    (dataContent (Send c toAddr subject body env).trace
      = stringsJoin (headers c toAddr subject env.date env.unixNano) (lit "\r\n")
        ++ lit "\r\n\r\n" ++ body ++ lit "\r\n.\r\n") ∧
    ((∀ pre post, dataContent (Send c toAddr subject body env).trace
          = pre ++ lit "\r\n.\r\n" ++ post → post = []) ↔
      lit "." ∉ stringsSplitCRLF body) ∧
    (lit "." ∈ stringsSplitCRLF body →
      ∃ pre post, dataContent (Send c toAddr subject body env).trace
          = pre ++ lit "\r\n.\r\n" ++ post ∧ post ≠ []) ∧
    (∃ env2, (Send c toAddr subject body env2).err = none ∧
      dataContent (Send c toAddr subject body env2).trace
        = stringsJoin (headers c toAddr subject env2.date env2.unixNano) (lit "\r\n")
          ++ lit "\r\n\r\n" ++ body ++ lit "\r\n.\r\n") := by
  obtain ⟨htrace, hcontent⟩ := Send_dataContent c toAddr subject body env hsent
  rw [hcontent]
  have hspec : ∀ env2 : Env, composeMsg c toAddr subject body env2.date env2.unixNano ++ lit "\r\n"
      = stringsJoin (headers c toAddr subject env2.date env2.unixNano) (lit "\r\n")
        ++ lit "\r\n\r\n" ++ body ++ lit "\r\n.\r\n" := by
    intro env2
    simp only [composeMsg, lit_crlf_eq,
      show lit "\r\n\r\n" = [(13 : Byte), 10, 13, 10] from by decide,
      show lit "\r\n." = [(13 : Byte), 10, 46] from by decide,
      show lit "\r\n.\r\n" = [(13 : Byte), 10, 46, 13, 10] from by decide,
      List.append_assoc, List.cons_append, List.nil_append]
  have hT : lit "\r\n.\r\n" = [(13 : Byte), 10, 46, 13, 10] := by decide
  have early : lit "." ∈ stringsSplitCRLF body →
      ∃ pre post, composeMsg c toAddr subject body env.date env.unixNano ++ lit "\r\n"
          = pre ++ lit "\r\n.\r\n" ++ post ∧ post ≠ [] := by
    intro hmem
    obtain ⟨m1, m2, hm⟩ := List.append_of_mem hmem
    have hj := join_split body.length body (Nat.le_refl _)
    rw [hm] at hj
    obtain ⟨p, q, hpq⟩ := join_mem_between (lit ".") m1 m2
    rw [hj] at hpq
    refine ⟨stringsJoin (headers c toAddr subject env.date env.unixNano) (lit "\r\n")
      ++ [13, 10] ++ p, q ++ [46, 13, 10], ?_, by simp⟩
    have hD : composeMsg c toAddr subject body env.date env.unixNano ++ lit "\r\n"
        = stringsJoin (headers c toAddr subject env.date env.unixNano) (lit "\r\n")
          ++ [13, 10] ++ ([13, 10] ++ body ++ [13, 10]) ++ [46, 13, 10] := by
      simp only [composeMsg, lit_crlf_eq,
        show lit "\r\n\r\n" = [(13 : Byte), 10, 13, 10] from by decide,
        show lit "\r\n." = [(13 : Byte), 10, 46] from by decide,
        List.append_assoc, List.cons_append, List.nil_append]
    rw [hD, hpq, hT, show lit "." = [(46 : Byte)] from by decide]
    simp
  refine ⟨htrace, hspec env, ⟨?_, ?_⟩, early, ?_⟩
  rotate_left 2
  · have herr := Send_accepted c toAddr subject body referenceTime 1136239445000000000
    refine ⟨_, herr, ?_⟩
    rw [(Send_dataContent c toAddr subject body _ (by
      intro e he
      rw [herr] at he
      cases he)).2]
    exact hspec _
  · intro honly hmem
    obtain ⟨pre, post, hD, hpost⟩ := early hmem
    exact hpost (honly pre post hD)
  · intro hno pre post hD
    have hlines := data_lines c toAddr subject body env.date env.unixNano hname hemail hto
      hsubject (formatRFC1123Z_no_cr_lf env.now)
    have hsplit : stringsSplitCRLF (pre ++ lit "\r\n.\r\n" ++ post)
        = stringsSplitCRLF pre ++ lit "." :: stringsSplitCRLF post := by
      rw [hT]
      have : pre ++ [(13 : Byte), 10, 46, 13, 10] ++ post
          = pre ++ 13 :: 10 :: ([46] ++ 13 :: 10 :: post) := by simp
      rw [this, split_append, split_append]
      rfl
    rw [hD, hsplit] at hlines
    have hA : ∀ e ∈ headers c toAddr subject env.date env.unixNano ++ [[]]
        ++ stringsSplitCRLF body, ¬ (e = lit ".") := by
      intro e he
      rcases List.mem_append.mp he with he | he
      · rcases List.mem_append.mp he with he | he
        · exact headers_ne_dot _ _ _ _ _ e he
        · simp only [List.mem_singleton] at he
          rw [he]
          decide
      · intro h
        exact hno (h ▸ he)
    have hB : ∀ e ∈ [([] : GoString)], ¬ (e = lit ".") := by
      intro e he
      simp only [List.mem_singleton] at he
      rw [he]
      decide
    have := (unique_split (fun e => e = lit ".") _ _ _ _ _ _ hlines.symm rfl hA hB).2.2
    exact split_eq_nil_line post this

/-- C7 at the default client, a server that accepts every step and a body
whose second line is a lone dot: the run succeeds, the DATA content it
transmits holds the body unchanged, and the terminator occurs in it before the
end. -/
theorem lone_dot_in_second_line :
    (Send defaultClient (lit "bob@example.com") (lit "Hi") (lit "one\r\n.\r\ntwo")
      plainServer).err = none ∧
    dataContent (Send defaultClient (lit "bob@example.com") (lit "Hi") (lit "one\r\n.\r\ntwo")
        plainServer).trace
      = lit ("From: Donald Trump <president@whitehouse.gov>\r\nTo: bob@example.com\r\n" ++
          "Subject: Hi\r\nDate: Mon, 02 Jan 2006 15:04:05 -0700\r\n" ++
          "Message-ID: <1136239445000000000@whitehouse.gov>\r\nMIME-Version: 1.0\r\n" ++
          "Content-Type: text/plain; charset=UTF-8\r\n\r\none\r\n.\r\ntwo\r\n.\r\n") ∧
    ∃ pre post,
      dataContent (Send defaultClient (lit "bob@example.com") (lit "Hi")
          (lit "one\r\n.\r\ntwo") plainServer).trace
        = pre ++ lit "\r\n.\r\n" ++ post ∧ post ≠ [] :=
  have h := lone_dot_line_ends_data_early defaultClient (lit "bob@example.com") (lit "Hi")
    (lit "one\r\n.\r\ntwo") plainServer (by decide) (by decide) (by decide) (by decide)
    (by decide)
  ⟨by decide, h.2.1.trans (by decide), h.2.2.2.1 (by decide)⟩

/-- C8, as stated, fails: when the dial fails, the call of `Send` of the
default client opens no connection and closes none: its only action is the
failed dial. -/
theorem failed_dial_closes_nothing :
    (Send defaultClient (lit "bob@example.com") (lit "Hi") (lit "hello") unreachableServer)
      = ⟨some ⟨ErrTag.connect, Cause.io⟩, [Event.dial (lit "localhost:1025") false]⟩ ∧
    (Send defaultClient (lit "bob@example.com") (lit "Hi") (lit "hello")
      unreachableServer).trace.count Event.close = 0 := by
  decide

/-- C8, amended. For every input and every server behaviour, a call of `Send`
dials exactly once, as its first action, and never a second time (no retry).
When the dial fails, no connection was opened, `Send` returns the connect
error at once, nothing else happens and nothing is closed.  When the dial
succeeds, on every exit path (success, or failure at any step from greeting to
end-of-data confirmation, never the connect error) the connection is closed
exactly once, and the close is the last action of the call. -/
theorem one_dial_and_close_iff_dialed (c : Client) (toAddr subject body : GoString) (env : Env) :
    (∃ rest, (Send c toAddr subject body env).trace
        = Event.dial (c.Host ++ lit ":" ++ c.Port) env.dialOk :: rest ∧
      ∀ e ∈ rest, e.isDial = false) ∧
    (Send c toAddr subject body env).trace.countP Event.isDial = 1 ∧
    (env.dialOk = false →
      (Send c toAddr subject body env).err = some ⟨ErrTag.connect, Cause.io⟩ ∧
      (Send c toAddr subject body env).trace = [Event.dial (c.Host ++ lit ":" ++ c.Port) false] ∧
      (Send c toAddr subject body env).trace.count Event.close = 0) ∧
    (env.dialOk = true →
      (∀ e, (Send c toAddr subject body env).err = some e → e.tag ≠ ErrTag.connect) ∧
      (Send c toAddr subject body env).trace.count Event.close = 1 ∧
      (Send c toAddr subject body env).trace.getLast? = some Event.close) := by
  rcases Send_events c toAddr subject body env with ⟨hd, hs⟩ | ⟨hd, evs, htr, hev⟩
  · rw [hs, hd]
    simp [Event.isDial]
  · have hio : ∀ e ∈ evs, e ≠ Event.close ∧ e.isDial = false := fun e he =>
      not_close_of_transport (hev.on_transport e he)
    have hcount : evs.count Event.close = 0 :=
      List.count_eq_zero.mpr (fun h => (hio _ h).1 rfl)
    have hdial : evs.countP Event.isDial = 0 := by
      rw [List.countP_eq_zero]
      intro e he
      simp [(hio e he).2]
    have herr := hev.not_connect
    rw [htr, hd]
    refine ⟨⟨evs ++ [Event.close], rfl, ?_⟩, ?_, ?_, ?_⟩
    · intro e he
      rcases List.mem_append.mp he with he | he
      · exact (hio e he).2
      · simp at he
        rw [he]
        rfl
    · simp [List.countP_cons, List.countP_append, hdial, Event.isDial]
    · intro h
      cases h
    · intro _
      refine ⟨herr, ?_, ?_⟩
      · rw [List.cons_append, List.count_cons, List.count_append, hcount]
        simp
      · rw [List.getLast?_append]
        rfl

/-- C9. For every request to the `/send` handler with form values `to`,
`subject` and `body`: if the handler calls `client.Send`, it calls it with
these three values, `to` matches the recipient pattern (a non-empty local part
of letters, digits and `._%+-`, then `@`, a non-empty domain of letters, digits
and `.-`, then `.` and at least two letters), and neither `to` nor `subject`
holds a CR or LF byte, so the To and Subject header lines that `Send`
composes hold none either; and a request whose `to` or `subject` holds a CR or
LF is never passed to `Send`, and a POST request of that kind is answered with
an error page. -/
theorem handler_rejects_cr_lf (cfg : Config) (errText : SendError → GoString)
    (method toAddr subject body : GoString) (env : Env) :
    (∀ call, (sendHandler cfg errText method toAddr subject body env).sendCall = some call →
      call.toAddr = toAddr ∧ call.subject = subject ∧ call.body = body ∧
      call.outcome = Send call.client toAddr subject body env ∧
      regexpMatchString emailRegex toAddr = true ∧
      (∃ loc dom tld, toAddr = loc ++ 64 :: (dom ++ 46 :: tld) ∧
        loc ≠ [] ∧
        (∀ b ∈ loc, inRanges [(97, 122), (65, 90), (48, 57), (46, 46), (95, 95), (37, 37),
          (43, 43), (45, 45)] b = true) ∧
        dom ≠ [] ∧
        (∀ b ∈ dom, inRanges [(97, 122), (65, 90), (48, 57), (46, 46), (45, 45)] b = true) ∧
        2 ≤ tld.length ∧ (∀ b ∈ tld, inRanges [(97, 122), (65, 90)] b = true)) ∧
      (∀ b ∈ toAddr, b ≠ 13 ∧ b ≠ 10) ∧ (∀ b ∈ subject, b ≠ 13 ∧ b ≠ 10) ∧
      (∀ date unixNano line,
        (headers call.client toAddr subject date unixNano)[1]? = some line ∨
          (headers call.client toAddr subject date unixNano)[2]? = some line →
        ∀ b ∈ line, b ≠ 13 ∧ b ≠ 10)) ∧
    ((∃ b, (b ∈ toAddr ∨ b ∈ subject) ∧ (b = 13 ∨ b = 10)) →
      (sendHandler cfg errText method toAddr subject body env).sendCall = none ∧
      (method = lit "POST" →
        ∃ msg, msg ≠ [] ∧
          (sendHandler cfg errText method toAddr subject body env).response
            = Response.page { Success := [], Error := msg })) := by
  have hcrlf : ∀ s : GoString, stringsContainsAny s (lit "\r\n") = true ↔
      ∃ b ∈ s, b = 13 ∨ b = 10 := by
    intro s
    simp only [stringsContainsAny, show lit "\r\n" = [(13 : Byte), 10] from by decide,
      List.any_eq_true, List.contains_eq_any_beq, List.any_cons, List.any_nil, Bool.or_false,
      Bool.or_eq_true, beq_iff_eq]
  have hclean : ∀ s : GoString, ¬ stringsContainsAny s (lit "\r\n") = true →
      ∀ b ∈ s, b ≠ 13 ∧ b ≠ 10 := by
    intro s hs b hb
    rw [hcrlf] at hs
    exact ⟨fun h => hs ⟨b, hb, Or.inl h⟩, fun h => hs ⟨b, hb, Or.inr h⟩⟩
  unfold sendHandler
  by_cases hm : method ≠ lit "POST"
  · rw [if_pos hm]
    exact ⟨fun call h => by simp at h, fun _ => ⟨rfl, fun h => absurd h hm⟩⟩
  rw [if_neg hm]
  by_cases h1 : toAddr = [] ∨ subject = [] ∨ trimSpaceIsEmpty body = true
  · rw [if_pos h1]
    exact ⟨fun call h => by simp at h, fun _ => ⟨rfl, fun _ => ⟨_, by decide, rfl⟩⟩⟩
  rw [if_neg h1]
  by_cases h2 : regexpMatchString emailRegex toAddr = false
  · rw [if_pos h2]
    exact ⟨fun call h => by simp at h, fun _ => ⟨rfl, fun _ => ⟨_, by decide, rfl⟩⟩⟩
  rw [if_neg h2]
  by_cases h3 : body.length > 1000
  · rw [if_pos h3]
    refine ⟨fun call h => by simp at h, fun _ => ⟨rfl, fun _ => ⟨_, ?_, rfl⟩⟩⟩
    rw [show lit "Body too long! Limit is 1000 characters (current: "
      = 66 :: lit "ody too long! Limit is 1000 characters (current: " from by decide]
    simp
  rw [if_neg h3]
  by_cases h4 : stringsContainsAny toAddr (lit "\r\n") = true ∨
      stringsContainsAny subject (lit "\r\n") = true
  · rw [if_pos h4]
    exact ⟨fun call h => by simp at h, fun _ => ⟨rfl, fun _ => ⟨_, by decide, rfl⟩⟩⟩
  rw [if_neg h4]
  have hto := hclean toAddr (fun h => h4 (Or.inl h))
  have hsub := hclean subject (fun h => h4 (Or.inr h))
  have hlit : ∀ b ∈ lit "To: ", b ≠ (13 : Byte) ∧ b ≠ 10 := by decide
  have hlit2 : ∀ b ∈ lit "Subject: ", b ≠ (13 : Byte) ∧ b ≠ 10 := by decide
  constructor
  · intro call hcall
    have hcall2 : call = ⟨NewClient cfg.SMTPHost cfg.SMTPPort cfg.SMTPSenderUser
        cfg.SMTPSenderPass cfg.SMTPSenderEmail cfg.SMTPSenderName cfg.InsecureSkipVerify,
        toAddr, subject, body,
        Send (NewClient cfg.SMTPHost cfg.SMTPPort cfg.SMTPSenderUser cfg.SMTPSenderPass
          cfg.SMTPSenderEmail cfg.SMTPSenderName cfg.InsecureSkipVerify) toAddr subject body
          env⟩ := by
      dsimp only at hcall
      split at hcall <;> simp only [Option.some.injEq] at hcall <;> exact hcall.symm
    subst hcall2
    have hmatch : regexpMatchString emailRegex toAddr = true := by simpa using h2
    refine ⟨rfl, rfl, rfl, rfl, hmatch, (emailRegex_iff toAddr).mp hmatch, hto, hsub, ?_⟩
    intro date unixNano line hl b hb
    simp only [headers, List.getElem?_cons_succ, List.getElem?_cons_zero,
      Option.some.injEq] at hl
    rcases hl with hl | hl
    · rw [← hl] at hb
      rcases List.mem_append.mp hb with hb | hb
      · exact hlit b hb
      · exact hto b hb
    · rw [← hl] at hb
      rcases List.mem_append.mp hb with hb | hb
      · exact hlit2 b hb
      · exact hsub b hb
  · rintro ⟨b, hb, hcr⟩
    exfalso
    rcases hb with hb | hb
    · exact h4 (Or.inl ((hcrlf toAddr).mpr ⟨b, hb, hcr⟩))
    · exact h4 (Or.inr ((hcrlf subject).mpr ⟨b, hb, hcr⟩))

/-- C10: the handler counts bytes, not characters.  A POST request with a valid
recipient and subject and a body of 501 characters, each of them the two-byte
character U+00E9, is rejected with "Body too long! Limit is 1000 characters
(current: 1002).", and `Send` is not called. -/
theorem body_limit_counts_bytes :
    accentedBody.length = 501 ∧
    sendHandler defaultConfig (fun _ => []) (lit "POST") (lit "a@b.co") (lit "s")
        (lit accentedBody) plainServer
      = { response := Response.page
            { Success := [],
              Error := lit "Body too long! Limit is 1000 characters (current: 1002)." },
          sendCall := none } := by
  decide

end PhishingSimulator
